import Mathlib

/-!
Verification development for the optimism reactive-memoization core.

The definitions below are a shallow embedding of the TypeScript sources:

* src/src/entry.ts (first revision in the file: the Value-array based
  Entry class with recompute / setDirty / dispose / reportDirtyChild /
  reportCleanChild / forgetChildren / maybeSubscribe / maybeUnsubscribe);
* src/src/index.ts (second revision: wrap with the caches set, quiescent
  clean, lookup, dirty, peek, forget) together with the dirtyKey /
  peekKey / forgetKey variants of src/unnamed/part_014;
* src/src/dep.ts (dep with depend.dirty);
* src/src/context.ts (noContext = run with the parent slot cleared; the
  dynamically scoped parent slot is modelled by an explicit parameter
  threaded through the interpreter);
* src/unnamed/part_009, final revision (the LRU Cache class).

JavaScript object identity is modelled by tagging every allocated value
(function results, thrown values, Error objects) with a fresh numeric id:
two values are referentially identical iff their ids coincide.  Mutable
JS state becomes explicit state passing over the Sys record.  User
functions are drawn from a small Body language whose calls re-enter the
wrapper machinery, which is what the source allows through closures.
All recursion through the mutable graph is made total with an explicit
fuel argument; running out of fuel is a distinct nofuel outcome, never
confused with a thrown exception.
-/

namespace Optimism

/-- Payload of a JS value: either an ordinary datum (a number) or an
Error object carrying a message (created by the assert helper or by
valueGet on an unknown value). -/
inductive ObjData : Type
  | num (n : Nat)
  | errMsg (s : String)
deriving DecidableEq, Repr

/-- A JS object/value with its identity: oid is the allocation id, and
two values are referentially identical (the === of the source) iff their
oids are equal. -/
structure Obj : Type where
  oid : Nat
  data : ObjData
deriving DecidableEq, Repr

/-- The Value type of src/src/entry.ts: an empty array is an unknown
value, a one-element array an ordinary cached value, a two-element array
a cached exception.  valueCopy (Array.slice) is the identity here
because the embedding stores immutable snapshots. -/
inductive Value : Type
  | unknown
  | known (o : Obj)
  | exc (o : Obj)
deriving DecidableEq, Repr

/-- valueIs from src/src/entry.ts lines 23-33: both arrays nonempty, of
the same length, with identical (===) last element. -/
def valueIs (a b : Value) : Bool :=
  match a, b with
  | .known x, .known y => x.oid == y.oid
  | .exc x, .exc y => x.oid == y.oid
  | _, _ => false

/-! ## Association-list helpers

JS Map objects keep insertion order; a Map is embedded as a list of
key-value pairs with new keys appended at the end.  JS Set objects are
lists without duplicates (insertion adds only absent elements). -/

/-- Map.get. -/
def lookupA {β : Type} (l : List (Nat × β)) (k : Nat) : Option β :=
  match l with
  | [] => none
  | (k', v) :: rest => if k' = k then some v else lookupA rest k

/-- Map.has. -/
def containsKeyA {β : Type} (l : List (Nat × β)) (k : Nat) : Bool :=
  (lookupA l k).isSome

/-- Map.set: overwrite the binding in place (keeping its position, as a
JS Map keeps the original insertion position), or append a new key at
the end. -/
def setA {β : Type} : List (Nat × β) → Nat → β → List (Nat × β)
  | [], k, v => [(k, v)]
  | (k', w) :: rest, k, v =>
      if k' = k then (k, v) :: rest else (k', w) :: setA rest k v

/-- Map.delete (also used for Set.delete via the unit-valued map view). -/
def eraseA {β : Type} (l : List (Nat × β)) (k : Nat) : List (Nat × β) :=
  l.filter (fun p => p.1 ≠ k)

/-- Set.add: append only when absent, preserving insertion order. -/
def insertIfAbsent (l : List Nat) (x : Nat) : List Nat :=
  if l.contains x then l else l ++ [x]

/-- Set.delete for element lists. -/
def eraseElem (l : List Nat) (x : Nat) : List Nat :=
  l.filter (fun y => y ≠ x)

/-! ## The LRU Cache (src/unnamed/part_009, final revision)

The source keeps a Map plus an intrusive doubly-linked recency list over
the same nodes; both structures always hold exactly the same set of
keys, so the embedding merges them into one list of key-value pairs
ordered newest first (this.newest is the head, this.oldest the last
element).  getEntry's promotion becomes move-to-front. -/

/-- A dispose-callback invocation recorded by delete: the value and key
passed to this.dispose, and whether the key was still present in the map
at the instant the callback was invoked (observed at the translated
program point of the dispose call, which in the source is after
this.map.delete(key)). -/
structure DisposeCall (K V : Type) : Type where
  value : V
  key : K
  keyPresent : Bool
deriving DecidableEq, Repr

/-- The Cache class: entries newest-first, with the max bound. -/
structure Cache (K V : Type) : Type where
  entries : List (K × V)
  max : Nat
deriving DecidableEq, Repr

/-- Map.get on the merged representation. -/
def Cache.lookup {K V : Type} [DecidableEq K] (c : Cache K V) (k : K) : Option V :=
  match c.entries.find? (fun p => p.1 = k) with
  | some p => some p.2
  | none => none

/-- Cache.has. -/
def Cache.has {K V : Type} [DecidableEq K] (c : Cache K V) (k : K) : Bool :=
  (c.lookup k).isSome

/-- getEntry: on a hit move the node to the front (promotion to MRU);
on a miss leave the cache untouched. -/
def Cache.getEntry {K V : Type} [DecidableEq K] (c : Cache K V) (k : K) :
    Option V × Cache K V :=
  match c.entries.find? (fun p => p.1 = k) with
  | some p =>
      (some p.2, { c with entries := p :: c.entries.filter (fun q => q.1 ≠ k) })
  | none => (none, c)

/-- Cache.get: getEntry and return the value. -/
def Cache.get {K V : Type} [DecidableEq K] (c : Cache K V) (k : K) :
    Option V × Cache K V :=
  Cache.getEntry c k

/-- Cache.set: overwrite (after promotion) an existing node, or push a
fresh node as the newest. -/
def Cache.set {K V : Type} [DecidableEq K] (c : Cache K V) (k : K) (v : V) :
    Cache K V :=
  match Cache.getEntry c k with
  | (some _, c') => { c' with entries := (k, v) :: c'.entries.tail }
  | (none, c') => { c' with entries := (k, v) :: c'.entries }

/-- Cache.delete, src/unnamed/part_009 lines 566-593: unlink the node
and remove the key from the map, then invoke this.dispose(entry.value,
key).  The DisposeCall records the map-membership of the key at the
moment dispose is invoked. -/
def Cache.delete {K V : Type} [DecidableEq K] (c : Cache K V) (k : K) :
    Bool × Cache K V × List (DisposeCall K V) :=
  match c.lookup k with
  | none => (false, c, [])
  | some v =>
      let entries1 := c.entries.filter (fun q => q.1 ≠ k)
      let c1 : Cache K V := { c with entries := entries1 }
      (true, c1, [⟨v, k, c1.has k⟩])

/-- The while-loop body of Cache.clean, with the list length as the
structurally decreasing bound (each successful delete shrinks the
list). -/
def Cache.cleanGo {K V : Type} [DecidableEq K] (c : Cache K V) :
    Nat → Cache K V × List (DisposeCall K V)
  | 0 => (c, [])
  | n + 1 =>
      match c.entries.getLast? with
      | none => (c, [])
      | some last =>
          if c.entries.length > c.max then
            let r := Cache.delete c last.1
            let rest := Cache.cleanGo r.2.1 n
            (rest.1, r.2.2 ++ rest.2)
          else
            (c, [])

/-- Cache.clean, src/unnamed/part_009 lines 560-564: while (this.oldest
and this.map.size is above this.max) delete this.oldest.key. -/
def Cache.clean {K V : Type} [DecidableEq K] (c : Cache K V) :
    Cache K V × List (DisposeCall K V) :=
  Cache.cleanGo c c.entries.length

/-- Cache size (this.map.size). -/
def Cache.size {K V : Type} (c : Cache K V) : Nat :=
  c.entries.length

/-! ## The Entry graph state -/

/-- Observable events of a run, recorded in order.  invoke marks a call
of an entry's user function; setDirtyEv marks a non-no-op setDirty;
delEv marks a cache deletion that fired the wrapper's dispose handler
for entry e (present records whether the key was still in the map when
the handler ran); unsubEv/subEv mark unsubscribe/subscribe calls;
depUnsubEv marks a dep-set unsubscribe; threwEv marks a wrapper frame
whose entry.recompute propagated an exception. -/
inductive Ev : Type
  | invoke (e : Nat)
  | setDirtyEv (e : Nat)
  | delEv (w k e : Nat) (present : Bool)
  | unsubEv (e : Nat)
  | subEv (e : Nat)
  | depUnsubEv (k : Nat)
  | threwEv (w k : Nat)
deriving DecidableEq, Repr

/-- The Entry class of src/src/entry.ts (first revision): wid and keyArg
identify the owning wrapper and the cache key / argument (the fn and
args fields; also the data behind the forget closure of
src/unnamed/part_014), sub is the configured subscribe behaviour (none
when no subscribe option, some true for a subscribe that returns an
unsubscriber, some false for a throwing subscribe), unsub the currently
stored unsubscribe (identified by its allocation id).  A null
dirtyChildren set and an empty one are both the empty list; the
emptySetPool recycling is a dropped allocation optimization the source
itself calls optional. -/
structure Entry : Type where
  wid : Nat
  keyArg : Nat
  sub : Option Bool
  unsub : Option Nat
  parents : List Nat
  childValues : List (Nat × Value)
  dirtyChildren : List Nat
  dirty : Bool
  recomputing : Bool
  value : Value
deriving DecidableEq, Repr

/-- new Entry(fn, args): dirty, not recomputing, unknown value, no
links. -/
def freshEntry (w k : Nat) (sub : Option Bool) : Entry :=
  { wid := w, keyArg := k, sub := sub, unsub := none, parents := [],
    childValues := [], dirtyChildren := [], dirty := true,
    recomputing := false, value := .unknown }

/-- The whole mutable world: the entry heap (ids to entries), the
per-wrapper LRU caches (keyed by wrapper id, values are entry ids), the
caches set of wrappers awaiting a quiescent clean, allocation counters
for entry ids and object ids, the external mutable environment read by
user functions (closure state), and the event log. -/
structure Sys : Type where
  heap : List (Nat × Entry)
  caches : List (Nat × Cache Nat Nat)
  pending : List Nat
  nextE : Nat
  nextO : Nat
  ext : Nat
  log : List Ev
deriving DecidableEq, Repr

/-- Dereference an entry id (JS references are always valid; ids never
allocated dereference to an inert fresh entry). -/
def getE (S : Sys) (e : Nat) : Entry :=
  (lookupA S.heap e).getD (freshEntry 0 0 none)

/-- Store an entry under an id. -/
def setE (S : Sys) (e : Nat) (v : Entry) : Sys :=
  { S with heap := setA S.heap e v }

/-- Mutate one entry in place. -/
def updE (S : Sys) (e : Nat) (g : Entry → Entry) : Sys :=
  setE S e (g (getE S e))

/-- Append an event to the log. -/
def logEv (S : Sys) (ev : Ev) : Sys :=
  { S with log := S.log ++ [ev] }

/-- new Error(msg): allocate a fresh Error object. -/
def mkErr (S : Sys) (msg : String) : Obj × Sys :=
  (⟨S.nextO, .errMsg msg⟩, { S with nextO := S.nextO + 1 })

/-- mightBeDirty from src/src/entry.ts lines 186-188. -/
def mightBeDirty (e : Entry) : Bool :=
  e.dirty || !e.dirtyChildren.isEmpty

/-- Outcome of a translated statement: normal completion with a result
and the new state, a propagating JS exception, or fuel exhaustion (an
artifact of the embedding, never a behaviour of the source). -/
inductive Step (α : Type) : Type
  | ok (a : α) (S : Sys)
  | thrown (o : Obj) (S : Sys)
  | nofuel (S : Sys)
deriving DecidableEq

/-- maybeUnsubscribe from src/src/entry.ts lines 324-330: if an
unsubscribe is stored, clear it and call it (modelled unsubscribers do
not throw; no claim concerns a throwing unsubscribe). -/
def maybeUnsubscribe (S : Sys) (e : Nat) : Sys :=
  match (getE S e).unsub with
  | some _ => logEv (updE S e (fun est => { est with unsub := none })) (.unsubEv e)
  | none => S

/-- removeDirtyChild from src/src/entry.ts lines 254-265 (the
emptySetPool recycling is dropped; null and empty coincide here). -/
def removeDirtyChild (S : Sys) (p c : Nat) : Sys :=
  updE S p (fun e => { e with dirtyChildren := eraseElem e.dirtyChildren c })

/-! ## The dirty/clean propagation family

These translate Entry.setDirty, reportDirty, reportDirtyChild,
reportClean, reportCleanChild of src/src/entry.ts.  The source
recursion runs over a possibly cyclic parents graph and terminates by
the monotone growth of the dirtyChildren sets; the embedding uses an
explicit fuel.  The forEach loops over parents fold over a snapshot of
the set, which matches JS Set.forEach because these loops never modify
a parents set. -/

/-- reportDirtyChild, src/src/entry.ts lines 211-229, asserts
included, together with the reportDirty loop it recurses through.  The
source recursion is depth-first: reportDirtyChild(p, c) adds c to
p.dirtyChildren and then calls reportDirtyChild(gp, p) for each gp in
p.parents in order.  Here the pending calls are an explicit worklist of
(parent, child) pairs processed in the same depth-first order, with
fuel the structurally decreasing argument. -/
def reportDirtyWork : Nat → Sys → List (Nat × Nat) → Step Unit
  | _, S, [] => .ok () S
  | 0, S, _ :: _ => .nofuel S
  | f + 1, S, (p, c) :: rest =>
      if !containsKeyA (getE S p).childValues c then
        let r := mkErr S "assertion failure"
        .thrown r.1 r.2
      else if !mightBeDirty (getE S c) then
        let r := mkErr S "assertion failure"
        .thrown r.1 r.2
      else if (getE S p).dirtyChildren.contains c then
        reportDirtyWork f S rest
      else
        let S1 := updE S p (fun e => { e with dirtyChildren := e.dirtyChildren ++ [c] })
        reportDirtyWork f S1 (((getE S1 p).parents.map (fun gp => (gp, p))) ++ rest)

/-- reportDirty: child.parents.forEach(parent =>
reportDirtyChild(parent, child)). -/
def reportDirty (fuel : Nat) (S : Sys) (c : Nat) : Step Unit :=
  reportDirtyWork fuel S ((getE S c).parents.map (fun p => (p, c)))

/-- Entry.setDirty, src/src/entry.ts lines 96-105. -/
def setDirty (fuel : Nat) (S : Sys) (e : Nat) : Step Unit :=
  if (getE S e).dirty then .ok () S
  else
    match fuel with
    | 0 => .nofuel S
    | f + 1 =>
        let S1 := logEv (updE S e (fun est => { est with dirty := true, value := .unknown }))
          (.setDirtyEv e)
        match reportDirty f S1 e with
        | .ok _ S2 => .ok () (maybeUnsubscribe S2 e)
        | .thrown o S2 => .thrown o S2
        | .nofuel S2 => .nofuel S2

/-- reportCleanChild, src/src/entry.ts lines 232-252, asserts included,
together with the reportClean loop it recurses through, as a
depth-first worklist of (parent, child) pairs: record the child value
when unknown, mark the parent dirty when the recorded value disagrees,
drop the child from dirtyChildren, and propagate cleanliness upward
when the parent became fully clean. -/
def reportCleanWork : Nat → Sys → List (Nat × Nat) → Step Unit
  | _, S, [] => .ok () S
  | 0, S, _ :: _ => .nofuel S
  | f + 1, S, (p, c) :: rest =>
      if !containsKeyA (getE S p).childValues c then
        let r := mkErr S "assertion failure"
        .thrown r.1 r.2
      else if mightBeDirty (getE S c) then
        let r := mkErr S "assertion failure"
        .thrown r.1 r.2
      else
        let childValue := (lookupA (getE S p).childValues c).getD .unknown
        let step1 : Step Unit :=
          if childValue = .unknown then
            .ok () (updE S p (fun e =>
              { e with childValues := setA e.childValues c (getE S c).value }))
          else if !valueIs childValue (getE S c).value then
            setDirty f S p
          else
            .ok () S
        match step1 with
        | .ok _ S1 =>
            let S2 := removeDirtyChild S1 p c
            if mightBeDirty (getE S2 p) then reportCleanWork f S2 rest
            else reportCleanWork f S2
              (((getE S2 p).parents.map (fun gp => (gp, p))) ++ rest)
        | .thrown o S1 => .thrown o S1
        | .nofuel S1 => .nofuel S1

/-- reportClean: child.parents.forEach(parent =>
reportCleanChild(parent, child)). -/
def reportClean (fuel : Nat) (S : Sys) (c : Nat) : Step Unit :=
  reportCleanWork fuel S ((getE S c).parents.map (fun p => (p, c)))

/-- A single reportDirtyChild call (one-element worklist). -/
def reportDirtyChild (fuel : Nat) (S : Sys) (p c : Nat) : Step Unit :=
  reportDirtyWork fuel S [(p, c)]

/-- A single reportCleanChild call (one-element worklist). -/
def reportCleanChild (fuel : Nat) (S : Sys) (p c : Nat) : Step Unit :=
  reportCleanWork fuel S [(p, c)]

/-- setClean, src/src/entry.ts lines 190-200. -/
def setClean (fuel : Nat) (S : Sys) (e : Nat) : Step Unit :=
  let S1 := updE S e (fun est => { est with dirty := false })
  if mightBeDirty (getE S1 e) then .ok () S1
  else reportClean fuel S1 e

/-- forgetChild, src/src/entry.ts lines 298-302. -/
def forgetChild (S : Sys) (p c : Nat) : Sys :=
  let S1 := updE S c (fun e => { e with parents := eraseElem e.parents p })
  let S2 := updE S1 p (fun e => { e with childValues := eraseA e.childValues c })
  removeDirtyChild S2 p c

/-- forgetChildren, src/src/entry.ts lines 280-296: sever every child
edge (the Map.forEach deletes only the visited key, so the snapshot
fold is the JS iteration), then assert dirtyChildren is empty, and
return the removed children. -/
def forgetChildren (S : Sys) (p : Nat) : Step (List Nat) :=
  let children := (getE S p).childValues.map (fun q => q.1)
  let S1 := children.foldl (fun acc c => forgetChild acc p c) S
  if (getE S1 p).dirtyChildren = [] then .ok children S1
  else
    let r := mkErr S1 "assertion failure"
    .thrown r.1 r.2

/-- maybeSubscribe, src/src/entry.ts lines 304-322: with no subscribe
configured report success; otherwise first unsubscribe, then either
store a fresh unsubscriber or (when the subscribe throws) mark the
entry dirty and report failure. -/
def maybeSubscribe (fuel : Nat) (S : Sys) (e : Nat) : Step Bool :=
  match (getE S e).sub with
  | none => .ok true S
  | some b =>
      let S1 := maybeUnsubscribe S e
      if b then
        let S2 := logEv (updE S1 e (fun est => { est with unsub := some S1.nextO })) (.subEv e)
        .ok true { S2 with nextO := S2.nextO + 1 }
      else
        match setDirty fuel S1 e with
        | .ok _ S2 => .ok false S2
        | .thrown o S2 => .thrown o S2
        | .nofuel S2 => .nofuel S2

/-- The parents loop of Entry.dispose: parent.setDirty() then
forgetChild(parent, this), over a snapshot of the parents set (the loop
body removes only the visited element from that set). -/
def disposePs (fuel : Nat) (S : Sys) (ps : List Nat) (e : Nat) : Step Unit :=
  match ps with
  | [] => .ok () S
  | p :: rest =>
      match setDirty fuel S p with
      | .ok _ S1 => disposePs fuel (forgetChild S1 p e) rest e
      | .thrown o S1 => .thrown o S1
      | .nofuel S1 => .nofuel S1

/-- Entry.dispose, src/src/entry.ts lines 107-126.  The
maybeReportOrphan pass over the forgotten children is the identity
because the modelled wrap (src/src/index.ts, second revision) never
installs a reportOrphan callback. -/
def dispose (fuel : Nat) (S : Sys) (e : Nat) : Step Unit :=
  match forgetChildren S e with
  | .ok _ S1 =>
      let S2 := maybeUnsubscribe S1 e
      disposePs fuel S2 (getE S2 e).parents e
  | .thrown o S1 => .thrown o S1
  | .nofuel S1 => .nofuel S1

/-! ## User functions

A user function body is a sequence of wrapper calls ending in a return
or a throw; calls can be plain (exceptions propagate), wrapped in
try/catch (exceptions swallowed, as user code may do), or performed
inside noContext (src/src/context.ts lines 28-30: the parent slot is
cleared for the duration of the call).  Returned and thrown values are
freshly allocated objects, so re-running a body yields structurally
equal but referentially distinct results, exactly as a JS function
building a new object on each call. -/
inductive Body : Type
  | ret (n : Nat)
  | throwB (n : Nat)
  | seqCall (w a : Nat) (rest : Body)
  | catchCall (w a : Nat) (rest : Body)
  | noCtxCall (w a : Nat) (rest : Body)
deriving DecidableEq, Repr

/-- One wrapped function as created by wrap(originalFunction, options):
the body as a function of the external closure state and of the call
argument (which is also the cache key: the modelled makeCacheKey is the
identity and keyArgs is absent), the max option (the LRU bound), and
the subscribe option. -/
structure WSpec : Type where
  body : Nat → Nat → Body
  max : Nat
  sub : Option Bool

/-- The fixed collection of wrapped functions, by wrapper id. -/
def Env : Type := Nat → WSpec

/-! ## Caches inside Sys -/

/-- The LRU cache owned by wrapper w (created by wrap with
options.max). -/
def getCache (E : Env) (S : Sys) (w : Nat) : Cache Nat Nat :=
  (lookupA S.caches w).getD ⟨[], (E w).max⟩

/-- Store wrapper w's cache back. -/
def putCache (S : Sys) (w : Nat) (c : Cache Nat Nat) : Sys :=
  { S with caches := setA S.caches w c }

/-- cache.get(key) with its recency promotion.  On a miss the Cache
object is untouched, so nothing is written back. -/
def cacheGet (E : Env) (S : Sys) (w k : Nat) : Option Nat × Sys :=
  match (getCache E S w).get k with
  | (none, _) => (none, S)
  | (some e, c1) => (some e, putCache S w c1)

/-- cache.set(key, entry). -/
def cacheSet (E : Env) (S : Sys) (w k eid : Nat) : Sys :=
  putCache S w ((getCache E S w).set k eid)

/-- Run the dispose callbacks recorded by a cache deletion: the wrap
options install dispose = entry => entry.dispose(), and the delEv event
records the deletion together with the key-membership observation. -/
def runDisposeCalls (fuel : Nat) (S : Sys) (w : Nat) :
    List (DisposeCall Nat Nat) → Step Unit
  | [] => .ok () S
  | call :: rest =>
      let S1 := logEv S (.delEv w call.key call.value call.keyPresent)
      match dispose fuel S1 call.value with
      | .ok _ S2 => runDisposeCalls fuel S2 w rest
      | .thrown o S2 => .thrown o S2
      | .nofuel S2 => .nofuel S2

/-- cache.delete(key) at the Sys level, firing entry.dispose.  On a
miss the Cache object is untouched and no dispose fires. -/
def cacheDelete (fuel : Nat) (E : Env) (S : Sys) (w k : Nat) : Step Bool :=
  match (getCache E S w).delete k with
  | (false, _, _) => .ok false S
  | (true, c1, calls) =>
      let S1 := putCache S w c1
      match runDisposeCalls fuel S1 w calls with
      | .ok _ S2 => .ok true S2
      | .thrown o S2 => .thrown o S2
      | .nofuel S2 => .nofuel S2

/-- cache.clean() at the Sys level.  The dispose callbacks mutate only
the entry heap and the log, never any cache, so running them after the
eviction loop is observationally the source's interleaving. -/
def cacheClean (fuel : Nat) (E : Env) (S : Sys) (w : Nat) : Step Unit :=
  let r := (getCache E S w).clean
  let S1 := putCache S w r.1
  runDisposeCalls fuel S1 w r.2

/-- The loop of caches.forEach(cache => cache.clean()). -/
def cleanAllPs (fuel : Nat) (E : Env) (S : Sys) : List Nat → Step Unit
  | [] => .ok () S
  | w :: rest =>
      match cacheClean fuel E S w with
      | .ok _ S1 => cleanAllPs fuel E S1 rest
      | .thrown o S1 => .thrown o S1
      | .nofuel S1 => .nofuel S1

/-- The quiescent step of src/src/index.ts lines 256-259:
caches.forEach(cache => cache.clean()); caches.clear(). -/
def cleanAll (fuel : Nat) (E : Env) (S : Sys) : Step Unit :=
  match cleanAllPs fuel E S S.pending with
  | .ok _ S1 => .ok () { S1 with pending := [] }
  | .thrown o S1 => .thrown o S1
  | .nofuel S1 => .nofuel S1

/-! ## Entry.recompute and the wrapper -/

/-- valueGet, src/src/entry.ts lines 35-41: unknown throws a fresh
Error, a known value is returned, a cached exception is rethrown (the
very same object). -/
def valueGet (S : Sys) (v : Value) : Step Obj :=
  match v with
  | .unknown =>
      let r := mkErr S "unknown value"
      .thrown r.1 r.2
  | .known o => .ok o S
  | .exc o => .thrown o S

/-- rememberParent, src/src/entry.ts lines 129-146: with an empty
parent slot do nothing and report false; otherwise link both directions
and report the child's dirtiness to the parent. -/
def rememberParent (fuel : Nat) (slot : Option Nat) (S : Sys) (c : Nat) : Step Bool :=
  match slot with
  | none => .ok false S
  | some p =>
      let S1 := updE S c (fun e => { e with parents := insertIfAbsent e.parents p })
      let S2 :=
        if containsKeyA (getE S1 p).childValues c then S1
        else updE S1 p (fun e => { e with childValues := setA e.childValues c .unknown })
      if mightBeDirty (getE S2 c) then
        match reportDirtyChild fuel S2 p c with
        | .ok _ S3 => .ok true S3
        | .thrown o S3 => .thrown o S3
        | .nofuel S3 => .nofuel S3
      else
        match reportCleanChild fuel S2 p c with
        | .ok _ S3 => .ok true S3
        | .thrown o S3 => .thrown o S3
        | .nofuel S3 => .nofuel S3

/-- The five mutually recursive routines of the wrapper machinery,
fused into one fuel-structural function so that the kernel can evaluate
runs: callW is the wrapper function optimistic() of src/src/index.ts
lines 227-262, recomp is Entry.recompute (src/src/entry.ts lines
81-94), reallyRec is reallyRecompute (lines 148-169), recompNV is
recomputeNewValue (lines 171-184), and evalB evaluates a user-function
body under the given parent slot. -/
inductive Task : Type
  | callW (slot : Option Nat) (w k : Nat)
  | recomp (slot : Option Nat) (e : Nat)
  | reallyRec (e : Nat)
  | recompNV (e : Nat)
  | evalB (slot : Option Nat) (b : Body)

/-- Placeholder result for the tasks whose value is ignored
(recompNV). -/
def unitObj : Obj := ⟨0, .num 0⟩

/-- The interpreter.  Each case is the translation of the source
routine named in the Task comment; every recursive call spends one unit
of fuel. -/
def exec (E : Env) : Nat → Sys → Task → Step Obj
  | 0, S, _ => .nofuel S
  | f + 1, S, task =>
      match task with
      | .callW slot w k =>
          let g := cacheGet E S w k
          let st :=
            match g.1 with
            | some e => (e, g.2)
            | none =>
                let S0 := g.2
                let eid := S0.nextE
                let S1 :=
                  { S0 with
                    nextE := S0.nextE + 1
                    heap := setA S0.heap eid (freshEntry w k (E w).sub) }
                (eid, cacheSet E S1 w k eid)
          match exec E f st.2 (.recomp slot st.1) with
          | .ok v S3 =>
              let S4 := cacheSet E S3 w k st.1
              let S5 := { S4 with pending := insertIfAbsent S4.pending w }
              match slot with
              | none =>
                  match cleanAll f E S5 with
                  | .ok _ S6 => .ok v S6
                  | .thrown o S6 => .thrown o S6
                  | .nofuel S6 => .nofuel S6
              | some _ => .ok v S5
          | .thrown o S3 => .thrown o (logEv S3 (.threwEv w k))
          | .nofuel S3 => .nofuel S3
      | .recomp slot e =>
          if (getE S e).recomputing then
            let r := mkErr S "already recomputing"
            .thrown r.1 r.2
          else
            match rememberParent f slot S e with
            | .ok _ S1 =>
                if mightBeDirty (getE S1 e) then exec E f S1 (.reallyRec e)
                else valueGet S1 (getE S1 e).value
            | .thrown o S1 => .thrown o S1
            | .nofuel S1 => .nofuel S1
      | .reallyRec e =>
          match forgetChildren S e with
          | .ok _ S1 =>
              match exec E f S1 (.recompNV e) with
              | .ok _ S2 =>
                  match maybeSubscribe f S2 e with
                  | .ok true S3 =>
                      match setClean f S3 e with
                      | .ok _ S4 => valueGet S4 (getE S4 e).value
                      | .thrown o S4 => .thrown o S4
                      | .nofuel S4 => .nofuel S4
                  | .ok false S3 => valueGet S3 (getE S3 e).value
                  | .thrown o S3 => .thrown o S3
                  | .nofuel S3 => .nofuel S3
              | .thrown o S2 => .thrown o S2
              | .nofuel S2 => .nofuel S2
          | .thrown o S1 => .thrown o S1
          | .nofuel S1 => .nofuel S1
      | .recompNV e =>
          let est := getE S e
          let S1 := updE S e (fun x => { x with recomputing := true, value := .unknown })
          let S2 := logEv S1 (.invoke e)
          match exec E f S2 (.evalB (some e) ((E est.wid).body S2.ext est.keyArg)) with
          | .ok o S3 =>
              .ok unitObj (updE S3 e (fun x =>
                { x with value := .known o, recomputing := false }))
          | .thrown o S3 =>
              .ok unitObj (updE S3 e (fun x =>
                { x with value := .exc o, recomputing := false }))
          | .nofuel S3 => .nofuel S3
      | .evalB slot b =>
          match b with
          | .ret n =>
              let o : Obj := ⟨S.nextO, .num n⟩
              .ok o { S with nextO := S.nextO + 1 }
          | .throwB n =>
              let o : Obj := ⟨S.nextO, .num n⟩
              .thrown o { S with nextO := S.nextO + 1 }
          | .seqCall w a rest =>
              match exec E f S (.callW slot w a) with
              | .ok _ S1 => exec E f S1 (.evalB slot rest)
              | .thrown o S1 => .thrown o S1
              | .nofuel S1 => .nofuel S1
          | .catchCall w a rest =>
              match exec E f S (.callW slot w a) with
              | .ok _ S1 => exec E f S1 (.evalB slot rest)
              | .thrown _ S1 => exec E f S1 (.evalB slot rest)
              | .nofuel S1 => .nofuel S1
          | .noCtxCall w a rest =>
              match exec E f S (.callW none w a) with
              | .ok _ S1 => exec E f S1 (.evalB slot rest)
              | .thrown o S1 => .thrown o S1
              | .nofuel S1 => .nofuel S1

/-- The wrapper function optimistic(). -/
def callWrapper (E : Env) (fuel : Nat) (slot : Option Nat) (S : Sys) (w k : Nat) :
    Step Obj :=
  exec E fuel S (.callW slot w k)

/-- Entry.recompute. -/
def recomputeE (E : Env) (fuel : Nat) (slot : Option Nat) (S : Sys) (e : Nat) :
    Step Obj :=
  exec E fuel S (.recomp slot e)

/-- Evaluation of a user-function body. -/
def evalBody (E : Env) (fuel : Nat) (slot : Option Nat) (S : Sys) (b : Body) :
    Step Obj :=
  exec E fuel S (.evalB slot b)

/-! ## Wrapper control methods -/

/-- The lookup helper of src/src/index.ts lines 264-269: compute the
key from the arguments (the identity here, never undefined) and
cache.get it, with get's recency promotion on a hit. -/
def lookupW (E : Env) (S : Sys) (w k : Nat) : Option Nat × Sys :=
  cacheGet E S w k

/-- optimistic.dirty, src/src/index.ts lines 271-276: look up, and
setDirty the entry when present. -/
def wrapDirty (fuel : Nat) (E : Env) (S : Sys) (w k : Nat) : Step Unit :=
  let r := lookupW E S w k
  match r.1 with
  | some e => setDirty fuel r.2 e
  | none => .ok () r.2

/-- Modelled from the spec: Entry.peek is called by optimistic.peek
(src/src/index.ts line 281) but its body is absent from src; section
4.4.1 of the spec states it returns the currently cached value if clean
and known, without recomputing and without registering a parent
dependency. -/
def Entry.peek (e : Entry) : Option Obj :=
  if mightBeDirty e then none
  else
    match e.value with
    | .known o => some o
    | _ => none

/-- optimistic.peek, src/src/index.ts lines 278-283: look up, and
entry.peek() when present. -/
def wrapPeek (E : Env) (S : Sys) (w k : Nat) : Option Obj × Sys :=
  let r := lookupW E S w k
  match r.1 with
  | some e => ((getE r.2 e).peek, r.2)
  | none => (none, r.2)

/-- optimistic.forget, src/src/index.ts lines 285-288: the key is never
undefined in the model, so this is cache.delete(key). -/
def wrapForget (fuel : Nat) (E : Env) (S : Sys) (w k : Nat) : Step Bool :=
  cacheDelete fuel E S w k

/-- optimistic.dirtyKey, src/unnamed/part_014 lines 184-189:
cache.get(key) and setDirty when present. -/
def wrapDirtyKey (fuel : Nat) (E : Env) (S : Sys) (w k : Nat) : Step Unit :=
  let r := cacheGet E S w k
  match r.1 with
  | some e => setDirty fuel r.2 e
  | none => .ok () r.2

/-- optimistic.peekKey, src/unnamed/part_014 lines 195-200. -/
def wrapPeekKey (E : Env) (S : Sys) (w k : Nat) : Option Obj × Sys :=
  let r := cacheGet E S w k
  match r.1 with
  | some e => ((getE r.2 e).peek, r.2)
  | none => (none, r.2)

/-- optimistic.forgetKey, src/unnamed/part_014 lines 206-208. -/
def wrapForgetKey (fuel : Nat) (E : Env) (S : Sys) (w k : Nat) : Step Bool :=
  cacheDelete fuel E S w k

/-! ## Dep (src/src/dep.ts)

A dep holds a map from keys to sets of entries; each set optionally
carries an unsubscribe.  Claim C8 concerns depend.dirty, which operates
on an existing member set; registration (depend itself) goes through
Entry.dependOn, whose body is not under src, and is not needed here. -/

/-- One member set of a dep, with its optional unsubscribe. -/
structure DepSet : Type where
  members : List Nat
  unsub : Option Nat
deriving DecidableEq, Repr

/-- The depsByKey map of a dep. -/
def DepSt : Type := List (Nat × DepSet)

/-- The EntryMethods object of src/src/dep.ts lines 7-11: the own
property names recognized by depend.dirty. -/
def EntryMethods : List String := ["setDirty", "dispose", "forget"]

/-- Invocation of the selected entry method: entry.setDirty(),
entry.dispose(), or entry.forget().  The forget closure installed by
wrap (src/unnamed/part_014 line 145) deletes the entry's own key from
its wrapper's cache. -/
def entryMethodApply (fuel : Nat) (E : Env) (S : Sys) (m : String) (e : Nat) :
    Step Unit :=
  if m = "dispose" then dispose fuel S e
  else if m = "forget" then
    match cacheDelete fuel E S (getE S e).wid (getE S e).keyArg with
    | .ok _ S1 => .ok () S1
    | .thrown o S1 => .thrown o S1
    | .nofuel S1 => .nofuel S1
  else setDirty fuel S e

/-- dep.forEach(entry => entry(m)()), over a snapshot of the member
set (the entry methods never touch the dep state). -/
def depMembersApply (fuel : Nat) (E : Env) (S : Sys) (m : String) :
    List Nat → Step Unit
  | [] => .ok () S
  | e :: rest =>
      match entryMethodApply fuel E S m e with
      | .ok _ S1 => depMembersApply fuel E S1 m rest
      | .thrown o S1 => .thrown o S1
      | .nofuel S1 => .nofuel S1

/-- maybeUnsubscribe(dep) from src/src/helpers.ts, applied to a member
set. -/
def depMaybeUnsubscribe (S : Sys) (k : Nat) (ds : DepSet) : Sys :=
  match ds.unsub with
  | some _ => logEv S (.depUnsubEv k)
  | none => S

/-- depend.dirty, src/src/dep.ts lines 43-57: with no set for the key
do nothing; otherwise select the entry method (the given name when it
is an own property of EntryMethods, setDirty otherwise, and setDirty
when no name is given), invoke it on every member, delete the key from
depsByKey, and unsubscribe the set. -/
def depDirty (fuel : Nat) (E : Env) (S : Sys) (D : DepSt) (k : Nat)
    (m : Option String) : Step DepSt :=
  match lookupA D k with
  | none => .ok D S
  | some ds =>
      let mname :=
        match m with
        | some s => if EntryMethods.contains s then s else "setDirty"
        | none => "setDirty"
      match depMembersApply fuel E S mname ds.members with
      | .ok _ S1 =>
          let D1 := eraseA D k
          .ok D1 (depMaybeUnsubscribe S1 k ds)
      | .thrown o S1 => .thrown o S1
      | .nofuel S1 => .nofuel S1

/-- Modelled from the spec: keyCount (the testing aid of spec section
4.6, called by the tests but not defined under src) is the number of
active keys. -/
def keyCount (D : DepSt) : Nat :=
  D.length

instance : DecidableEq DepSt :=
  inferInstanceAs (DecidableEq (List (Nat × DepSet)))

/-- The writes performed by reportDirtyChild and reportDirtyPs. -/
structure DirtyFamStable (P : Sys → Prop) : Prop where
  dcAppend : ∀ S p c, P S →
    P (updE S p (fun e => { e with dirtyChildren := e.dirtyChildren ++ [c] }))
  alloc : ∀ S msg, P S → P (mkErr S msg).2

/-- The writes performed anywhere in the five-function family. -/
structure FamilyStable (P : Sys → Prop) extends DirtyFamStable P : Prop where
  markDirty : ∀ S e, P S → (getE S e).dirty = false →
    P (logEv (updE S e (fun est => { est with dirty := true, value := .unknown }))
        (.setDirtyEv e))
  unsubW : ∀ S e, P S → P (maybeUnsubscribe S e)
  record : ∀ S p c, P S →
    lookupA (getE S p).childValues c = some .unknown →
    mightBeDirty (getE S c) = false →
    P (updE S p (fun e =>
        { e with childValues := setA e.childValues c (getE S c).value }))
  rmdc : ∀ S p c, P S → P (removeDirtyChild S p c)

/-- Everything the dirty-report worklist can do to the world: it leaves
the caches, pending set, log, and every entry field except
dirtyChildren untouched, and only ever grows the dirtyChildren sets
(the object-allocation counter may advance on assertion failures). -/
def DirtyFrame (S0 T : Sys) : Prop :=
  T.caches = S0.caches ∧ T.pending = S0.pending ∧ T.log = S0.log ∧
  T.ext = S0.ext ∧ T.nextE = S0.nextE ∧
  ∀ x, getE T x = { getE S0 x with dirtyChildren := (getE T x).dirtyChildren } ∧
       ∀ y, y ∈ (getE S0 x).dirtyChildren → y ∈ (getE T x).dirtyChildren

/-! ## Witness fixtures

Concrete environments and states used by the witness theorems. -/

/-- The empty initial world. -/
def initS : Sys := ⟨[], [], [], 0, 0, 0, []⟩

/-- Fixture for the setDirty witness: entry 0 is clean, holds a result
and a pending unsubscribe, and has entry 1 as its only parent; entry 1
has entry 0 registered in its childValues. -/
def wEntry0 : Entry := ⟨0, 0, none, some 5, [1], [], [], false, false, .known ⟨0, .num 1⟩⟩

/-- The parent entry of the setDirty witness fixture. -/
def wEntry1 : Entry := ⟨0, 1, none, none, [], [(0, .unknown)], [], false, false, .unknown⟩

/-- The setDirty witness state. -/
def wS6 : Sys := ⟨[(0, wEntry0), (1, wEntry1)], [], [], 2, 1, 0, []⟩

/-- C5 fixtures: entry 0 is a clean child with a Known value, entry 1 a
parent holding a recorded child value (Unknown / mismatching / equal). -/
def c5Child : Entry := ⟨0, 0, none, none, [1], [], [], false, false, .known ⟨0, .num 1⟩⟩

def c5ParentU : Entry := ⟨0, 1, none, none, [], [(0, .unknown)], [0], false, false, .unknown⟩

def c5ParentM : Entry := ⟨0, 1, none, none, [], [(0, .known ⟨5, .num 9⟩)], [0], false, false, .unknown⟩

def c5ParentE : Entry := ⟨0, 1, none, none, [], [(0, .known ⟨0, .num 1⟩)], [0], false, false, .unknown⟩

def c5SU : Sys := ⟨[(0, c5Child), (1, c5ParentU)], [], [], 2, 1, 0, []⟩

def c5SM : Sys := ⟨[(0, c5Child), (1, c5ParentM)], [], [], 2, 1, 0, []⟩

def c5SE : Sys := ⟨[(0, c5Child), (1, c5ParentE)], [], [], 2, 1, 0, []⟩

/-- The record invariant of claim C5: the value recorded for child c
in parent p stays fixed, and when that recorded value is Unknown the
child value is Unknown as well. -/
def CVInv (p c : Nat) (v0 : Value) (T : Sys) : Prop :=
  lookupA (getE T p).childValues c = some v0 ∧
  (v0 = Value.unknown → (getE T c).value = Value.unknown)

/-! ## Basic state lemmas -/

/-- The state carried by any Step outcome. -/
def Step.state {α : Type} : Step α → Sys
  | .ok _ S => S
  | .thrown _ S => S
  | .nofuel S => S

/-- C2 fixtures: a single wrapper whose user function always throws a
fresh object carrying 7, and the state after one top-level call. -/
def c2Env : Env := fun _ => ⟨fun _ _ => Body.throwB 7, 65536, none⟩

def c2S1 : Sys := (exec c2Env 10 initS (Task.callW none 0 0)).state

def c2C1 : Cache Nat Nat := ((getCache c2Env c2S1 0).get 0).2

/-- Number of invoke events for entry e in a log. -/
def invokeCountE (e : Nat) (l : List Ev) : Nat :=
  (l.filter (fun ev => ev = Ev.invoke e)).length

/-- Number of invoke events (of any entry) in a log. -/
def invokeCount (l : List Ev) : Nat :=
  (l.filter (fun ev => match ev with | Ev.invoke _ => true | _ => false)).length

/-- C1 fixtures: a wrapper whose user function purely returns 7; the
state after a first top-level call; the wrapper cache of that state
after the promotion of key 0; the object the call returns. -/
def c1Env : Env := fun _ => ⟨fun _ _ => Body.ret 7, 65536, none⟩

/-- State after the first top-level call of the C1 fixture wrapper. -/
def c1T1 : Sys := (exec c1Env 12 initS (Task.callW none 0 0)).state

/-- The C1 fixture cache after the second call's recency promotion. -/
def c1C1 : Cache Nat Nat := ((getCache c1Env c1T1 0).get 0).2

/-- The object returned by every call of the C1 fixture wrapper. -/
def c1V : Obj := ⟨0, ObjData.num 7⟩

/-- Closure properties of a state predicate under all the primitive
writes performed by the wrapper machinery outside entry creation and
the recomputing-flag writes of recomputeNewValue: entry updates that
leave the recomputing field alone, log entries that are not invoke
events, Error/object allocation, cache stores, and pending-set writes. -/
structure OpClosed (P : Sys → Prop) : Prop where
  upd : ∀ (S : Sys) (x : Nat) (g : Entry → Entry),
    (∀ en, (g en).recomputing = en.recomputing) → P S → P (updE S x g)
  log : ∀ (S : Sys) (ev : Ev), (∀ x, ev ≠ Ev.invoke x) → P S → P (logEv S ev)
  oalloc : ∀ S : Sys, P S → P { S with nextO := S.nextO + 1 }
  cach : ∀ (S : Sys) (w : Nat) (c : Cache Nat Nat), P S → P (putCache S w c)
  pend : ∀ (S : Sys) (l : List Nat), P S → P { S with pending := l }

/-- The invariant carried through a run while entry e is recomputing:
its flag stays set, no further invoke events for e are logged, and the
entry-id allocator never returns to e. -/
def C1Triple (e cnt : Nat) (S : Sys) : Prop :=
  (getE S e).recomputing = true ∧ invokeCountE e S.log = cnt ∧ e + 1 ≤ S.nextE

/-- C3 fixtures: a wrapper whose user function calls itself while the
external cell holds 0 and returns 42 once it holds 1; the state after
the cyclic call; the state after the caller breaks the cycle (dirty the
entry and flip the cell); the state after the succeeding call; a state
whose entry 0 is in the middle of a recomputation; the state after a
throwing recomputation body. -/
def c3Env : Env := fun _ =>
  ⟨fun ext _ => if ext = 0 then Body.seqCall 0 0 (Body.ret 99) else Body.ret 42, 65536, none⟩

def c3T1 : Sys := (exec c3Env 12 initS (Task.callW none 0 0)).state

def c3S2 : Sys := { (setDirty 6 c3T1 0).state with ext := 1 }

def c3T2 : Sys := (exec c3Env 12 c3S2 (Task.callW none 0 0)).state

def c3SR : Sys := ⟨[(0, ⟨0, 0, none, none, [], [], [], false, true, .unknown⟩)], [], [], 1, 0, 0, []⟩

def c3S3 : Sys :=
  (exec c2Env 5
    (logEv (updE initS 0 (fun x => { x with recomputing := true, value := Value.unknown }))
      (Ev.invoke 0))
    (Task.evalB (some 0) ((c2Env (getE initS 0).wid).body initS.ext (getE initS 0).keyArg))).state

/-- C9 fixtures: wrapper 1 calls wrapper 0 inside noContext, wrapper 2
calls wrapper 0 plainly; the states after one top-level call of each. -/
def c9Env : Env := fun w =>
  if w = 1 then ⟨fun _ _ => Body.noCtxCall 0 0 (Body.ret 5), 65536, none⟩
  else if w = 2 then ⟨fun _ _ => Body.seqCall 0 0 (Body.ret 5), 65536, none⟩
  else ⟨fun _ _ => Body.ret 3, 65536, none⟩

def c9TA : Sys := (exec c9Env 12 initS (Task.callW none 1 0)).state

def c9TB : Sys := (exec c9Env 12 initS (Task.callW none 2 0)).state

/-- C7 fixtures: wrapper 0 always throws and has max 1; wrapper 1 calls
wrapper 0 with two different keys, catching both exceptions, and
returns normally.  c7T is the state after the quiescent call of
wrapper 1. -/
def c7Env : Env := fun w =>
  if w = 1 then ⟨fun _ _ => Body.catchCall 0 0 (Body.catchCall 0 1 (Body.ret 5)), 65536, none⟩
  else ⟨fun _ _ => Body.throwB 7, 1, none⟩

def c7T : Sys := (exec c7Env 20 initS (Task.callW none 1 0)).state

theorem lookupA_cons_same {β : Type} (k : Nat) (v : β) (tl : List (Nat × β)) :
    lookupA ((k, v) :: tl) k = some v := by
  simp [lookupA]

theorem lookupA_cons_ne {β : Type} (a k : Nat) (w : β) (tl : List (Nat × β))
    (h : a ≠ k) :
    lookupA ((a, w) :: tl) k = lookupA tl k := by
  simp [lookupA, h]

theorem eraseA_cons_same {β : Type} (a : Nat) (w : β) (tl : List (Nat × β)) :
    eraseA ((a, w) :: tl) a = eraseA tl a := by
  simp [eraseA]

theorem eraseA_cons_ne {β : Type} (a k : Nat) (w : β) (tl : List (Nat × β))
    (h : a ≠ k) :
    eraseA ((a, w) :: tl) k = (a, w) :: eraseA tl k := by
  simp [eraseA, h]

theorem lookupA_setA_same {β : Type} (l : List (Nat × β)) (k : Nat) (v : β) :
    lookupA (setA l k v) k = some v := by
  induction l with
  | nil => simp [setA, lookupA]
  | cons hd tl ih =>
      obtain ⟨a, w⟩ := hd
      by_cases ha : a = k
      · subst ha
        simp [setA, lookupA]
      · rw [setA, if_neg ha, lookupA_cons_ne _ _ _ _ ha]
        exact ih

theorem lookupA_setA_ne {β : Type} (l : List (Nat × β)) (k k' : Nat) (v : β)
    (h : k' ≠ k) :
    lookupA (setA l k v) k' = lookupA l k' := by
  have hkk : k ≠ k' := Ne.symm h
  induction l with
  | nil => simp [setA, lookupA, hkk]
  | cons hd tl ih =>
      obtain ⟨a, w⟩ := hd
      by_cases ha : a = k
      · subst ha
        rw [setA, if_pos rfl, lookupA_cons_ne _ _ _ _ hkk, lookupA_cons_ne _ _ _ _ hkk]
      · rw [setA, if_neg ha, lookupA, lookupA]
        by_cases ha' : a = k'
        · rw [if_pos ha', if_pos ha']
        · rw [if_neg ha', if_neg ha']
          exact ih

theorem lookupA_eraseA_ne {β : Type} (l : List (Nat × β)) (k k' : Nat)
    (h : k' ≠ k) :
    lookupA (eraseA l k) k' = lookupA l k' := by
  have hkk : k ≠ k' := Ne.symm h
  induction l with
  | nil => rfl
  | cons hd tl ih =>
      obtain ⟨a, w⟩ := hd
      by_cases ha : a = k
      · subst ha
        rw [eraseA_cons_same, lookupA_cons_ne _ _ _ _ hkk]
        exact ih
      · rw [eraseA_cons_ne _ _ _ _ ha, lookupA, lookupA]
        by_cases ha' : a = k'
        · rw [if_pos ha', if_pos ha']
        · rw [if_neg ha', if_neg ha']
          exact ih

theorem lookupA_eraseA_same {β : Type} (l : List (Nat × β)) (k : Nat) :
    lookupA (eraseA l k) k = none := by
  induction l with
  | nil => rfl
  | cons hd tl ih =>
      obtain ⟨a, w⟩ := hd
      by_cases ha : a = k
      · subst ha
        rw [eraseA_cons_same]
        exact ih
      · rw [eraseA_cons_ne _ _ _ _ ha, lookupA_cons_ne _ _ _ _ ha]
        exact ih

theorem getE_updE (S : Sys) (e x : Nat) (g : Entry → Entry) :
    getE (updE S e g) x = if x = e then g (getE S e) else getE S x := by
  unfold updE setE getE
  by_cases h : x = e
  · rw [if_pos h, h]
    simp [lookupA_setA_same]
  · rw [if_neg h]
    simp [lookupA_setA_ne _ _ _ _ h]

theorem getE_updE_same (S : Sys) (e : Nat) (g : Entry → Entry) :
    getE (updE S e g) e = g (getE S e) := by
  rw [getE_updE, if_pos rfl]

theorem getE_updE_ne (S : Sys) (e x : Nat) (g : Entry → Entry) (h : x ≠ e) :
    getE (updE S e g) x = getE S x := by
  rw [getE_updE, if_neg h]

theorem getE_logEv (S : Sys) (ev : Ev) (x : Nat) :
    getE (logEv S ev) x = getE S x := rfl

@[simp] theorem Step.state_ok {α : Type} (a : α) (S : Sys) :
    (Step.ok a S).state = S := rfl

@[simp] theorem Step.state_thrown {α : Type} (o : Obj) (S : Sys) :
    (Step.thrown (α := α) o S).state = S := rfl

@[simp] theorem Step.state_nofuel {α : Type} (S : Sys) :
    (Step.nofuel (α := α) S).state = S := rfl

theorem caches_updE (S : Sys) (e : Nat) (g : Entry → Entry) :
    (updE S e g).caches = S.caches := rfl

theorem log_updE (S : Sys) (e : Nat) (g : Entry → Entry) :
    (updE S e g).log = S.log := rfl

/-! ## Stability over the propagation family

Claims C5 and C6 need facts that survive the recursive upward cascade
of setDirty / reportDirtyChild / reportCleanChild.  Each function in
that family mutates the state only through a handful of primitive
writes; a predicate preserved by those writes is preserved by the whole
family, in every outcome (ok, thrown or nofuel). -/

/-- Stability of the dirty-report worklist: any predicate preserved by
its primitive writes holds of the final state, whatever the outcome. -/
theorem reportDirtyWork_stable {P : Sys → Prop} (hP : DirtyFamStable P) :
    ∀ fuel wl S, P S → P (reportDirtyWork fuel S wl).state := by
  intro fuel
  induction fuel with
  | zero =>
      intro wl S hS
      cases wl with
      | nil => exact hS
      | cons pc rest => exact hS
  | succ f ih =>
      intro wl S hS
      cases wl with
      | nil => exact hS
      | cons pc rest =>
          obtain ⟨p, c⟩ := pc
          unfold reportDirtyWork
          cases hb1 : containsKeyA (getE S p).childValues c with
          | false => simpa [hb1] using hP.alloc S "assertion failure" hS
          | true =>
              cases hb2 : mightBeDirty (getE S c) with
              | false => simpa [hb1, hb2] using hP.alloc S "assertion failure" hS
              | true =>
                  cases hb3 : (getE S p).dirtyChildren.contains c with
                  | true => simpa [hb1, hb2, hb3] using ih rest S hS
                  | false =>
                      have hS1 := hP.dcAppend S p c hS
                      simpa [hb1, hb2, hb3] using ih _ _ hS1

/-- Stability of setDirty for a predicate preserved by the family
writes. -/
theorem setDirty_stable {P : Sys → Prop} (hP : FamilyStable P) (fuel : Nat) :
    ∀ S e, P S → P (setDirty fuel S e).state := by
  intro S e hS
  unfold setDirty
  cases hd : (getE S e).dirty with
  | true => simpa [hd] using hS
  | false =>
      cases hf : fuel with
      | zero => simpa [hd] using hS
      | succ f =>
          have hS1 := hP.markDirty S e hS hd
          set S1 := logEv (updE S e (fun est => { est with dirty := true, value := .unknown }))
            (.setDirtyEv e) with hS1def
          have hps := reportDirtyWork_stable hP.toDirtyFamStable f
            ((getE S1 e).parents.map (fun p => (p, e))) S1 hS1
          rw [show reportDirtyWork f S1 ((getE S1 e).parents.map (fun p => (p, e)))
            = reportDirty f S1 e from rfl] at hps
          cases hc : reportDirty f S1 e with
          | ok a S2 =>
              rw [hc] at hps
              simpa [hd, hc] using hP.unsubW S2 e hps
          | thrown o S2 =>
              rw [hc] at hps
              simpa [hd, hc] using hps
          | nofuel S2 =>
              rw [hc] at hps
              simpa [hd, hc] using hps

/-- Stability of the clean-report worklist for a predicate preserved by
the family writes. -/
theorem reportCleanWork_stable {P : Sys → Prop} (hP : FamilyStable P) :
    ∀ fuel wl S, P S → P (reportCleanWork fuel S wl).state := by
  intro fuel
  induction fuel with
  | zero =>
      intro wl S hS
      cases wl with
      | nil => exact hS
      | cons pc rest => exact hS
  | succ f ih =>
      intro wl S hS
      cases wl with
      | nil => exact hS
      | cons pc rest =>
          obtain ⟨p, c⟩ := pc
          unfold reportCleanWork
          cases hb1 : containsKeyA (getE S p).childValues c with
          | false => simpa [hb1] using hP.alloc S "assertion failure" hS
          | true =>
              cases hb2 : mightBeDirty (getE S c) with
              | true => simpa [hb1, hb2] using hP.alloc S "assertion failure" hS
              | false =>
                  have hcv : ∃ v, lookupA (getE S p).childValues c = some v := by
                    unfold containsKeyA at hb1
                    cases hl : lookupA (getE S p).childValues c with
                    | none => rw [hl] at hb1; simp at hb1
                    | some v => exact ⟨v, rfl⟩
                  obtain ⟨v, hv⟩ := hcv
                  have hstep1 : ∀ S1 : Sys, P S1 →
                      P ((let S2 := removeDirtyChild S1 p c
                          if mightBeDirty (getE S2 p) then reportCleanWork f S2 rest
                          else reportCleanWork f S2
                            (((getE S2 p).parents.map (fun gp => (gp, p))) ++ rest)) :
                          Step Unit).state := by
                    intro S1 hS1
                    have hS2 := hP.rmdc S1 p c hS1
                    by_cases hm : mightBeDirty (getE (removeDirtyChild S1 p c) p) = true
                    · simpa [hm] using ih rest _ hS2
                    · simp only [Bool.not_eq_true] at hm
                      simpa [hm] using ih _ _ hS2
                  by_cases hvu : v = Value.unknown
                  · subst hvu
                    have hrec := hP.record S p c hS hv hb2
                    have := hstep1 _ hrec
                    simpa [hb1, hb2, hv] using this
                  · by_cases hvi : valueIs v (getE S c).value = true
                    · have := hstep1 S hS
                      simpa [hb1, hb2, hv, hvu, hvi] using this
                    · have hsd := setDirty_stable hP f S p
                      cases hc : setDirty f S p with
                      | ok a S1 =>
                          have h1 := hsd hS
                          rw [hc] at h1
                          have := hstep1 S1 h1
                          simpa [hb1, hb2, hv, hvu, hvi, hc] using this
                      | thrown o S1 =>
                          have h1 := hsd hS
                          rw [hc] at h1
                          simpa [hb1, hb2, hv, hvu, hvi, hc] using h1
                      | nofuel S1 =>
                          have h1 := hsd hS
                          rw [hc] at h1
                          simpa [hb1, hb2, hv, hvu, hvi, hc] using h1

/-! ## The dirty-report frame -/

theorem DirtyFrame.refl (S0 : Sys) : DirtyFrame S0 S0 :=
  ⟨rfl, rfl, rfl, rfl, rfl, fun _ => ⟨rfl, fun _ h => h⟩⟩

theorem DirtyFrame.trans {S0 T U : Sys} (h1 : DirtyFrame S0 T)
    (h2 : DirtyFrame T U) : DirtyFrame S0 U := by
  obtain ⟨a1, b1, c1, d1, e1, f1⟩ := h1
  obtain ⟨a2, b2, c2, d2, e2, f2⟩ := h2
  refine ⟨a2.trans a1, b2.trans b1, c2.trans c1, d2.trans d1, e2.trans e1, fun x => ⟨?_, ?_⟩⟩
  · rw [(f2 x).1, (f1 x).1]
  · intro y hy
    exact (f2 x).2 y ((f1 x).2 y hy)

theorem dirtyFrame_famStable (S0 : Sys) : DirtyFamStable (DirtyFrame S0) := by
  constructor
  · intro S p c hS
    refine DirtyFrame.trans hS ⟨rfl, rfl, rfl, rfl, rfl, fun x => ⟨?_, ?_⟩⟩
    · by_cases hx : x = p
      · subst hx
        simp [getE_updE_same]
      · rw [getE_updE_ne _ _ _ _ hx]
    · intro y hy
      by_cases hx : x = p
      · subst hx
        simp only [getE_updE_same]
        exact List.mem_append_left _ hy
      · rw [getE_updE_ne _ _ _ _ hx]
        exact hy
  · intro S msg hS
    exact DirtyFrame.trans hS ⟨rfl, rfl, rfl, rfl, rfl, fun x => ⟨rfl, fun _ h => h⟩⟩

theorem DirtyFrame.entry_eq {S0 T : Sys} (h : DirtyFrame S0 T) (x : Nat) :
    getE T x = { getE S0 x with dirtyChildren := (getE T x).dirtyChildren } :=
  (h.2.2.2.2.2 x).1

theorem DirtyFrame.dirty_eq {S0 T : Sys} (h : DirtyFrame S0 T) (x : Nat) :
    (getE T x).dirty = (getE S0 x).dirty := by
  conv_lhs => rw [h.entry_eq x]

theorem DirtyFrame.value_eq {S0 T : Sys} (h : DirtyFrame S0 T) (x : Nat) :
    (getE T x).value = (getE S0 x).value := by
  conv_lhs => rw [h.entry_eq x]

theorem DirtyFrame.parents_eq {S0 T : Sys} (h : DirtyFrame S0 T) (x : Nat) :
    (getE T x).parents = (getE S0 x).parents := by
  conv_lhs => rw [h.entry_eq x]

theorem DirtyFrame.unsub_eq {S0 T : Sys} (h : DirtyFrame S0 T) (x : Nat) :
    (getE T x).unsub = (getE S0 x).unsub := by
  conv_lhs => rw [h.entry_eq x]

theorem DirtyFrame.childValues_eq {S0 T : Sys} (h : DirtyFrame S0 T) (x : Nat) :
    (getE T x).childValues = (getE S0 x).childValues := by
  conv_lhs => rw [h.entry_eq x]

theorem DirtyFrame.recomputing_eq {S0 T : Sys} (h : DirtyFrame S0 T) (x : Nat) :
    (getE T x).recomputing = (getE S0 x).recomputing := by
  conv_lhs => rw [h.entry_eq x]

/-- The dirty-report worklist run as a DirtyFrame between its start and
end states, in every outcome. -/
theorem reportDirtyWork_frame (fuel : Nat) (wl : List (Nat × Nat)) (S : Sys) :
    DirtyFrame S (reportDirtyWork fuel S wl).state :=
  reportDirtyWork_stable (dirtyFrame_famStable S) fuel wl S (DirtyFrame.refl S)

/-- A successful dirty-report worklist run leaves every listed child in
its listed parent’s dirtyChildren set. -/
theorem reportDirtyWork_ok_mem :
    ∀ (fuel : Nat) (wl : List (Nat × Nat)) (S T : Sys) (u : Unit),
    reportDirtyWork fuel S wl = .ok u T →
    ∀ pc ∈ wl, pc.2 ∈ (getE T pc.1).dirtyChildren := by
  intro fuel
  induction fuel with
  | zero =>
      intro wl S T u h pc hpc
      cases wl with
      | nil => simp at hpc
      | cons q rest => exact absurd h (by simp [reportDirtyWork])
  | succ f ih =>
      intro wl S T u h pc hpc
      cases wl with
      | nil => simp at hpc
      | cons q rest =>
          obtain ⟨p, c⟩ := q
          unfold reportDirtyWork at h
          cases hb1 : containsKeyA (getE S p).childValues c with
          | false => rw [hb1] at h; exact absurd h (by simp)
          | true =>
              rw [hb1] at h
              cases hb2 : mightBeDirty (getE S c) with
              | false => rw [hb2] at h; exact absurd h (by simp)
              | true =>
                  rw [hb2] at h
                  simp only [Bool.not_true, Bool.false_eq_true, if_false] at h
                  cases hb3 : (getE S p).dirtyChildren.contains c with
                  | true =>
                      rw [hb3] at h
                      simp only [if_true] at h
                      rcases List.mem_cons.1 hpc with hpq | hpr
                      · subst hpq
                        have hm : c ∈ (getE S p).dirtyChildren := by
                          have : List.elem c (getE S p).dirtyChildren = true := hb3
                          simpa using this
                        have hfr : DirtyFrame S T := by
                          have := reportDirtyWork_frame f rest S
                          rw [h] at this
                          exact this
                        exact (hfr.2.2.2.2.2 p).2 c hm
                      · exact ih rest S T u h pc hpr
                  | false =>
                      rw [hb3] at h
                      simp only [Bool.false_eq_true, if_false] at h
                      set S1 := updE S p (fun e =>
                        { e with dirtyChildren := e.dirtyChildren ++ [c] }) with hS1def
                      rcases List.mem_cons.1 hpc with hpq | hpr
                      · subst hpq
                        have hm : c ∈ (getE S1 p).dirtyChildren := by
                          rw [hS1def]
                          simp only [getE_updE_same]
                          exact List.mem_append_right _ (List.mem_singleton.2 rfl)
                        have hfr : DirtyFrame S1 T := by
                          have := reportDirtyWork_frame f
                            (((getE S1 p).parents.map (fun gp => (gp, p))) ++ rest) S1
                          rw [h] at this
                          exact this
                        exact (hfr.2.2.2.2.2 p).2 c hm
                      · exact ih _ S1 T u h pc (List.mem_append_right _ hpr)

/-- A successful reportDirty leaves the child in every parent’s
dirtyChildren set. -/
theorem reportDirty_ok_mem {fuel : Nat} {S T : Sys} {c : Nat} {u : Unit}
    (h : reportDirty fuel S c = .ok u T) :
    ∀ p ∈ (getE S c).parents, c ∈ (getE T p).dirtyChildren := by
  intro p hp
  have := reportDirtyWork_ok_mem fuel ((getE S c).parents.map (fun q => (q, c))) S T u h
    (p, c) (List.mem_map.2 ⟨p, hp, rfl⟩)
  exact this

/-- A successful reportDirty as a DirtyFrame. -/
theorem reportDirty_frame {fuel : Nat} {S T : Sys} {c : Nat} {u : Unit}
    (h : reportDirty fuel S c = .ok u T) : DirtyFrame S T := by
  have := reportDirtyWork_frame fuel ((getE S c).parents.map (fun q => (q, c))) S
  rw [show reportDirtyWork fuel S ((getE S c).parents.map (fun q => (q, c)))
    = reportDirty fuel S c from rfl, h] at this
  exact this

/-- C6: setDirty is a no-op on an already dirty entry; otherwise it
sets the dirty flag, clears the cached value to Unknown, places the
entry into every parent’s dirtyChildren set (the upward maybe-dirty
notification), clears the stored unsubscribe, and appends to the log
exactly one setDirtyEv followed by exactly one unsubEv when an
unsubscribe was pending and none otherwise. -/
theorem C6_setDirty_effects (fuel : Nat) (S T : Sys) (e : Nat) :
    ((getE S e).dirty = true → setDirty fuel S e = .ok () S) ∧
    ((getE S e).dirty = false → setDirty fuel S e = .ok () T →
      (getE T e).dirty = true ∧
      (getE T e).value = .unknown ∧
      (∀ p ∈ (getE S e).parents, e ∈ (getE T p).dirtyChildren) ∧
      (getE T e).unsub = none ∧
      T.log = S.log ++ [Ev.setDirtyEv e] ++
        (if (getE S e).unsub.isSome then [Ev.unsubEv e] else [])) := by
  constructor
  · intro hd
    unfold setDirty
    rw [hd]
    simp
  · intro hd hok
    unfold setDirty at hok
    rw [hd] at hok
    simp only [Bool.false_eq_true, if_false] at hok
    cases hf : fuel with
    | zero => rw [hf] at hok; exact absurd hok (by simp)
    | succ f =>
        rw [hf] at hok
        set S1 := logEv (updE S e (fun est => { est with dirty := true, value := .unknown }))
          (.setDirtyEv e) with hS1
        have hS1e : getE S1 e = { getE S e with dirty := true, value := .unknown } := by
          rw [hS1, getE_logEv, getE_updE_same]
        have hok2 : (match reportDirty f S1 e with
            | Step.ok _ S2 => Step.ok () (maybeUnsubscribe S2 e)
            | Step.thrown o S2 => Step.thrown o S2
            | Step.nofuel S2 => Step.nofuel S2) = Step.ok () T := hok
        clear hok
        cases hps : reportDirty f S1 e with
        | ok a S2 =>
            rw [hps] at hok2
            simp only [Step.ok.injEq] at hok2
            have hT : T = maybeUnsubscribe S2 e := hok2.2.symm
            have hfr : DirtyFrame S1 S2 := reportDirty_frame hps
            have hd2 : (getE S2 e).dirty = true := by
              rw [hfr.dirty_eq e, hS1e]
            have hv2 : (getE S2 e).value = .unknown := by
              rw [hfr.value_eq e, hS1e]
            have hu2 : (getE S2 e).unsub = (getE S e).unsub := by
              rw [hfr.unsub_eq e, hS1e]
            have hlog2 : S2.log = S.log ++ [Ev.setDirtyEv e] := hfr.2.2.1
            have hmem : ∀ p ∈ (getE S e).parents, e ∈ (getE S2 p).dirtyChildren := by
              intro p hp
              apply reportDirty_ok_mem hps
              rw [hS1e]
              exact hp
            have hdcT : ∀ p, (getE T p).dirtyChildren = (getE S2 p).dirtyChildren := by
              intro p
              rw [hT]
              unfold maybeUnsubscribe
              cases hu : (getE S2 e).unsub with
              | some v =>
                  by_cases hpe : p = e
                  · subst hpe
                    rw [getE_logEv, getE_updE_same]
                  · rw [getE_logEv, getE_updE_ne _ _ _ _ hpe]
              | none => rfl
            refine ⟨?_, ?_, ?_, ?_, ?_⟩
            · rw [hT]
              unfold maybeUnsubscribe
              cases hu : (getE S2 e).unsub with
              | some v => rw [getE_logEv, getE_updE_same]; exact hd2
              | none => exact hd2
            · rw [hT]
              unfold maybeUnsubscribe
              cases hu : (getE S2 e).unsub with
              | some v => rw [getE_logEv, getE_updE_same]; exact hv2
              | none => exact hv2
            · intro p hp
              rw [hdcT p]
              exact hmem p hp
            · rw [hT]
              unfold maybeUnsubscribe
              cases hu : (getE S2 e).unsub with
              | some v => rw [getE_logEv, getE_updE_same]
              | none => exact hu
            · rw [hT]
              unfold maybeUnsubscribe
              cases hu : (getE S2 e).unsub with
              | some v =>
                  have : (getE S e).unsub.isSome = true := by rw [← hu2, hu]; rfl
                  rw [this]
                  show S2.log ++ [Ev.unsubEv e] = _
                  rw [hlog2]
                  simp
              | none =>
                  have : (getE S e).unsub.isSome = false := by rw [← hu2, hu]; rfl
                  rw [this]
                  show S2.log = _
                  rw [hlog2]
                  simp
        | thrown o S2 => rw [hps] at hok2; exact absurd hok2 (by simp)
        | nofuel S2 => rw [hps] at hok2; exact absurd hok2 (by simp)

/-- Witness for C6_setDirty_effects on the wS6 fixture. -/
theorem C6_setDirty_effects_witness :
    (getE wS6 0).dirty = false ∧
    ((getE ((setDirty 5 wS6 0).state) 0).dirty = true ∧
     (getE ((setDirty 5 wS6 0).state) 0).value = .unknown ∧
     (∀ p ∈ (getE wS6 0).parents, 0 ∈ (getE ((setDirty 5 wS6 0).state) p).dirtyChildren) ∧
     (getE ((setDirty 5 wS6 0).state) 0).unsub = none ∧
     ((setDirty 5 wS6 0).state).log = wS6.log ++ [Ev.setDirtyEv 0] ++
        (if (getE wS6 0).unsub.isSome then [Ev.unsubEv 0] else [])) :=
  ⟨by decide,
    (C6_setDirty_effects 5 wS6 ((setDirty 5 wS6 0).state) 0).2 (by decide) (by decide)⟩

/-! ## Claim C5: reportCleanChild and value equality -/

theorem setDirty_ok_dirty {fuel : Nat} {S T : Sys} {e : Nat} {u : Unit}
    (h : setDirty fuel S e = .ok u T) : (getE T e).dirty = true := by
  unfold setDirty at h
  cases hd : (getE S e).dirty with
  | true =>
      rw [hd] at h
      simp only [if_true] at h
      cases h
      exact hd
  | false =>
      rw [hd] at h
      simp only [Bool.false_eq_true, if_false] at h
      cases hf : fuel with
      | zero => rw [hf] at h; exact absurd h (by simp)
      | succ f =>
          rw [hf] at h
          set S1 := logEv (updE S e (fun est => { est with dirty := true, value := .unknown }))
            (.setDirtyEv e) with hS1
          have h2 : (match reportDirty f S1 e with
              | Step.ok _ S2 => Step.ok () (maybeUnsubscribe S2 e)
              | Step.thrown o S2 => Step.thrown o S2
              | Step.nofuel S2 => Step.nofuel S2) = Step.ok u T := h
          cases hps : reportDirty f S1 e with
          | ok a S2 =>
              rw [hps] at h2
              simp only [Step.ok.injEq] at h2
              have hT : T = maybeUnsubscribe S2 e := h2.2.symm
              have hd2 : (getE S2 e).dirty = true := by
                rw [(reportDirty_frame hps).dirty_eq e, hS1, getE_logEv, getE_updE_same]
              rw [hT]
              unfold maybeUnsubscribe
              cases hu : (getE S2 e).unsub with
              | some v => rw [getE_logEv, getE_updE_same]; exact hd2
              | none => exact hd2
          | thrown o S2 => rw [hps] at h2; exact absurd h2 (by simp)
          | nofuel S2 => rw [hps] at h2; exact absurd h2 (by simp)

theorem cvInv_famStable (p c : Nat) (v0 : Value) : FamilyStable (CVInv p c v0) := by
  refine ⟨⟨?_, ?_⟩, ?_, ?_, ?_, ?_⟩
  · intro S q y h
    refine ⟨?_, fun hv => ?_⟩
    · by_cases hpq : p = q
      · subst hpq
        rw [getE_updE_same]
        exact h.1
      · rw [getE_updE_ne _ _ _ _ hpq]
        exact h.1
    · by_cases hcq : c = q
      · subst hcq
        rw [getE_updE_same]
        exact h.2 hv
      · rw [getE_updE_ne _ _ _ _ hcq]
        exact h.2 hv
  · intro S msg h
    exact h
  · intro S e h hd
    refine ⟨?_, fun hv => ?_⟩
    · by_cases hpe : p = e
      · subst hpe
        rw [getE_logEv, getE_updE_same]
        exact h.1
      · rw [getE_logEv, getE_updE_ne _ _ _ _ hpe]
        exact h.1
    · by_cases hce : c = e
      · subst hce
        rw [getE_logEv, getE_updE_same]
      · rw [getE_logEv, getE_updE_ne _ _ _ _ hce]
        exact h.2 hv
  · intro S e h
    unfold maybeUnsubscribe
    cases hu : (getE S e).unsub with
    | some v =>
        refine ⟨?_, fun hv => ?_⟩
        · by_cases hpe : p = e
          · subst hpe
            rw [getE_logEv, getE_updE_same]
            exact h.1
          · rw [getE_logEv, getE_updE_ne _ _ _ _ hpe]
            exact h.1
        · by_cases hce : c = e
          · subst hce
            rw [getE_logEv, getE_updE_same]
            exact h.2 hv
          · rw [getE_logEv, getE_updE_ne _ _ _ _ hce]
            exact h.2 hv
    | none => exact h
  · intro S q y h hlook hmb
    refine ⟨?_, fun hv => ?_⟩
    · by_cases hpq : p = q
      · subst hpq
        rw [getE_updE_same]
        show lookupA (setA (getE S p).childValues y (getE S y).value) c = some v0
        by_cases hcy : y = c
        · subst hcy
          rw [h.1] at hlook
          have hv0 : v0 = Value.unknown := Option.some.inj hlook
          have hvv := h.2 hv0
          rw [lookupA_setA_same, hvv, hv0]
        · rw [lookupA_setA_ne _ _ _ _ (fun hh => hcy hh.symm)]
          exact h.1
      · rw [getE_updE_ne _ _ _ _ hpq]
        exact h.1
    · by_cases hcq : c = q
      · subst hcq
        rw [getE_updE_same]
        exact h.2 hv
      · rw [getE_updE_ne _ _ _ _ hcq]
        exact h.2 hv
  · intro S q y h
    unfold removeDirtyChild
    refine ⟨?_, fun hv => ?_⟩
    · by_cases hpq : p = q
      · subst hpq
        rw [getE_updE_same]
        exact h.1
      · rw [getE_updE_ne _ _ _ _ hpq]
        exact h.1
    · by_cases hcq : c = q
      · subst hcq
        rw [getE_updE_same]
        exact h.2 hv
      · rw [getE_updE_ne _ _ _ _ hcq]
        exact h.2 hv

/-- reportCleanWork on an empty worklist returns at once. -/
theorem reportCleanWork_nil (f : Nat) (S : Sys) :
    reportCleanWork f S [] = Step.ok () S := by
  cases f with
  | zero => rfl
  | succ f => rfl

/-- One reportCleanWork step on a clean child whose recorded value is
Unknown: the parent record is overwritten with the child value before
continuing. -/
theorem reportCleanWork_cons_record {f : Nat} {S : Sys} {p c : Nat}
    {rest : List (Nat × Nat)}
    (hcv : lookupA (getE S p).childValues c = some Value.unknown)
    (hmb : mightBeDirty (getE S c) = false) :
    reportCleanWork (f + 1) S ((p, c) :: rest) =
      (let S1 := updE S p (fun e =>
         { e with childValues := setA e.childValues c (getE S c).value })
       let S2 := removeDirtyChild S1 p c
       if mightBeDirty (getE S2 p) = true then reportCleanWork f S2 rest
       else reportCleanWork f S2
         (List.map (fun gp => (gp, p)) (getE S2 p).parents ++ rest)) := by
  have hb1 : containsKeyA (getE S p).childValues c = true := by
    unfold containsKeyA
    rw [hcv]
    rfl
  conv_lhs => rw [reportCleanWork]
  rw [hb1, hmb, hcv]
  rfl

/-- One reportCleanWork step on a clean child whose recorded value
disagrees with the child value: the step is a setDirty on the parent. -/
theorem reportCleanWork_cons_mismatch {f : Nat} {S : Sys} {p c : Nat}
    {rest : List (Nat × Nat)} {v : Value}
    (hcv : lookupA (getE S p).childValues c = some v)
    (hvu : v ≠ Value.unknown)
    (hvi : valueIs v (getE S c).value = false)
    (hmb : mightBeDirty (getE S c) = false) :
    reportCleanWork (f + 1) S ((p, c) :: rest) =
      (match setDirty f S p with
       | Step.ok _ S1 =>
           let S2 := removeDirtyChild S1 p c
           if mightBeDirty (getE S2 p) = true then reportCleanWork f S2 rest
           else reportCleanWork f S2
             (List.map (fun gp => (gp, p)) (getE S2 p).parents ++ rest)
       | Step.thrown o S1 => Step.thrown o S1
       | Step.nofuel S1 => Step.nofuel S1) := by
  have hb1 : containsKeyA (getE S p).childValues c = true := by
    unfold containsKeyA
    rw [hcv]
    rfl
  conv_lhs => rw [reportCleanWork]
  rw [hb1, hmb, hcv]
  simp only [Option.getD_some, if_neg hvu, hvi, Bool.not_true, Bool.not_false,
    Bool.false_eq_true, if_false, eq_self_iff_true, if_true]

/-- One reportCleanWork step on a clean child whose recorded value
agrees with the child value under valueIs: no record write, no
setDirty. -/
theorem reportCleanWork_cons_equal {f : Nat} {S : Sys} {p c : Nat}
    {rest : List (Nat × Nat)} {v : Value}
    (hcv : lookupA (getE S p).childValues c = some v)
    (hvu : v ≠ Value.unknown)
    (hvi : valueIs v (getE S c).value = true)
    (hmb : mightBeDirty (getE S c) = false) :
    reportCleanWork (f + 1) S ((p, c) :: rest) =
      (let S2 := removeDirtyChild S p c
       if mightBeDirty (getE S2 p) = true then reportCleanWork f S2 rest
       else reportCleanWork f S2
         (List.map (fun gp => (gp, p)) (getE S2 p).parents ++ rest)) := by
  have hb1 : containsKeyA (getE S p).childValues c = true := by
    unfold containsKeyA
    rw [hcv]
    rfl
  conv_lhs => rw [reportCleanWork]
  rw [hb1, hmb, hcv]
  simp only [Option.getD_some, if_neg hvu, hvi, Bool.not_true, Bool.not_false,
    Bool.false_eq_true, if_false, eq_self_iff_true, if_true]

/-- In a reportCleanChild whose recorded value is Unknown, the parent
record ends up holding the child value of call time, whatever upward
propagation follows. -/
theorem reportCleanChild_records {fuel : Nat} {S T : Sys} {p c : Nat} {u : Unit}
    (hcv : lookupA (getE S p).childValues c = some Value.unknown)
    (hmb : mightBeDirty (getE S c) = false)
    (h : reportCleanChild fuel S p c = .ok u T) :
    lookupA (getE T p).childValues c = some ((getE S c).value) := by
  cases fuel with
  | zero =>
      unfold reportCleanChild reportCleanWork at h
      exact absurd h (by simp)
  | succ f =>
      unfold reportCleanChild at h
      rw [reportCleanWork_cons_record hcv hmb] at h
      set S1 := updE S p (fun e =>
        { e with childValues := setA e.childValues c (getE S c).value }) with hS1def
      have hinv1 : CVInv p c ((getE S c).value) S1 := by
        refine ⟨?_, fun hv => ?_⟩
        · rw [hS1def, getE_updE_same]
          exact lookupA_setA_same _ _ _
        · rw [hS1def]
          by_cases hcp : c = p
          · subst hcp
            rw [getE_updE_same]
            exact hv
          · rw [getE_updE_ne _ _ _ _ hcp]
            exact hv
      have hinv2 : CVInv p c ((getE S c).value) (removeDirtyChild S1 p c) :=
        (cvInv_famStable p c _).rmdc S1 p c hinv1
      by_cases hm : mightBeDirty (getE (removeDirtyChild S1 p c) p) = true
      · rw [if_pos hm] at h
        have := reportCleanWork_stable (cvInv_famStable p c _) f [] _ hinv2
        rw [h] at this
        exact this.1
      · rw [if_neg hm] at h
        have := reportCleanWork_stable (cvInv_famStable p c _) f
          (List.map (fun gp => (gp, p)) (getE (removeDirtyChild S1 p c) p).parents ++ []) _ hinv2
        rw [h] at this
        exact this.1

/-- In a reportCleanChild whose recorded value disagrees with the
child value under valueIs, the parent is marked dirty. -/
theorem reportCleanChild_mismatch_dirties {fuel : Nat} {S T : Sys} {p c : Nat}
    {u : Unit} {v : Value}
    (hcv : lookupA (getE S p).childValues c = some v)
    (hvu : v ≠ Value.unknown)
    (hvi : valueIs v (getE S c).value = false)
    (hmb : mightBeDirty (getE S c) = false)
    (h : reportCleanChild fuel S p c = .ok u T) :
    (getE T p).dirty = true := by
  cases fuel with
  | zero =>
      unfold reportCleanChild reportCleanWork at h
      exact absurd h (by simp)
  | succ f =>
      unfold reportCleanChild at h
      rw [reportCleanWork_cons_mismatch hcv hvu hvi hmb] at h
      cases hsd : setDirty f S p with
      | ok a S1 =>
          rw [hsd] at h
          have h2 : (if mightBeDirty (getE (removeDirtyChild S1 p c) p) = true then
                reportCleanWork f (removeDirtyChild S1 p c) []
              else reportCleanWork f (removeDirtyChild S1 p c)
                (List.map (fun gp => (gp, p))
                  (getE (removeDirtyChild S1 p c) p).parents ++ [])) = Step.ok u T := h
          have hd1 : (getE S1 p).dirty = true := setDirty_ok_dirty hsd
          have hd2 : (getE (removeDirtyChild S1 p c) p).dirty = true := by
            unfold removeDirtyChild
            rw [getE_updE_same]
            exact hd1
          have hm : mightBeDirty (getE (removeDirtyChild S1 p c) p) = true := by
            unfold mightBeDirty
            rw [hd2]
            rfl
          rw [if_pos hm] at h2
          have hT : T = removeDirtyChild S1 p c := by
            rw [reportCleanWork_nil] at h2
            exact (Step.ok.inj h2).2.symm
          rw [hT]
          exact hd2
      | thrown o S1 => rw [hsd] at h; exact absurd h (by simp)
      | nofuel S1 => rw [hsd] at h; exact absurd h (by simp)

/-- In a reportCleanChild whose recorded value agrees with the child
value under valueIs, on a parent with no parents of its own, the only
effect is dropping the child from dirtyChildren: no record is written
and no setDirty happens. -/
theorem reportCleanChild_equal_noop {fuel : Nat} {S : Sys} {p c : Nat} {v : Value}
    (hcv : lookupA (getE S p).childValues c = some v)
    (hvu : v ≠ Value.unknown)
    (hvi : valueIs v (getE S c).value = true)
    (hmb : mightBeDirty (getE S c) = false)
    (hpar : (getE S p).parents = []) :
    reportCleanChild (fuel + 1) S p c = .ok () (removeDirtyChild S p c) := by
  unfold reportCleanChild
  rw [reportCleanWork_cons_equal hcv hvu hvi hmb]
  have hpar2 : (getE (removeDirtyChild S p c) p).parents = [] := by
    unfold removeDirtyChild
    rw [getE_updE_same]
    exact hpar
  by_cases hm : mightBeDirty (getE (removeDirtyChild S p c) p) = true
  · rw [if_pos hm]
    exact reportCleanWork_nil _ _
  · rw [if_neg hm, hpar2]
    exact reportCleanWork_nil fuel (removeDirtyChild S p c)

/-- C5: the reportCleanChild contract.  With the preconditions of the
claim (the child is registered in the parent and is not might-be-dirty)
a recorded Unknown is replaced by the child value of call time; a
recorded value that is not valueIs-equal to the child value marks the
parent dirty; a valueIs-equal recorded value leaves the parent alone
(shown exactly for a parent with no upward edges, where the whole call
reduces to dropping the child from dirtyChildren).  valueIs equates two
cached values precisely when both are ordinary values with referentially
identical results or both are exceptional with referentially identical
exceptions; Unknown is equal to nothing, not even itself. -/
theorem C5_reportCleanChild_contract :
    (∀ a b : Value, valueIs a b = true ↔
      ((∃ x y : Obj, a = .known x ∧ b = .known y ∧ x.oid = y.oid) ∨
       (∃ x y : Obj, a = .exc x ∧ b = .exc y ∧ x.oid = y.oid))) ∧
    (∀ a : Value, valueIs a a = true ↔ a ≠ .unknown) ∧
    (∀ (fuel : Nat) (S T : Sys) (p c : Nat) (u : Unit),
      lookupA (getE S p).childValues c = some Value.unknown →
      mightBeDirty (getE S c) = false →
      reportCleanChild fuel S p c = .ok u T →
      lookupA (getE T p).childValues c = some ((getE S c).value)) ∧
    (∀ (fuel : Nat) (S T : Sys) (p c : Nat) (u : Unit) (v : Value),
      lookupA (getE S p).childValues c = some v →
      v ≠ Value.unknown →
      valueIs v (getE S c).value = false →
      mightBeDirty (getE S c) = false →
      reportCleanChild fuel S p c = .ok u T →
      (getE T p).dirty = true) ∧
    (∀ (fuel : Nat) (S : Sys) (p c : Nat) (v : Value),
      lookupA (getE S p).childValues c = some v →
      v ≠ Value.unknown →
      valueIs v (getE S c).value = true →
      mightBeDirty (getE S c) = false →
      (getE S p).parents = [] →
      reportCleanChild (fuel + 1) S p c = .ok () (removeDirtyChild S p c)) := by
  refine ⟨?_, ?_, ?_, ?_, ?_⟩
  · intro a b
    cases a with
    | unknown => simp [valueIs]
    | known x =>
        cases b with
        | unknown => simp [valueIs]
        | known y => simp [valueIs]
        | exc y => simp [valueIs]
    | exc x =>
        cases b with
        | unknown => simp [valueIs]
        | known y => simp [valueIs]
        | exc y => simp [valueIs]
  · intro a
    cases a with
    | unknown => simp [valueIs]
    | known x => simp [valueIs]
    | exc x => simp [valueIs]
  · intro fuel S T p c u hcv hmb h
    exact reportCleanChild_records hcv hmb h
  · intro fuel S T p c u v hcv hvu hvi hmb h
    exact reportCleanChild_mismatch_dirties hcv hvu hvi hmb h
  · intro fuel S p c v hcv hvu hvi hmb hpar
    exact reportCleanChild_equal_noop hcv hvu hvi hmb hpar

/-- Witness for C5: concrete runs exercising the record, mismatch and
equal branches, and a valueIs equality that is referential (equal oids,
different payloads). -/
theorem C5_reportCleanChild_contract_witness :
    valueIs (Value.known ⟨0, ObjData.num 1⟩) (Value.known ⟨0, ObjData.num 2⟩) = true ∧
    lookupA (getE (reportCleanChild 3 c5SU 1 0).state 1).childValues 0
      = some (Value.known ⟨0, ObjData.num 1⟩) ∧
    (getE (reportCleanChild 3 c5SM 1 0).state 1).dirty = true ∧
    reportCleanChild 3 c5SE 1 0 = .ok () (removeDirtyChild c5SE 1 0) := by
  refine ⟨?_, ?_, ?_, ?_⟩
  · exact (C5_reportCleanChild_contract.1 _ _).2
      (Or.inl ⟨⟨0, ObjData.num 1⟩, ⟨0, ObjData.num 2⟩, rfl, rfl, rfl⟩)
  · exact C5_reportCleanChild_contract.2.2.1 3 c5SU ((reportCleanChild 3 c5SU 1 0).state)
      1 0 () (by decide) (by decide) rfl
  · exact C5_reportCleanChild_contract.2.2.2.1 3 c5SM ((reportCleanChild 3 c5SM 1 0).state)
      1 0 () (Value.known ⟨5, ObjData.num 9⟩) (by decide) (by decide)
      (by decide) (by decide) rfl
  · exact C5_reportCleanChild_contract.2.2.2.2 2 c5SE 1 0 (Value.known ⟨0, ObjData.num 1⟩)
      (by decide) (by decide) (by decide) (by decide) (by decide)

/-! ## Lemmas about the LRU cache -/

theorem find_filter_self_none {K V : Type} [DecidableEq K]
    (l : List (K × V)) (k : K) :
    (l.filter (fun q => q.1 ≠ k)).find? (fun p => p.1 = k) = none := by
  apply List.find?_eq_none.2
  intro x hx
  have hmem := List.of_mem_filter hx
  simp only [ne_eq, decide_not, Bool.not_eq_true', decide_eq_false_iff_not] at hmem
  simpa using hmem

/-- Deleting a present key succeeds, removes exactly that key, and
fires a single dispose call that observes the key as no longer present
in the map. -/
theorem cache_delete_hit {K V : Type} [DecidableEq K]
    (c : Cache K V) (k : K) (v : V) (h : c.lookup k = some v) :
    c.delete k =
      (true, ⟨c.entries.filter (fun q => q.1 ≠ k), c.max⟩, [⟨v, k, false⟩]) := by
  unfold Cache.delete
  rw [h]
  simp only [Cache.has, Cache.lookup, find_filter_self_none, Option.isSome_none]

/-- Every dispose call emitted by delete observes the key as already
removed from the map. -/
theorem cache_delete_calls_detached {K V : Type} [DecidableEq K]
    (c : Cache K V) (k : K) :
    ∀ call ∈ (c.delete k).2.2, call.keyPresent = false := by
  intro call hc
  cases h : c.lookup k with
  | none =>
      unfold Cache.delete at hc
      rw [h] at hc
      simp at hc
  | some v =>
      rw [cache_delete_hit c k v h] at hc
      simp at hc
      rw [hc]

/-- Every dispose call emitted by the clean loop observes its key as
already removed from the map. -/
theorem cache_cleanGo_calls_detached {K V : Type} [DecidableEq K] :
    ∀ (n : Nat) (c : Cache K V), ∀ call ∈ (Cache.cleanGo c n).2, call.keyPresent = false := by
  intro n
  induction n with
  | zero => intro c call hc; simp [Cache.cleanGo] at hc
  | succ m ih =>
      intro c call hc
      unfold Cache.cleanGo at hc
      cases hlast : c.entries.getLast? with
      | none => rw [hlast] at hc; simp at hc
      | some last =>
          rw [hlast] at hc
          by_cases hlen : c.entries.length > c.max
          · simp only [hlen, if_true, List.mem_append] at hc
            rcases hc with hc | hc
            · exact cache_delete_calls_detached c last.1 call hc
            · exact ih _ call hc
          · simp [hlen] at hc

/-- Every dispose call emitted by Cache.clean observes its key as
already removed. -/
theorem cache_clean_calls_detached {K V : Type} [DecidableEq K]
    (c : Cache K V) :
    ∀ call ∈ c.clean.2, call.keyPresent = false :=
  cache_cleanGo_calls_detached c.entries.length c

/-- C4 counterexample: in the cache holding key 0 with value 42, the
key is present, yet the single dispose call fired by delete(0) observes
the key as no longer present in the map — refuting, at this concrete
input, the claim that the callback fires while the key is still in the
map. -/
theorem C4_counterexample :
    Cache.has (⟨[(0, 42)], 1⟩ : Cache Nat Nat) 0 = true ∧
    ((⟨[(0, 42)], 1⟩ : Cache Nat Nat).delete 0).2.2.map DisposeCall.keyPresent
      = [false] := by
  constructor
  · decide
  · decide

/-- C4 (amended): for every key present in the LRU container,
delete(key) returns true and invokes the dispose callback synchronously
exactly once, with the key already detached from the underlying map at
the moment of the call (during the dispose call the key is no longer
present); every removal performed by clean() likewise fires its dispose
call after the key is detached. -/
theorem C4_dispose_after_detach {K V : Type} [DecidableEq K]
    (c : Cache K V) (k : K) (v : V) (h : c.lookup k = some v) :
    c.delete k =
      (true, ⟨c.entries.filter (fun q => q.1 ≠ k), c.max⟩, [⟨v, k, false⟩]) ∧
    (∀ call ∈ (c.delete k).2.2, call.keyPresent = false) ∧
    (∀ call ∈ c.clean.2, call.keyPresent = false) :=
  ⟨cache_delete_hit c k v h, cache_delete_calls_detached c k,
    cache_clean_calls_detached c⟩

/-- A cache miss leaves the Cache.get result equal to the input
cache. -/
theorem cache_get_miss {K V : Type} [DecidableEq K]
    (c : Cache K V) (k : K) (h : c.has k = false) :
    c.get k = (none, c) := by
  unfold Cache.get Cache.getEntry
  unfold Cache.has Cache.lookup at h
  cases hf : c.entries.find? (fun p => p.1 = k) with
  | none => rfl
  | some p => rw [hf] at h; simp at h

/-- A cache miss makes Cache.delete a no-op that fires nothing. -/
theorem cache_delete_miss {K V : Type} [DecidableEq K]
    (c : Cache K V) (k : K) (h : c.has k = false) :
    c.delete k = (false, c, []) := by
  unfold Cache.delete
  unfold Cache.has at h
  cases hl : c.lookup k with
  | none => rfl
  | some v => rw [hl] at h; simp at h

/-- On a miss cacheGet returns none and the untouched Sys. -/
theorem cacheGet_miss (E : Env) (S : Sys) (w k : Nat)
    (h : (getCache E S w).has k = false) :
    cacheGet E S w k = (none, S) := by
  unfold cacheGet
  rw [cache_get_miss _ _ h]

/-- On a miss cacheDelete returns false and the untouched Sys. -/
theorem cacheDelete_miss (fuel : Nat) (E : Env) (S : Sys) (w k : Nat)
    (h : (getCache E S w).has k = false) :
    cacheDelete fuel E S w k = .ok false S := by
  unfold cacheDelete
  rw [cache_delete_miss _ _ h]

/-- Witness for C4_dispose_after_detach at a concrete one-entry
cache. -/
theorem C4_dispose_after_detach_witness :
    (⟨[(5, 7)], 0⟩ : Cache Nat Nat).lookup 5 = some 7 ∧
    ((⟨[(5, 7)], 0⟩ : Cache Nat Nat).delete 5 =
      (true, ⟨[], 0⟩, [⟨7, 5, false⟩]) ∧
    (∀ call ∈ ((⟨[(5, 7)], 0⟩ : Cache Nat Nat).delete 5).2.2,
      call.keyPresent = false) ∧
    (∀ call ∈ (⟨[(5, 7)], 0⟩ : Cache Nat Nat).clean.2,
      call.keyPresent = false)) :=
  ⟨by decide, by
    have h := C4_dispose_after_detach (⟨[(5, 7)], 0⟩ : Cache Nat Nat) 5 7 (by decide)
    exact ⟨by rw [h.1]; decide, h.2.1, h.2.2⟩⟩

/-- C10: when the key maps to no cached entry, every control method is
a total no-op at the interface — dirty and dirtyKey return without
error and change no state, peek and peekKey return undefined without
touching the state (hence registering no dependency), and forget and
forgetKey return false without firing any dispose callback (the state,
including the event log, is exactly the input state). -/
theorem C10_missing_key_noops (fuel : Nat) (E : Env) (S : Sys) (w k : Nat)
    (h : (getCache E S w).has k = false) :
    wrapDirty fuel E S w k = .ok () S ∧
    wrapPeek E S w k = (none, S) ∧
    wrapForget fuel E S w k = .ok false S ∧
    wrapDirtyKey fuel E S w k = .ok () S ∧
    wrapPeekKey E S w k = (none, S) ∧
    wrapForgetKey fuel E S w k = .ok false S := by
  have hg := cacheGet_miss E S w k h
  have hd := cacheDelete_miss fuel E S w k h
  refine ⟨?_, ?_, ?_, ?_, ?_, ?_⟩
  · unfold wrapDirty lookupW; rw [hg]
  · unfold wrapPeek lookupW; rw [hg]
  · exact hd
  · unfold wrapDirtyKey; rw [hg]
  · unfold wrapPeekKey; rw [hg]
  · exact hd

/-- Witness for C10_missing_key_noops on the empty initial state. -/
theorem C10_missing_key_noops_witness :
    (getCache (fun _ => ⟨fun _ _ => Body.ret 0, 16, none⟩) ⟨[], [], [], 0, 0, 0, []⟩ 0).has 3
      = false ∧
    wrapDirty 5 (fun _ => ⟨fun _ _ => Body.ret 0, 16, none⟩) ⟨[], [], [], 0, 0, 0, []⟩ 0 3
      = .ok () ⟨[], [], [], 0, 0, 0, []⟩ :=
  ⟨by decide,
    (C10_missing_key_noops 5 (fun _ => ⟨fun _ _ => Body.ret 0, 16, none⟩)
      ⟨[], [], [], 0, 0, 0, []⟩ 0 3 (by decide)).1⟩

/-! ## Claim C2: exception caching -/

theorem updE_ext_eq (S : Sys) (e : Nat) (g : Entry → Entry) :
    (updE S e g).ext = S.ext := rfl

theorem logEv_ext_eq (S : Sys) (v : Ev) : (logEv S v).ext = S.ext := rfl

/-- setDirty on a non-dirty entry leaves the value cleared to Unknown. -/
theorem setDirty_ok_value_unknown {fuel : Nat} {S T : Sys} {e : Nat} {u : Unit}
    (hd : (getE S e).dirty = false)
    (h : setDirty fuel S e = .ok u T) : (getE T e).value = Value.unknown := by
  unfold setDirty at h
  rw [hd] at h
  simp only [Bool.false_eq_true, if_false] at h
  cases hf : fuel with
  | zero => rw [hf] at h; exact absurd h (by simp)
  | succ f =>
      rw [hf] at h
      set S1 := logEv (updE S e (fun est => { est with dirty := true, value := .unknown }))
        (.setDirtyEv e) with hS1
      have h2 : (match reportDirty f S1 e with
          | Step.ok _ S2 => Step.ok () (maybeUnsubscribe S2 e)
          | Step.thrown o S2 => Step.thrown o S2
          | Step.nofuel S2 => Step.nofuel S2) = Step.ok u T := h
      cases hps : reportDirty f S1 e with
      | ok a S2 =>
          rw [hps] at h2
          simp only [Step.ok.injEq] at h2
          have hT : T = maybeUnsubscribe S2 e := h2.2.symm
          have hv2 : (getE S2 e).value = Value.unknown := by
            rw [(reportDirty_frame hps).value_eq e, hS1, getE_logEv, getE_updE_same]
          rw [hT]
          unfold maybeUnsubscribe
          cases hu : (getE S2 e).unsub with
          | some v => rw [getE_logEv, getE_updE_same]; exact hv2
          | none => exact hv2
      | thrown o S2 => rw [hps] at h2; exact absurd h2 (by simp)
      | nofuel S2 => rw [hps] at h2; exact absurd h2 (by simp)

/-- Unfolding the wrapper call on a cache hit. -/
theorem callW_hit {E : Env} {f : Nat} {S : Sys} {w k e : Nat} {c1 : Cache Nat Nat}
    (slot : Option Nat)
    (hget : (getCache E S w).get k = (some e, c1)) :
    exec E (f + 1) S (.callW slot w k) =
      (match exec E f (putCache S w c1) (.recomp slot e) with
       | .ok v S3 =>
           let S4 := cacheSet E S3 w k e
           let S5 := { S4 with pending := insertIfAbsent S4.pending w }
           match slot with
           | none =>
               match cleanAll f E S5 with
               | .ok _ S6 => .ok v S6
               | .thrown o S6 => .thrown o S6
               | .nofuel S6 => .nofuel S6
           | some _ => .ok v S5
       | .thrown o S3 => .thrown o (logEv S3 (.threwEv w k))
       | .nofuel S3 => .nofuel S3) := by
  have hcg : cacheGet E S w k = (some e, putCache S w c1) := by
    unfold cacheGet
    rw [hget]
  conv_lhs => rw [exec]
  simp only [hcg]

/-- recompute on a settled entry holding a cached exception: the read
rethrows that very object and touches nothing. -/
theorem recomp_cached_exc {E : Env} {f : Nat} {S : Sys} {e : Nat} {ex : Obj}
    (hrec : (getE S e).recomputing = false)
    (hd : (getE S e).dirty = false)
    (hdc : (getE S e).dirtyChildren = [])
    (hv : (getE S e).value = Value.exc ex) :
    exec E (f + 1) S (.recomp none e) = .thrown ex S := by
  have hm : mightBeDirty (getE S e) = false := by
    unfold mightBeDirty
    rw [hd, hdc]
    rfl
  conv_lhs => rw [exec]
  simp only [rememberParent, valueGet, hrec, hm, hv, Bool.false_eq_true, if_false]

/-- A top-level wrapper read of a settled cached-exception entry
rethrows the same exception object; the only state changes are the
cache recency promotion and the threwEv log entry. -/
theorem callW_cached_exc_rethrow {E : Env} {f : Nat} {S : Sys} {w k e : Nat}
    {ex : Obj} {c1 : Cache Nat Nat}
    (hget : (getCache E S w).get k = (some e, c1))
    (hrec : (getE S e).recomputing = false)
    (hd : (getE S e).dirty = false)
    (hdc : (getE S e).dirtyChildren = [])
    (hv : (getE S e).value = Value.exc ex) :
    exec E (f + 2) S (.callW none w k) =
      .thrown ex (logEv (putCache S w c1) (.threwEv w k)) := by
  rw [callW_hit none hget]
  rw [recomp_cached_exc (S := putCache S w c1) hrec hd hdc hv]

/-- recomputeNewValue stores a thrown value as the entry's cached
exception and clears the recomputing flag. -/
theorem recompNV_throw_caches {E : Env} {f : Nat} {S S3 : Sys} {e : Nat} {o : Obj}
    (h : exec E f
        (logEv (updE S e (fun x => { x with recomputing := true, value := Value.unknown }))
          (Ev.invoke e))
        (.evalB (some e) ((E (getE S e).wid).body S.ext (getE S e).keyArg)) = .thrown o S3) :
    exec E (f + 1) S (.recompNV e) =
      .ok unitObj (updE S3 e (fun x => { x with value := Value.exc o, recomputing := false })) := by
  conv_lhs => rw [exec]
  simp only [logEv_ext_eq, updE_ext_eq]
  rw [h]

/-- Deleting a key from a cache removes its binding. -/
theorem cacheLookup_delete_none (c : Cache Nat Nat) (k : Nat) :
    ((Cache.delete c k).2.1).lookup k = none := by
  cases hl : c.lookup k with
  | none =>
      unfold Cache.delete
      rw [hl]
      exact hl
  | some v =>
      rw [cache_delete_hit c k v hl]
      show Cache.lookup ⟨c.entries.filter (fun q => q.1 ≠ k), c.max⟩ k = none
      unfold Cache.lookup
      rw [find_filter_self_none]

/-- C2: exception caching.  A user function that throws o during
recomputation leaves o stored as the entry's cached exceptional value
with the recomputing flag cleared; a top-level read of a settled entry
holding a cached exception rethrows the very same object, with no
invoke event and no state change beyond the cache recency promotion and
the threwEv log entry; dirtying a non-dirty entry clears the cached
value (hence a cached exception) back to Unknown; forgetting deletes
the cache binding, so no later read can consult the cached exception. -/
theorem C2_exception_caching :
    (∀ (E : Env) (f : Nat) (S S3 : Sys) (e : Nat) (o : Obj),
      exec E f
          (logEv (updE S e (fun x => { x with recomputing := true, value := Value.unknown }))
            (Ev.invoke e))
          (.evalB (some e) ((E (getE S e).wid).body S.ext (getE S e).keyArg)) = .thrown o S3 →
      exec E (f + 1) S (.recompNV e) =
        .ok unitObj (updE S3 e (fun x => { x with value := Value.exc o, recomputing := false }))) ∧
    (∀ (E : Env) (f : Nat) (S : Sys) (w k e : Nat) (ex : Obj) (c1 : Cache Nat Nat),
      (getCache E S w).get k = (some e, c1) →
      (getE S e).recomputing = false →
      (getE S e).dirty = false →
      (getE S e).dirtyChildren = [] →
      (getE S e).value = Value.exc ex →
      exec E (f + 2) S (.callW none w k) =
        .thrown ex (logEv (putCache S w c1) (.threwEv w k))) ∧
    (∀ (fuel : Nat) (S T : Sys) (e : Nat) (u : Unit),
      (getE S e).dirty = false →
      setDirty fuel S e = .ok u T →
      (getE T e).value = Value.unknown) ∧
    (∀ (c : Cache Nat Nat) (k : Nat), ((Cache.delete c k).2.1).lookup k = none) := by
  refine ⟨?_, ?_, ?_, ?_⟩
  · intro E f S S3 e o h
    exact recompNV_throw_caches h
  · intro E f S w k e ex c1 hget hrec hd hdc hv
    exact callW_cached_exc_rethrow hget hrec hd hdc hv
  · intro fuel S T e u hd h
    exact setDirty_ok_value_unknown hd h
  · intro c k
    exact cacheLookup_delete_none c k

/-- Witness for C2: after one top-level call of a wrapper whose user
function throws an object carrying 7, the entry caches the exception;
a second call rethrows the same object with only a recency promotion
and a threwEv log entry; setDirty clears the cached value; deleting the
key removes the binding. -/
theorem C2_exception_caching_witness :
    (getCache c2Env c2S1 0).get 0 = (some 0, c2C1) ∧
    (getE c2S1 0).value = Value.exc ⟨0, ObjData.num 7⟩ ∧
    exec c2Env 10 c2S1 (Task.callW none 0 0) =
      .thrown ⟨0, ObjData.num 7⟩ (logEv (putCache c2S1 0 c2C1) (.threwEv 0 0)) ∧
    (getE (setDirty 5 c2S1 0).state 0).value = Value.unknown ∧
    ((Cache.delete c2C1 0).2.1).lookup 0 = none := by
  refine ⟨by decide, by decide, ?_, ?_, ?_⟩
  · exact C2_exception_caching.2.1 c2Env 8 c2S1 0 0 0 ⟨0, ObjData.num 7⟩ c2C1
      (by decide) (by decide) (by decide) (by decide) (by decide)
  · exact C2_exception_caching.2.2.1 5 c2S1 ((setDirty 5 c2S1 0).state) 0 ()
      (by decide) (by decide)
  · exact C2_exception_caching.2.2.2 c2C1 0

/-! ## Claim C3: cycles surface the recursion error and clear the flag -/

/-- recompute on an entry already recomputing throws a fresh Error with
message "already recomputing", before any other effect: the state is
untouched apart from the Error allocation. -/
theorem recomp_reentrant_throws {E : Env} {f : Nat} (slot : Option Nat) {S : Sys} {e : Nat}
    (h : (getE S e).recomputing = true) :
    exec E (f + 1) S (.recomp slot e) =
      .thrown ⟨S.nextO, ObjData.errMsg "already recomputing"⟩ { S with nextO := S.nextO + 1 } := by
  conv_lhs => rw [exec]
  simp only [h, eq_self_iff_true, if_true, mkErr]

/-- C3: a cyclic read surfaces the "already recomputing" error and the
recomputing flag is cleared on the error path.  First conjunct: any
re-entrant recompute (the state of every cycle) throws an Error whose
message is "already recomputing", leaving the entry untouched.  Second
conjunct: when the user function body propagates an exception, the
recomputeNewValue frame still clears the recomputing flag of its entry.
Third conjunct: the concrete cycle narrative with c3Env, whose user
function calls itself while the external cell holds 0 — the top-level
read throws the "already recomputing" Error, the flag is clear
afterwards, and after the caller breaks the cycle (dirty plus flipping
the cell) the next read returns 42 normally. -/
theorem C3_cycle_error :
    (∀ (E : Env) (f : Nat) (slot : Option Nat) (S : Sys) (e : Nat),
      (getE S e).recomputing = true →
      exec E (f + 1) S (.recomp slot e) =
        .thrown ⟨S.nextO, ObjData.errMsg "already recomputing"⟩
          { S with nextO := S.nextO + 1 }) ∧
    (∀ (E : Env) (f : Nat) (S S3 : Sys) (e : Nat) (o : Obj),
      exec E f
          (logEv (updE S e (fun x => { x with recomputing := true, value := Value.unknown }))
            (Ev.invoke e))
          (.evalB (some e) ((E (getE S e).wid).body S.ext (getE S e).keyArg)) = .thrown o S3 →
      (getE (exec E (f + 1) S (.recompNV e)).state e).recomputing = false) ∧
    (exec c3Env 12 initS (Task.callW none 0 0) =
        .thrown ⟨0, ObjData.errMsg "already recomputing"⟩ c3T1 ∧
      (getE c3T1 0).recomputing = false ∧
      exec c3Env 12 c3S2 (Task.callW none 0 0) = .ok ⟨1, ObjData.num 42⟩ c3T2) := by
  refine ⟨?_, ?_, by decide, by decide, by decide⟩
  · intro E f slot S e h
    exact recomp_reentrant_throws slot h
  · intro E f S S3 e o h
    rw [recompNV_throw_caches h]
    simp only [Step.state, getE_updE_same]

/-- Witness for C3: the re-entrant recompute on a concrete mid-flight
entry throws the "already recomputing" Error, and a concrete throwing
recomputation leaves the flag cleared. -/
theorem C3_cycle_error_witness :
    exec c3Env 4 c3SR (Task.recomp none 0) =
      .thrown ⟨0, ObjData.errMsg "already recomputing"⟩ { c3SR with nextO := 1 } ∧
    (getE (exec c2Env 6 initS (Task.recompNV 0)).state 0).recomputing = false := by
  constructor
  · exact C3_cycle_error.1 c3Env 3 none c3SR 0 (by decide)
  · exact C3_cycle_error.2.1 c2Env 5 initS c3S3 0 ⟨0, ObjData.num 7⟩ (by decide)

/-! ## Claim C8: depend.dirty -/

theorem lookupA_some_mem {β : Type} {l : List (Nat × β)} {k : Nat} {v : β}
    (h : lookupA l k = some v) : (k, v) ∈ l := by
  induction l with
  | nil => simp [lookupA] at h
  | cons hd tl ih =>
      obtain ⟨a, w⟩ := hd
      by_cases hk : a = k
      · subst hk
        rw [lookupA_cons_same] at h
        have hv : w = v := Option.some.inj h
        subst hv
        exact List.mem_cons_self _ _
      · rw [lookupA_cons_ne a k w tl hk] at h
        exact List.mem_cons_of_mem _ (ih h)

theorem length_filter_lt {α : Type} (p : α → Bool) :
    ∀ (l : List α) (x : α), x ∈ l → p x = false →
      (l.filter p).length < l.length := by
  intro l
  induction l with
  | nil => intro x hx; cases hx
  | cons a tl ih =>
      intro x hx hpx
      cases hx with
      | head =>
          simp only [List.filter_cons, hpx, Bool.false_eq_true, if_false]
          exact Nat.lt_succ_of_le (List.length_filter_le p tl)
      | tail _ hmem =>
          cases hpa : p a with
          | true =>
              simp only [List.filter_cons, hpa, if_true, List.length_cons]
              exact Nat.succ_lt_succ (ih x hmem hpx)
          | false =>
              simp only [List.filter_cons, hpa, Bool.false_eq_true, if_false]
              exact Nat.lt_succ_of_lt (ih x hmem hpx)

theorem keyCount_eraseA_lt {D : List (Nat × DepSet)} {k : Nat} {ds : DepSet}
    (h : lookupA D k = some ds) : keyCount (eraseA D k) < keyCount D := by
  have hmem : (k, ds) ∈ D := lookupA_some_mem h
  have hp : (fun p => decide (p.1 ≠ k)) (k, ds) = false := by simp
  exact length_filter_lt _ D (k, ds) hmem hp

/-- Being dirty is preserved by everything the propagation family
writes. -/
theorem famStable_dirtyTrue (d : Nat) :
    FamilyStable (fun S => (getE S d).dirty = true) := by
  refine ⟨⟨?_, ?_⟩, ?_, ?_, ?_, ?_⟩
  · intro S p c h
    by_cases hx : d = p
    · subst hx
      rw [getE_updE_same]
      exact h
    · rw [getE_updE_ne _ _ _ _ hx]
      exact h
  · intro S msg h
    exact h
  · intro S e h hd0
    rw [getE_logEv]
    by_cases hx : d = e
    · subst hx
      rw [getE_updE_same]
    · rw [getE_updE_ne _ _ _ _ hx]
      exact h
  · intro S e h
    unfold maybeUnsubscribe
    cases hu : (getE S e).unsub with
    | some v =>
        rw [getE_logEv]
        by_cases hx : d = e
        · subst hx
          rw [getE_updE_same]
          exact h
        · rw [getE_updE_ne _ _ _ _ hx]
          exact h
    | none => exact h
  · intro S p c h _ _
    by_cases hx : d = p
    · subst hx
      rw [getE_updE_same]
      exact h
    · rw [getE_updE_ne _ _ _ _ hx]
      exact h
  · intro S p c h
    unfold removeDirtyChild
    by_cases hx : d = p
    · subst hx
      rw [getE_updE_same]
      exact h
    · rw [getE_updE_ne _ _ _ _ hx]
      exact h

/-- The member loop of depend.dirty with the default method preserves
every family-stable predicate. -/
theorem depMembersApply_setDirty_stable {P : Sys → Prop} (hP : FamilyStable P)
    (fuel : Nat) (E : Env) :
    ∀ (l : List Nat) (S : Sys), P S →
      P (depMembersApply fuel E S "setDirty" l).state := by
  intro l
  induction l with
  | nil => intro S hS; exact hS
  | cons e rest ih =>
      intro S hS
      unfold depMembersApply
      have hm : entryMethodApply fuel E S "setDirty" e = setDirty fuel S e := rfl
      rw [hm]
      cases hs : setDirty fuel S e with
      | ok a S1 =>
          have h1 := setDirty_stable hP fuel S e hS
          rw [hs] at h1
          exact ih S1 h1
      | thrown o S1 =>
          have h1 := setDirty_stable hP fuel S e hS
          rw [hs] at h1
          exact h1
      | nofuel S1 =>
          have h1 := setDirty_stable hP fuel S e hS
          rw [hs] at h1
          exact h1

/-- After the member loop with the default method, every member entry
is dirty. -/
theorem depMembersApply_setDirty_all {fuel : Nat} {E : Env} :
    ∀ (l : List Nat) (S S1 : Sys) (u : Unit),
      depMembersApply fuel E S "setDirty" l = .ok u S1 →
      ∀ d ∈ l, (getE S1 d).dirty = true := by
  intro l
  induction l with
  | nil => intro S S1 u h d hd; cases hd
  | cons e rest ih =>
      intro S S1 u h d hd
      unfold depMembersApply at h
      have hm : entryMethodApply fuel E S "setDirty" e = setDirty fuel S e := rfl
      rw [hm] at h
      cases hs : setDirty fuel S e with
      | ok a S2 =>
          rw [hs] at h
          have h2 : depMembersApply fuel E S2 "setDirty" rest = .ok u S1 := h
          cases hd with
          | head =>
              have hde := setDirty_ok_dirty hs
              have hstab := depMembersApply_setDirty_stable (famStable_dirtyTrue e)
                fuel E rest S2 hde
              rw [h2] at hstab
              exact hstab
          | tail _ hmem => exact ih S2 S1 u h2 d hmem
      | thrown o S2 => rw [hs] at h; exact absurd h (by simp)
      | nofuel S2 => rw [hs] at h; exact absurd h (by simp)

/-- C8: depend.dirty.  Selection: the default and the recognized names
pick the matching entry method (setDirty, dispose, and forget, which
deletes the entry's own key from its wrapper's cache), and an
unrecognized name behaves exactly as no name, that is setDirty.
Execution on an active set: every member entry is dirtied by the
default method; the set for k is removed, so the key no longer resolves
and keyCount strictly decreases; and when the set carried an
unsubscribe, the run ends by firing it (the depUnsubEv entry closes the
log). -/
theorem C8_depDirty_contract :
    (∀ (fuel : Nat) (E : Env) (S : Sys) (e : Nat),
      entryMethodApply fuel E S "setDirty" e = setDirty fuel S e ∧
      entryMethodApply fuel E S "dispose" e = dispose fuel S e) ∧
    (∀ (fuel : Nat) (E : Env) (S : Sys) (e : Nat) (u : Unit) (S1 : Sys),
      entryMethodApply fuel E S "forget" e = .ok u S1 →
      ∃ b, cacheDelete fuel E S (getE S e).wid (getE S e).keyArg = .ok b S1) ∧
    (∀ (fuel : Nat) (E : Env) (S : Sys) (D : DepSt) (k : Nat) (s : String),
      EntryMethods.contains s = false →
      depDirty fuel E S D k (some s) = depDirty fuel E S D k none) ∧
    (∀ (fuel : Nat) (E : Env) (l : List Nat) (S S1 : Sys) (u : Unit),
      depMembersApply fuel E S "setDirty" l = .ok u S1 →
      ∀ d ∈ l, (getE S1 d).dirty = true) ∧
    (∀ (fuel : Nat) (E : Env) (S : Sys) (D : DepSt) (k : Nat) (m : Option String)
        (ds : DepSet) (D1 : DepSt) (S2 : Sys),
      lookupA D k = some ds →
      depDirty fuel E S D k m = .ok D1 S2 →
      D1 = eraseA D k ∧ lookupA D1 k = none ∧ keyCount D1 < keyCount D) ∧
    (∀ (fuel : Nat) (E : Env) (S : Sys) (D : DepSt) (k : Nat) (m : Option String)
        (ds : DepSet) (u0 : Nat) (D1 : DepSt) (S2 : Sys),
      lookupA D k = some ds → ds.unsub = some u0 →
      depDirty fuel E S D k m = .ok D1 S2 →
      S2.log.getLast? = some (Ev.depUnsubEv k)) := by
  refine ⟨?_, ?_, ?_, ?_, ?_, ?_⟩
  · intro fuel E S e
    exact ⟨rfl, rfl⟩
  · intro fuel E S e u S1 h
    have h2 : (match cacheDelete fuel E S (getE S e).wid (getE S e).keyArg with
        | Step.ok _ S2 => Step.ok () S2
        | Step.thrown o S2 => Step.thrown o S2
        | Step.nofuel S2 => Step.nofuel S2) = Step.ok u S1 := h
    cases hc : cacheDelete fuel E S (getE S e).wid (getE S e).keyArg with
    | ok b S2 =>
        rw [hc] at h2
        have h3 : Step.ok () S2 = Step.ok u S1 := h2
        have h4 : S2 = S1 := (Step.ok.inj h3).2
        subst h4
        exact ⟨b, rfl⟩
    | thrown o S2 => rw [hc] at h2; exact absurd h2 (by simp)
    | nofuel S2 => rw [hc] at h2; exact absurd h2 (by simp)
  · intro fuel E S D k s h
    unfold depDirty
    cases hl : lookupA D k with
    | none => rfl
    | some ds => simp only [h, Bool.false_eq_true, if_false]
  · intro fuel E l S S1 u h
    exact depMembersApply_setDirty_all l S S1 u h
  · intro fuel E S D k m ds D1 S2 hl h
    unfold depDirty at h
    rw [hl] at h
    set mn := (match m with
      | some s => if EntryMethods.contains s then s else "setDirty"
      | none => "setDirty") with hmn
    have h2 : (match depMembersApply fuel E S mn ds.members with
        | Step.ok _ T => Step.ok (eraseA D k) (depMaybeUnsubscribe T k ds)
        | Step.thrown o T => Step.thrown o T
        | Step.nofuel T => Step.nofuel T) = Step.ok D1 S2 := h
    cases hmm : depMembersApply fuel E S mn ds.members with
    | ok a T =>
        rw [hmm] at h2
        have hD1 : D1 = eraseA D k := (Step.ok.inj h2).1.symm
        subst hD1
        exact ⟨rfl, lookupA_eraseA_same D k, keyCount_eraseA_lt hl⟩
    | thrown o T => rw [hmm] at h2; exact absurd h2 (by simp)
    | nofuel T => rw [hmm] at h2; exact absurd h2 (by simp)
  · intro fuel E S D k m ds u0 D1 S2 hl hu h
    unfold depDirty at h
    rw [hl] at h
    set mn := (match m with
      | some s => if EntryMethods.contains s then s else "setDirty"
      | none => "setDirty") with hmn
    have h2 : (match depMembersApply fuel E S mn ds.members with
        | Step.ok _ T => Step.ok (eraseA D k) (depMaybeUnsubscribe T k ds)
        | Step.thrown o T => Step.thrown o T
        | Step.nofuel T => Step.nofuel T) = Step.ok D1 S2 := h
    cases hmm : depMembersApply fuel E S mn ds.members with
    | ok a T =>
        rw [hmm] at h2
        have hS2 : S2 = depMaybeUnsubscribe T k ds := (Step.ok.inj h2).2.symm
        subst hS2
        unfold depMaybeUnsubscribe
        rw [hu]
        simp [logEv, List.getLast?_concat]
    | thrown o T => rw [hmm] at h2; exact absurd h2 (by simp)
    | nofuel T => rw [hmm] at h2; exact absurd h2 (by simp)

/-- Witness for C8: a concrete dep with one key, one member and an
unsubscribe: dirty removes the set, fires the unsubscribe, and the
member is dirty afterwards. -/
theorem C8_depDirty_contract_witness :
    depDirty 5 c2Env initS [(3, ⟨[0], some 9⟩)] 3 none =
      .ok [] (logEv initS (.depUnsubEv 3)) ∧
    lookupA ([] : DepSt) 3 = none ∧
    keyCount ([] : DepSt) < keyCount [(3, ⟨[0], some 9⟩)] ∧
    (logEv initS (.depUnsubEv 3)).log.getLast? = some (Ev.depUnsubEv 3) ∧
    (getE initS 0).dirty = true := by
  refine ⟨by decide, ?_, ?_, ?_, ?_⟩
  · exact (C8_depDirty_contract.2.2.2.2.1 5 c2Env initS [(3, ⟨[0], some 9⟩)] 3 none
      ⟨[0], some 9⟩ [] (logEv initS (.depUnsubEv 3)) (by decide) (by decide)).2.1
  · exact (C8_depDirty_contract.2.2.2.2.1 5 c2Env initS [(3, ⟨[0], some 9⟩)] 3 none
      ⟨[0], some 9⟩ [] (logEv initS (.depUnsubEv 3)) (by decide) (by decide)).2.2
  · exact C8_depDirty_contract.2.2.2.2.2 5 c2Env initS [(3, ⟨[0], some 9⟩)] 3 none
      ⟨[0], some 9⟩ 9 [] (logEv initS (.depUnsubEv 3)) (by decide) (by decide) (by decide)
  · exact C8_depDirty_contract.2.2.2.1 5 c2Env [0] initS initS () (by decide) 0 (by decide)

/-! ## Claim C9: noContext and parent edges -/

/-- The parents set of an entry is untouched by every write of the
propagation family. -/
theorem famStable_parentMem (c p : Nat) :
    FamilyStable (fun S => (getE S c).parents.contains p = true) := by
  refine ⟨⟨?_, ?_⟩, ?_, ?_, ?_, ?_⟩
  · intro S q y h
    by_cases hx : c = q
    · subst hx
      rw [getE_updE_same]
      exact h
    · rw [getE_updE_ne _ _ _ _ hx]
      exact h
  · intro S msg h
    exact h
  · intro S e h hd0
    rw [getE_logEv]
    by_cases hx : c = e
    · subst hx
      rw [getE_updE_same]
      exact h
    · rw [getE_updE_ne _ _ _ _ hx]
      exact h
  · intro S e h
    unfold maybeUnsubscribe
    cases hu : (getE S e).unsub with
    | some v =>
        rw [getE_logEv]
        by_cases hx : c = e
        · subst hx
          rw [getE_updE_same]
          exact h
        · rw [getE_updE_ne _ _ _ _ hx]
          exact h
    | none => exact h
  · intro S q y h _ _
    by_cases hx : c = q
    · subst hx
      rw [getE_updE_same]
      exact h
    · rw [getE_updE_ne _ _ _ _ hx]
      exact h
  · intro S q y h
    unfold removeDirtyChild
    by_cases hx : c = q
    · subst hx
      rw [getE_updE_same]
      exact h
    · rw [getE_updE_ne _ _ _ _ hx]
      exact h

/-- The presence of a key in an entry's childValues record is preserved
by every write of the propagation family. -/
theorem famStable_childKey (p c : Nat) :
    FamilyStable (fun S => containsKeyA (getE S p).childValues c = true) := by
  refine ⟨⟨?_, ?_⟩, ?_, ?_, ?_, ?_⟩
  · intro S q y h
    by_cases hx : p = q
    · subst hx
      rw [getE_updE_same]
      exact h
    · rw [getE_updE_ne _ _ _ _ hx]
      exact h
  · intro S msg h
    exact h
  · intro S e h hd0
    rw [getE_logEv]
    by_cases hx : p = e
    · subst hx
      rw [getE_updE_same]
      exact h
    · rw [getE_updE_ne _ _ _ _ hx]
      exact h
  · intro S e h
    unfold maybeUnsubscribe
    cases hu : (getE S e).unsub with
    | some v =>
        rw [getE_logEv]
        by_cases hx : p = e
        · subst hx
          rw [getE_updE_same]
          exact h
        · rw [getE_updE_ne _ _ _ _ hx]
          exact h
    | none => exact h
  · intro S q y h hcv hmb
    by_cases hx : p = q
    · subst hx
      rw [getE_updE_same]
      unfold containsKeyA at h ⊢
      by_cases hc : c = y
      · subst hc
        rw [lookupA_setA_same]
        rfl
      · rw [lookupA_setA_ne _ _ _ _ hc]
        exact h
    · rw [getE_updE_ne _ _ _ _ hx]
      exact h
  · intro S q y h
    unfold removeDirtyChild
    by_cases hx : p = q
    · subst hx
      rw [getE_updE_same]
      exact h
    · rw [getE_updE_ne _ _ _ _ hx]
      exact h

/-- rememberParent with an installed parent slot registers the edge in
both directions, and nothing the ensuing dirty/clean report does can
remove it. -/
theorem rememberParent_links {fuel p : Nat} {S : Sys} {c : Nat} {b : Bool} {T : Sys}
    (h : rememberParent fuel (some p) S c = .ok b T) :
    (getE T c).parents.contains p = true ∧
    containsKeyA (getE T p).childValues c = true := by
  simp only [rememberParent] at h
  set S1 := updE S c (fun e => { e with parents := insertIfAbsent e.parents p }) with hS1
  set S2 := (if containsKeyA (getE S1 p).childValues c = true then S1
    else updE S1 p (fun e => { e with childValues := setA e.childValues c Value.unknown }))
    with hS2
  have h1 : (getE S1 c).parents.contains p = true := by
    rw [hS1, getE_updE_same]
    unfold insertIfAbsent
    by_cases hc : (getE S c).parents.contains p
    · rw [if_pos hc]
      exact hc
    · rw [if_neg hc]
      simp
  have hP1 : (getE S2 c).parents.contains p = true := by
    rw [hS2]
    by_cases hcont : containsKeyA (getE S1 p).childValues c = true
    · rw [if_pos hcont]
      exact h1
    · rw [if_neg hcont]
      by_cases hx : c = p
      · subst hx
        rw [getE_updE_same]
        exact h1
      · rw [getE_updE_ne _ _ _ _ hx]
        exact h1
  have hP2 : containsKeyA (getE S2 p).childValues c = true := by
    rw [hS2]
    by_cases hcont : containsKeyA (getE S1 p).childValues c = true
    · rw [if_pos hcont]
      exact hcont
    · rw [if_neg hcont]
      rw [getE_updE_same]
      unfold containsKeyA
      rw [lookupA_setA_same]
      rfl
  by_cases hm : mightBeDirty (getE S2 c) = true
  · rw [if_pos hm] at h
    cases hr : reportDirtyChild fuel S2 p c with
    | ok a S3 =>
        rw [hr] at h
        have h3 : Step.ok true S3 = Step.ok b T := h
        have hT : S3 = T := (Step.ok.inj h3).2
        subst hT
        constructor
        · have hst := reportDirtyWork_stable ((famStable_parentMem c p).toDirtyFamStable)
            fuel [(p, c)] S2 hP1
          have hr2 : reportDirtyWork fuel S2 [(p, c)] = Step.ok a S3 := hr
          rw [hr2] at hst
          exact hst
        · have hst := reportDirtyWork_stable ((famStable_childKey p c).toDirtyFamStable)
            fuel [(p, c)] S2 hP2
          have hr2 : reportDirtyWork fuel S2 [(p, c)] = Step.ok a S3 := hr
          rw [hr2] at hst
          exact hst
    | thrown o S3 => rw [hr] at h; exact absurd h (by simp)
    | nofuel S3 => rw [hr] at h; exact absurd h (by simp)
  · rw [if_neg hm] at h
    cases hr : reportCleanChild fuel S2 p c with
    | ok a S3 =>
        rw [hr] at h
        have h3 : Step.ok true S3 = Step.ok b T := h
        have hT : S3 = T := (Step.ok.inj h3).2
        subst hT
        constructor
        · have hst := reportCleanWork_stable (famStable_parentMem c p)
            fuel [(p, c)] S2 hP1
          have hr2 : reportCleanWork fuel S2 [(p, c)] = Step.ok a S3 := hr
          rw [hr2] at hst
          exact hst
        · have hst := reportCleanWork_stable (famStable_childKey p c)
            fuel [(p, c)] S2 hP2
          have hr2 : reportCleanWork fuel S2 [(p, c)] = Step.ok a S3 := hr
          rw [hr2] at hst
          exact hst
    | thrown o S3 => rw [hr] at h; exact absurd h (by simp)
    | nofuel S3 => rw [hr] at h; exact absurd h (by simp)

/-- C9: scoped parent attribution.  With an empty parent slot (the
state noContext installs) rememberParent does nothing at all, and the
noContext call form runs the nested wrapper call with the slot emptied;
with a parent installed, rememberParent registers the edge in both
directions (the caller appears in the entry's parents and the entry in
the caller's childValues) and the edge survives the ensuing report.
The concrete runs show a nested call inside noContext producing no
edge, and the same call outside noContext producing it. -/
theorem C9_noContext_parent_edges :
    (∀ (fuel : Nat) (S : Sys) (c : Nat),
      rememberParent fuel none S c = .ok false S) ∧
    (∀ (E : Env) (f : Nat) (S : Sys) (slot : Option Nat) (w a : Nat) (rest : Body),
      exec E (f + 1) S (.evalB slot (.noCtxCall w a rest)) =
        (match exec E f S (.callW none w a) with
         | .ok _ S1 => exec E f S1 (.evalB slot rest)
         | .thrown o S1 => .thrown o S1
         | .nofuel S1 => .nofuel S1)) ∧
    (∀ (fuel p : Nat) (S : Sys) (c : Nat) (b : Bool) (T : Sys),
      rememberParent fuel (some p) S c = .ok b T →
      (getE T c).parents.contains p = true ∧
      containsKeyA (getE T p).childValues c = true) ∧
    ((getE c9TA 1).parents = [] ∧ (getE c9TA 0).childValues = [] ∧
      (getE c9TB 1).parents.contains 0 = true ∧
      containsKeyA (getE c9TB 0).childValues 1 = true) := by
  refine ⟨?_, ?_, ?_, by decide, by decide, by decide, by decide⟩
  · intro fuel S c
    rfl
  · intro E f S slot w a rest
    rfl
  · intro fuel p S c b T h
    exact rememberParent_links h

/-- Witness for C9: rememberParent with the empty slot leaves a
concrete state untouched, and with an installed parent registers the
edge in the concrete state. -/
theorem C9_noContext_parent_edges_witness :
    rememberParent 5 none c5SU 0 = .ok false c5SU ∧
    (getE (rememberParent 5 (some 1) c5SU 0).state 0).parents.contains 1 = true ∧
    containsKeyA (getE (rememberParent 5 (some 1) c5SU 0).state 1).childValues 0 = true := by
  refine ⟨?_, ?_, ?_⟩
  · exact C9_noContext_parent_edges.1 5 c5SU 0
  · exact (C9_noContext_parent_edges.2.2.1 5 1 c5SU 0 true
      ((rememberParent 5 (some 1) c5SU 0).state) (by decide)).1
  · exact (C9_noContext_parent_edges.2.2.1 5 1 c5SU 0 true
      ((rememberParent 5 (some 1) c5SU 0).state) (by decide)).2

/-! ## Claim C7: the LRU cap at quiescence -/

/-- The clean loop never raises a cache's max. -/
theorem cleanGo_bound : ∀ (n : Nat) (c : Cache Nat Nat),
    c.entries.length ≤ n →
    ((Cache.cleanGo c n).1).entries.length ≤ c.max ∧
      ((Cache.cleanGo c n).1).max = c.max := by
  intro n
  induction n with
  | zero =>
      intro c hle
      have h0 : c.entries.length = 0 := Nat.le_zero.1 hle
      constructor
      · show c.entries.length ≤ c.max
        rw [h0]
        exact Nat.zero_le _
      · rfl
  | succ n ih =>
      intro c hle
      unfold Cache.cleanGo
      cases hlast : c.entries.getLast? with
      | none =>
          have hnil : c.entries = [] := by
            cases hE : c.entries with
            | nil => rfl
            | cons a tl =>
                rw [hE] at hlast
                simp [List.getLast?_eq_none_iff] at hlast
          constructor
          · show c.entries.length ≤ c.max
            rw [hnil]
            exact Nat.zero_le _
          · rfl
      | some last =>
          show ((if c.entries.length > c.max then
                (let r := c.delete last.1
                 let rest := Cache.cleanGo r.2.1 n
                 (rest.1, r.2.2 ++ rest.2))
              else (c, [])).1.entries.length ≤ c.max ∧
            (if c.entries.length > c.max then
                (let r := c.delete last.1
                 let rest := Cache.cleanGo r.2.1 n
                 (rest.1, r.2.2 ++ rest.2))
              else (c, [])).1.max = c.max)
          by_cases hgt : c.entries.length > c.max
          · rw [if_pos hgt]
            have hmem : last ∈ c.entries := by
              obtain ⟨hne, heq⟩ := List.mem_getLast?_eq_getLast (Option.mem_def.2 hlast)
              rw [heq]
              exact List.getLast_mem hne
            have hfind : (c.entries.find? (fun p => decide (p.1 = last.1))).isSome := by
              rw [List.find?_isSome]
              exact ⟨last, hmem, by simp⟩
            have hlk : ∃ v, c.lookup last.1 = some v := by
              cases hf : c.entries.find? (fun p => decide (p.1 = last.1)) with
              | none => rw [hf] at hfind; simp at hfind
              | some q =>
                  refine ⟨q.2, ?_⟩
                  unfold Cache.lookup
                  rw [hf]
            obtain ⟨v, hv⟩ := hlk
            rw [cache_delete_hit c last.1 v hv]
            have hlt : (c.entries.filter (fun q => q.1 ≠ last.1)).length < c.entries.length :=
              length_filter_lt _ c.entries last hmem (by simp)
            have hle2 : (c.entries.filter (fun q => q.1 ≠ last.1)).length ≤ n :=
              Nat.lt_succ_iff.1 (Nat.lt_of_lt_of_le hlt hle)
            exact ih ⟨c.entries.filter (fun q => q.1 ≠ last.1), c.max⟩ hle2
          · rw [if_neg hgt]
            constructor
            · show c.entries.length ≤ c.max
              exact Nat.not_lt.1 hgt
            · rfl

/-- A cleaned cache respects its own max. -/
theorem clean_size_le (c : Cache Nat Nat) : ((Cache.clean c).1).size ≤ c.max :=
  (cleanGo_bound c.entries.length c (Nat.le_refl _)).1

/-- clean never changes the max. -/
theorem clean_max_eq (c : Cache Nat Nat) : ((Cache.clean c).1).max = c.max :=
  (cleanGo_bound c.entries.length c (Nat.le_refl _)).2

/-- A fixed caches map is preserved by every write of the propagation
family. -/
theorem famStable_caches (C : List (Nat × Cache Nat Nat)) :
    FamilyStable (fun S => S.caches = C) := by
  refine ⟨⟨?_, ?_⟩, ?_, ?_, ?_, ?_⟩
  · intro S p c h
    exact h
  · intro S msg h
    exact h
  · intro S e h hd0
    exact h
  · intro S e h
    unfold maybeUnsubscribe
    cases hu : (getE S e).unsub with
    | some v => exact h
    | none => exact h
  · intro S p c h _ _
    exact h
  · intro S p c h
    exact h

theorem caches_maybeUnsubscribe (S : Sys) (e : Nat) :
    (maybeUnsubscribe S e).caches = S.caches := by
  unfold maybeUnsubscribe
  cases hu : (getE S e).unsub with
  | some v => rfl
  | none => rfl

theorem caches_foldl_forgetChild :
    ∀ (l : List Nat) (S : Sys) (p : Nat),
      (l.foldl (fun acc c => forgetChild acc p c) S).caches = S.caches := by
  intro l
  induction l with
  | nil => intro S p; rfl
  | cons c rest ih =>
      intro S p
      rw [List.foldl_cons]
      exact (ih (forgetChild S p c) p).trans rfl

theorem caches_forgetChildren (S : Sys) (p : Nat) :
    ((forgetChildren S p).state).caches = S.caches := by
  simp only [forgetChildren]
  set S1 := ((getE S p).childValues.map (fun q => q.1)).foldl
      (fun acc c => forgetChild acc p c) S with hS1
  have hc : S1.caches = S.caches := by
    rw [hS1]
    exact caches_foldl_forgetChild _ S p
  by_cases hd : (getE S1 p).dirtyChildren = []
  · rw [if_pos hd]
    exact hc
  · rw [if_neg hd]
    exact hc

theorem caches_setDirty (fuel : Nat) (S : Sys) (e : Nat) :
    ((setDirty fuel S e).state).caches = S.caches :=
  setDirty_stable (famStable_caches S.caches) fuel S e rfl

theorem caches_disposePs {fuel : Nat} :
    ∀ (ps : List Nat) (S : Sys) (e : Nat),
      ((disposePs fuel S ps e).state).caches = S.caches := by
  intro ps
  induction ps with
  | nil => intro S e; rfl
  | cons p rest ih =>
      intro S e
      unfold disposePs
      cases hs : setDirty fuel S p with
      | ok a S1 =>
          have h1 : S1.caches = S.caches := by
            have h2 := caches_setDirty fuel S p
            rw [hs] at h2
            exact h2
          exact (ih (forgetChild S1 p e) e).trans h1
      | thrown o S1 =>
          have h2 := caches_setDirty fuel S p
          rw [hs] at h2
          exact h2
      | nofuel S1 =>
          have h2 := caches_setDirty fuel S p
          rw [hs] at h2
          exact h2

theorem caches_dispose (fuel : Nat) (S : Sys) (e : Nat) :
    ((dispose fuel S e).state).caches = S.caches := by
  unfold dispose
  cases hf : forgetChildren S e with
  | ok a S1 =>
      have h1 : S1.caches = S.caches := by
        have h2 := caches_forgetChildren S e
        rw [hf] at h2
        exact h2
      exact (caches_disposePs _ _ _).trans ((caches_maybeUnsubscribe S1 e).trans h1)
  | thrown o S1 =>
      have h2 := caches_forgetChildren S e
      rw [hf] at h2
      exact h2
  | nofuel S1 =>
      have h2 := caches_forgetChildren S e
      rw [hf] at h2
      exact h2

theorem caches_runDisposeCalls (fuel : Nat) (w : Nat) :
    ∀ (calls : List (DisposeCall Nat Nat)) (S : Sys),
      ((runDisposeCalls fuel S w calls).state).caches = S.caches := by
  intro calls
  induction calls with
  | nil => intro S; rfl
  | cons call rest ih =>
      intro S
      simp only [runDisposeCalls]
      cases hd : dispose fuel (logEv S (.delEv w call.key call.value call.keyPresent))
          call.value with
      | ok a S2 =>
          have h2 : S2.caches = S.caches := by
            have h3 := caches_dispose fuel
              (logEv S (.delEv w call.key call.value call.keyPresent)) call.value
            rw [hd] at h3
            exact h3
          exact (ih S2).trans h2
      | thrown o S2 =>
          have h3 := caches_dispose fuel
            (logEv S (.delEv w call.key call.value call.keyPresent)) call.value
          rw [hd] at h3
          exact h3
      | nofuel S2 =>
          have h3 := caches_dispose fuel
            (logEv S (.delEv w call.key call.value call.keyPresent)) call.value
          rw [hd] at h3
          exact h3

/-- A successful cacheClean leaves the cleaned wrapper's cache within
its own max. -/
theorem cacheClean_ok_bound {fuel : Nat} {E : Env} {S : Sys} {w : Nat} {u : Unit} {T : Sys}
    (h : cacheClean fuel E S w = .ok u T) :
    (getCache E T w).size ≤ (getCache E T w).max := by
  have h2 : runDisposeCalls fuel (putCache S w ((getCache E S w).clean.1)) w
      ((getCache E S w).clean.2) = .ok u T := h
  have hst := caches_runDisposeCalls fuel w ((getCache E S w).clean.2)
      (putCache S w ((getCache E S w).clean.1))
  rw [h2] at hst
  have hst2 : T.caches = (putCache S w ((getCache E S w).clean.1)).caches := hst
  have hget : getCache E T w = (getCache E S w).clean.1 := by
    unfold getCache
    rw [hst2]
    show (lookupA (setA S.caches w ((getCache E S w).clean.1)) w).getD
        ⟨[], (E w).max⟩ = (getCache E S w).clean.1
    rw [lookupA_setA_same]
    rfl
  rw [hget, clean_max_eq]
  exact clean_size_le _

/-- cacheClean of one wrapper leaves every other wrapper's cache
untouched. -/
theorem cacheClean_ok_other {fuel : Nat} {E : Env} {S : Sys} {x : Nat} {u : Unit} {T : Sys}
    (h : cacheClean fuel E S x = .ok u T) (w : Nat) (hne : w ≠ x) :
    getCache E T w = getCache E S w := by
  have h2 : runDisposeCalls fuel (putCache S x ((getCache E S x).clean.1)) x
      ((getCache E S x).clean.2) = .ok u T := h
  have hst := caches_runDisposeCalls fuel x ((getCache E S x).clean.2)
      (putCache S x ((getCache E S x).clean.1))
  rw [h2] at hst
  have hst2 : T.caches = (putCache S x ((getCache E S x).clean.1)).caches := hst
  unfold getCache
  rw [hst2]
  show (lookupA (setA S.caches x ((getCache E S x).clean.1)) w).getD
      ⟨[], (E w).max⟩ = (lookupA S.caches w).getD ⟨[], (E w).max⟩
  rw [lookupA_setA_ne _ _ _ _ hne]

/-- The caches.forEach clean loop keeps the own-max bound of any cache
it has already established (or that held before). -/
theorem cleanAllPs_preserves_bound {fuel : Nat} {E : Env} :
    ∀ (l : List Nat) (S : Sys) (u : Unit) (T : Sys) (w : Nat),
      cleanAllPs fuel E S l = .ok u T →
      (getCache E S w).size ≤ (getCache E S w).max →
      (getCache E T w).size ≤ (getCache E T w).max := by
  intro l
  induction l with
  | nil =>
      intro S u T w h hb
      have h3 : Step.ok () S = Step.ok u T := h
      rw [← (Step.ok.inj h3).2]
      exact hb
  | cons x rest ih =>
      intro S u T w h hb
      unfold cleanAllPs at h
      cases hc : cacheClean fuel E S x with
      | ok a S1 =>
          rw [hc] at h
          have h2 : cleanAllPs fuel E S1 rest = .ok u T := h
          by_cases hwx : w = x
          · subst hwx
            exact ih S1 u T w h2 (cacheClean_ok_bound hc)
          · have hpres := cacheClean_ok_other hc w hwx
            rw [← hpres] at hb
            exact ih S1 u T w h2 hb
      | thrown o S1 => rw [hc] at h; exact absurd h (by simp)
      | nofuel S1 => rw [hc] at h; exact absurd h (by simp)

/-- After the clean loop, every wrapper in the visited list has its
cache within its own max. -/
theorem cleanAllPs_bound {fuel : Nat} {E : Env} :
    ∀ (l : List Nat) (S : Sys) (u : Unit) (T : Sys),
      cleanAllPs fuel E S l = .ok u T →
      ∀ w ∈ l, (getCache E T w).size ≤ (getCache E T w).max := by
  intro l
  induction l with
  | nil => intro S u T h w hw; cases hw
  | cons x rest ih =>
      intro S u T h w hw
      unfold cleanAllPs at h
      cases hc : cacheClean fuel E S x with
      | ok a S1 =>
          rw [hc] at h
          have h2 : cleanAllPs fuel E S1 rest = .ok u T := h
          cases hw with
          | head =>
              exact cleanAllPs_preserves_bound rest S1 u T x h2 (cacheClean_ok_bound hc)
          | tail _ hmem => exact ih S1 u T h2 w hmem
      | thrown o S1 => rw [hc] at h; exact absurd h (by simp)
      | nofuel S1 => rw [hc] at h; exact absurd h (by simp)

/-- cleanAll empties the pending set and leaves every cache it visited
within its own max. -/
theorem cleanAll_ok_clean {fuel : Nat} {E : Env} {S : Sys} {u : Unit} {T : Sys}
    (h : cleanAll fuel E S = .ok u T) :
    T.pending = [] ∧
    ∀ w ∈ S.pending, (getCache E T w).size ≤ (getCache E T w).max := by
  unfold cleanAll at h
  cases hc : cleanAllPs fuel E S S.pending with
  | ok a S1 =>
      rw [hc] at h
      have h3 : Step.ok () { S1 with pending := ([] : List Nat) } = Step.ok u T := h
      have hT : { S1 with pending := ([] : List Nat) } = T := (Step.ok.inj h3).2
      constructor
      · rw [← hT]
      · intro w hw
        have hb := cleanAllPs_bound S.pending S a S1 hc w hw
        rw [← hT]
        exact hb
  | thrown o S1 => rw [hc] at h; exact absurd h (by simp)
  | nofuel S1 => rw [hc] at h; exact absurd h (by simp)

theorem insertIfAbsent_mem (l : List Nat) (x : Nat) : x ∈ insertIfAbsent l x := by
  unfold insertIfAbsent
  by_cases hc : l.contains x
  · rw [if_pos hc]
    have hx : List.elem x l = true := hc
    simpa using hx
  · rw [if_neg hc]
    simp

/-- Unfolding the wrapper call on a cache miss. -/
theorem callW_miss {E : Env} {f : Nat} {S : Sys} {w k : Nat} (slot : Option Nat)
    (hget : ((getCache E S w).get k).1 = none) :
    exec E (f + 1) S (.callW slot w k) =
      (match exec E f
          (cacheSet E
            { S with
              nextE := S.nextE + 1
              heap := setA S.heap S.nextE (freshEntry w k (E w).sub) } w k S.nextE)
          (.recomp slot S.nextE) with
       | .ok v S3 =>
           let S4 := cacheSet E S3 w k S.nextE
           let S5 := { S4 with pending := insertIfAbsent S4.pending w }
           match slot with
           | none =>
               match cleanAll f E S5 with
               | .ok _ S6 => .ok v S6
               | .thrown o S6 => .thrown o S6
               | .nofuel S6 => .nofuel S6
           | some _ => .ok v S5
       | .thrown o S3 => .thrown o (logEv S3 (.threwEv w k))
       | .nofuel S3 => .nofuel S3) := by
  have hcg : cacheGet E S w k = (none, S) := by
    unfold cacheGet
    cases hg : (getCache E S w).get k with
    | mk o c =>
        rw [hg] at hget
        simp only [] at hget
        subst hget
        rfl
  conv_lhs => rw [exec]
  simp only [hcg]

/-- A quiescent wrapper call that returns normally ends in a cleanAll
whose input pending set contains the called wrapper. -/
theorem callW_none_ok_cleaned {E : Env} {f : Nat} {S : Sys} {w k : Nat} {v : Obj} {T : Sys}
    (h : exec E (f + 1) S (.callW none w k) = .ok v T) :
    ∃ S5 u, w ∈ S5.pending ∧ cleanAll f E S5 = .ok u T := by
  cases hg : (getCache E S w).get k with
  | mk o c1 =>
      cases o with
      | some e =>
          rw [callW_hit none (by rw [hg])] at h
          cases hr : exec E f (putCache S w c1) (.recomp none e) with
          | ok v3 S3 =>
              rw [hr] at h
              have h2 : (match cleanAll f E
                  { cacheSet E S3 w k e with
                    pending := insertIfAbsent (cacheSet E S3 w k e).pending w } with
                 | Step.ok _ S6 => Step.ok v3 S6
                 | Step.thrown o S6 => Step.thrown o S6
                 | Step.nofuel S6 => Step.nofuel S6) = Step.ok v T := h
              cases hc : cleanAll f E { cacheSet E S3 w k e with
                  pending := insertIfAbsent (cacheSet E S3 w k e).pending w } with
              | ok u S6 =>
                  rw [hc] at h2
                  have h3 : Step.ok v3 S6 = Step.ok v T := h2
                  refine ⟨{ cacheSet E S3 w k e with
                    pending := insertIfAbsent (cacheSet E S3 w k e).pending w }, u, ?_, ?_⟩
                  · exact insertIfAbsent_mem _ _
                  · rw [hc, (Step.ok.inj h3).2]
              | thrown o S6 => rw [hc] at h2; exact absurd h2 (by simp)
              | nofuel S6 => rw [hc] at h2; exact absurd h2 (by simp)
          | thrown o3 S3 => rw [hr] at h; exact absurd h (by simp)
          | nofuel S3 => rw [hr] at h; exact absurd h (by simp)
      | none =>
          rw [callW_miss none (by rw [hg])] at h
          cases hr : exec E f
              (cacheSet E
                { S with
                  nextE := S.nextE + 1
                  heap := setA S.heap S.nextE (freshEntry w k (E w).sub) } w k S.nextE)
              (.recomp none S.nextE) with
          | ok v3 S3 =>
              rw [hr] at h
              have h2 : (match cleanAll f E
                  { cacheSet E S3 w k S.nextE with
                    pending := insertIfAbsent (cacheSet E S3 w k S.nextE).pending w } with
                 | Step.ok _ S6 => Step.ok v3 S6
                 | Step.thrown o S6 => Step.thrown o S6
                 | Step.nofuel S6 => Step.nofuel S6) = Step.ok v T := h
              cases hc : cleanAll f E { cacheSet E S3 w k S.nextE with
                  pending := insertIfAbsent (cacheSet E S3 w k S.nextE).pending w } with
              | ok u S6 =>
                  rw [hc] at h2
                  have h3 : Step.ok v3 S6 = Step.ok v T := h2
                  refine ⟨{ cacheSet E S3 w k S.nextE with
                    pending := insertIfAbsent (cacheSet E S3 w k S.nextE).pending w }, u, ?_, ?_⟩
                  · exact insertIfAbsent_mem _ _
                  · rw [hc, (Step.ok.inj h3).2]
              | thrown o S6 => rw [hc] at h2; exact absurd h2 (by simp)
              | nofuel S6 => rw [hc] at h2; exact absurd h2 (by simp)
          | thrown o3 S3 => rw [hr] at h; exact absurd h (by simp)
          | nofuel S3 => rw [hr] at h; exact absurd h (by simp)

/-- Counterexample to C7 as stated: a quiescent wrapper call returns
normally while wrapper 0's cache, which saw two insertions during the
call, holds 2 entries against a configured max of 1.  The cache escaped
the quiescent clean because caches.add runs only on the normal-return
path of the wrapper, and both frames that wrote this cache propagated
exceptions (their caller caught them), so the cache was never added to
the pending set. -/
theorem C7_counterexample :
    exec c7Env 20 initS (Task.callW none 1 0) = .ok ⟨2, ObjData.num 5⟩ c7T ∧
    c7T.pending = [] ∧
    (getCache c7Env c7T 0).max = 1 ∧
    (getCache c7Env c7T 0).size = 2 := by
  refine ⟨by decide, by decide, by decide, by decide⟩

/-- C7 amended: the quiescent clean covers exactly the caches
registered in the pending set.  cleanAll empties the pending set and
brings every pending wrapper's cache within its own max; consequently a
quiescent wrapper call that returns normally leaves no pending cache
and leaves the called wrapper's own cache within its max (that wrapper
is always registered on the normal-return path); and a cleaned cache
never exceeds its max.  Caches written only by frames that propagated
exceptions are not registered and may stay oversized, as the
counterexample shows. -/
theorem C7_quiescent_clean :
    (∀ (fuel : Nat) (E : Env) (S : Sys) (u : Unit) (T : Sys),
      cleanAll fuel E S = .ok u T →
      T.pending = [] ∧
      ∀ w ∈ S.pending, (getCache E T w).size ≤ (getCache E T w).max) ∧
    (∀ (E : Env) (f : Nat) (S : Sys) (w k : Nat) (v : Obj) (T : Sys),
      exec E (f + 1) S (.callW none w k) = .ok v T →
      T.pending = [] ∧ (getCache E T w).size ≤ (getCache E T w).max) ∧
    (∀ c : Cache Nat Nat, ((Cache.clean c).1).size ≤ c.max) := by
  refine ⟨?_, ?_, ?_⟩
  · intro fuel E S u T h
    exact cleanAll_ok_clean h
  · intro E f S w k v T h
    obtain ⟨S5, u, hw, hc⟩ := callW_none_ok_cleaned h
    obtain ⟨hp, hb⟩ := cleanAll_ok_clean hc
    exact ⟨hp, hb w hw⟩
  · intro c
    exact clean_size_le c

/-- Witness for C7 amended: the successful quiescent call of the C9
fixture leaves no pending cache and its own cache within its max. -/
theorem C7_quiescent_clean_witness :
    c9TB.pending = [] ∧ (getCache c9Env c9TB 2).size ≤ (getCache c9Env c9TB 2).max :=
  C7_quiescent_clean.2.1 c9Env 11 initS 2 0 ⟨1, ObjData.num 5⟩ c9TB (by decide)

/-! ## Claim C1: memoization machinery -/

theorem invokeCountE_append (e : Nat) (l : List Ev) (ev : Ev) :
    invokeCountE e (l ++ [ev]) =
      invokeCountE e l + (if ev = Ev.invoke e then 1 else 0) := by
  unfold invokeCountE
  rw [List.filter_append, List.length_append]
  by_cases hev : ev = Ev.invoke e
  · rw [if_pos hev]
    simp [hev]
  · rw [if_neg hev]
    simp [hev]

theorem invokeCount_append (l : List Ev) (ev : Ev) :
    invokeCount (l ++ [ev]) =
      invokeCount l +
        (match ev with | Ev.invoke _ => 1 | _ => 0) := by
  unfold invokeCount
  rw [List.filter_append, List.length_append]
  cases ev <;> simp

theorem OpClosed.toFamilyStable {P : Sys → Prop} (hP : OpClosed P) :
    FamilyStable P := by
  refine ⟨⟨?_, ?_⟩, ?_, ?_, ?_, ?_⟩
  · intro S p c h
    exact hP.upd S p _ (fun en => rfl) h
  · intro S msg h
    exact hP.oalloc S h
  · intro S e h hd0
    exact hP.log _ _ (fun x => by simp) (hP.upd S e _ (fun en => rfl) h)
  · intro S e h
    unfold maybeUnsubscribe
    cases hu : (getE S e).unsub with
    | some v => exact hP.log _ _ (fun x => by simp) (hP.upd S e _ (fun en => rfl) h)
    | none => exact h
  · intro S p c h _ _
    exact hP.upd S p _ (fun en => rfl) h
  · intro S p c h
    exact hP.upd S p _ (fun en => rfl) h

theorem opc_valueGet {P : Sys → Prop} (hP : OpClosed P) (S : Sys) (v : Value)
    (h : P S) : P ((valueGet S v).state) := by
  unfold valueGet
  cases v with
  | unknown => exact hP.oalloc S h
  | known o => exact h
  | exc o => exact h

theorem opc_setDirty {P : Sys → Prop} (hP : OpClosed P) (fuel : Nat) (S : Sys) (e : Nat)
    (h : P S) : P ((setDirty fuel S e).state) :=
  setDirty_stable hP.toFamilyStable fuel S e h

theorem opc_forgetChild {P : Sys → Prop} (hP : OpClosed P) (S : Sys) (p c : Nat)
    (h : P S) : P (forgetChild S p c) := by
  show P (updE (updE (updE S c (fun e => { e with parents := eraseElem e.parents p })) p
      (fun e => { e with childValues := eraseA e.childValues c })) p
      (fun e => { e with dirtyChildren := eraseElem e.dirtyChildren c }))
  exact hP.upd _ _ _ (fun en => rfl)
    (hP.upd _ _ _ (fun en => rfl) (hP.upd _ _ _ (fun en => rfl) h))

theorem opc_foldl_forgetChild {P : Sys → Prop} (hP : OpClosed P) :
    ∀ (l : List Nat) (S : Sys) (p : Nat), P S →
      P (l.foldl (fun acc c => forgetChild acc p c) S) := by
  intro l
  induction l with
  | nil => intro S p h; exact h
  | cons c rest ih =>
      intro S p h
      rw [List.foldl_cons]
      exact ih (forgetChild S p c) p (opc_forgetChild hP S p c h)

theorem opc_forgetChildren {P : Sys → Prop} (hP : OpClosed P) (S : Sys) (p : Nat)
    (h : P S) : P ((forgetChildren S p).state) := by
  simp only [forgetChildren]
  set S1 := ((getE S p).childValues.map (fun q => q.1)).foldl
      (fun acc c => forgetChild acc p c) S with hS1
  have h1 : P S1 := by
    rw [hS1]
    exact opc_foldl_forgetChild hP _ S p h
  by_cases hd : (getE S1 p).dirtyChildren = []
  · rw [if_pos hd]
    exact h1
  · rw [if_neg hd]
    exact hP.oalloc S1 h1

theorem opc_setClean {P : Sys → Prop} (hP : OpClosed P) (fuel : Nat) (S : Sys) (e : Nat)
    (h : P S) : P ((setClean fuel S e).state) := by
  simp only [setClean]
  set S1 := updE S e (fun est => { est with dirty := false }) with hS1
  have h1 : P S1 := by
    rw [hS1]
    exact hP.upd _ _ _ (fun en => rfl) h
  by_cases hm : mightBeDirty (getE S1 e) = true
  · rw [if_pos hm]
    exact h1
  · rw [if_neg hm]
    exact reportCleanWork_stable hP.toFamilyStable fuel _ S1 h1

theorem opc_rememberParent {P : Sys → Prop} (hP : OpClosed P) (fuel : Nat)
    (slot : Option Nat) (S : Sys) (c : Nat) (h : P S) :
    P ((rememberParent fuel slot S c).state) := by
  cases slot with
  | none => exact h
  | some p =>
      simp only [rememberParent]
      set S1 := updE S c (fun e => { e with parents := insertIfAbsent e.parents p }) with hS1
      have h1 : P S1 := by
        rw [hS1]
        exact hP.upd _ _ _ (fun en => rfl) h
      set S2 := (if containsKeyA (getE S1 p).childValues c = true then S1
        else updE S1 p (fun e => { e with childValues := setA e.childValues c Value.unknown }))
        with hS2
      have h2 : P S2 := by
        rw [hS2]
        by_cases hc : containsKeyA (getE S1 p).childValues c = true
        · rw [if_pos hc]
          exact h1
        · rw [if_neg hc]
          exact hP.upd _ _ _ (fun en => rfl) h1
      by_cases hm : mightBeDirty (getE S2 c) = true
      · rw [if_pos hm]
        cases hr : reportDirtyChild fuel S2 p c with
        | ok a S3 =>
            have hst := reportDirtyWork_stable hP.toFamilyStable.toDirtyFamStable
              fuel [(p, c)] S2 h2
            rw [show reportDirtyWork fuel S2 [(p, c)] = Step.ok a S3 from hr] at hst
            exact hst
        | thrown o S3 =>
            have hst := reportDirtyWork_stable hP.toFamilyStable.toDirtyFamStable
              fuel [(p, c)] S2 h2
            rw [show reportDirtyWork fuel S2 [(p, c)] = Step.thrown o S3 from hr] at hst
            exact hst
        | nofuel S3 =>
            have hst := reportDirtyWork_stable hP.toFamilyStable.toDirtyFamStable
              fuel [(p, c)] S2 h2
            rw [show reportDirtyWork fuel S2 [(p, c)] = Step.nofuel S3 from hr] at hst
            exact hst
      · rw [if_neg hm]
        cases hr : reportCleanChild fuel S2 p c with
        | ok a S3 =>
            have hst := reportCleanWork_stable hP.toFamilyStable fuel [(p, c)] S2 h2
            rw [show reportCleanWork fuel S2 [(p, c)] = Step.ok a S3 from hr] at hst
            exact hst
        | thrown o S3 =>
            have hst := reportCleanWork_stable hP.toFamilyStable fuel [(p, c)] S2 h2
            rw [show reportCleanWork fuel S2 [(p, c)] = Step.thrown o S3 from hr] at hst
            exact hst
        | nofuel S3 =>
            have hst := reportCleanWork_stable hP.toFamilyStable fuel [(p, c)] S2 h2
            rw [show reportCleanWork fuel S2 [(p, c)] = Step.nofuel S3 from hr] at hst
            exact hst

theorem opc_maybeSubscribe {P : Sys → Prop} (hP : OpClosed P) (fuel : Nat) (S : Sys)
    (e : Nat) (h : P S) : P ((maybeSubscribe fuel S e).state) := by
  simp only [maybeSubscribe]
  cases hs : (getE S e).sub with
  | none => exact h
  | some b =>
      have h1 : P (maybeUnsubscribe S e) := hP.toFamilyStable.unsubW S e h
      cases b with
      | true =>
          exact hP.oalloc _ (hP.log _ _ (fun x => by simp)
            (hP.upd _ _ _ (fun en => rfl) h1))
      | false =>
          cases hsd : setDirty fuel (maybeUnsubscribe S e) e with
          | ok a S2 =>
              have hst := opc_setDirty hP fuel (maybeUnsubscribe S e) e h1
              rw [hsd] at hst
              exact hst
          | thrown o S2 =>
              have hst := opc_setDirty hP fuel (maybeUnsubscribe S e) e h1
              rw [hsd] at hst
              exact hst
          | nofuel S2 =>
              have hst := opc_setDirty hP fuel (maybeUnsubscribe S e) e h1
              rw [hsd] at hst
              exact hst

theorem opc_disposePs {P : Sys → Prop} (hP : OpClosed P) (fuel : Nat) :
    ∀ (ps : List Nat) (S : Sys) (e : Nat), P S → P ((disposePs fuel S ps e).state) := by
  intro ps
  induction ps with
  | nil => intro S e h; exact h
  | cons p rest ih =>
      intro S e h
      unfold disposePs
      cases hs : setDirty fuel S p with
      | ok a S1 =>
          have h1 : P S1 := by
            have hst := opc_setDirty hP fuel S p h
            rw [hs] at hst
            exact hst
          exact ih (forgetChild S1 p e) e (opc_forgetChild hP S1 p e h1)
      | thrown o S1 =>
          have hst := opc_setDirty hP fuel S p h
          rw [hs] at hst
          exact hst
      | nofuel S1 =>
          have hst := opc_setDirty hP fuel S p h
          rw [hs] at hst
          exact hst

theorem opc_dispose {P : Sys → Prop} (hP : OpClosed P) (fuel : Nat) (S : Sys) (e : Nat)
    (h : P S) : P ((dispose fuel S e).state) := by
  unfold dispose
  cases hf : forgetChildren S e with
  | ok a S1 =>
      have h1 : P S1 := by
        have hst := opc_forgetChildren hP S e h
        rw [hf] at hst
        exact hst
      exact opc_disposePs hP fuel _ (maybeUnsubscribe S1 e) e
        (hP.toFamilyStable.unsubW S1 e h1)
  | thrown o S1 =>
      have hst := opc_forgetChildren hP S e h
      rw [hf] at hst
      exact hst
  | nofuel S1 =>
      have hst := opc_forgetChildren hP S e h
      rw [hf] at hst
      exact hst

theorem opc_runDisposeCalls {P : Sys → Prop} (hP : OpClosed P) (fuel w : Nat) :
    ∀ (calls : List (DisposeCall Nat Nat)) (S : Sys), P S →
      P ((runDisposeCalls fuel S w calls).state) := by
  intro calls
  induction calls with
  | nil => intro S h; exact h
  | cons call rest ih =>
      intro S h
      simp only [runDisposeCalls]
      have h1 : P (logEv S (.delEv w call.key call.value call.keyPresent)) :=
        hP.log _ _ (fun x => by simp) h
      cases hd : dispose fuel (logEv S (.delEv w call.key call.value call.keyPresent))
          call.value with
      | ok a S2 =>
          have hst := opc_dispose hP fuel _ call.value h1
          rw [hd] at hst
          exact ih S2 hst
      | thrown o S2 =>
          have hst := opc_dispose hP fuel _ call.value h1
          rw [hd] at hst
          exact hst
      | nofuel S2 =>
          have hst := opc_dispose hP fuel _ call.value h1
          rw [hd] at hst
          exact hst

theorem opc_cacheClean {P : Sys → Prop} (hP : OpClosed P) (fuel : Nat) (E : Env)
    (S : Sys) (w : Nat) (h : P S) : P ((cacheClean fuel E S w).state) := by
  exact opc_runDisposeCalls hP fuel w _ _ (hP.cach S w _ h)

theorem opc_cleanAllPs {P : Sys → Prop} (hP : OpClosed P) (fuel : Nat) (E : Env) :
    ∀ (l : List Nat) (S : Sys), P S → P ((cleanAllPs fuel E S l).state) := by
  intro l
  induction l with
  | nil => intro S h; exact h
  | cons w rest ih =>
      intro S h
      unfold cleanAllPs
      cases hc : cacheClean fuel E S w with
      | ok a S1 =>
          have hst := opc_cacheClean hP fuel E S w h
          rw [hc] at hst
          exact ih S1 hst
      | thrown o S1 =>
          have hst := opc_cacheClean hP fuel E S w h
          rw [hc] at hst
          exact hst
      | nofuel S1 =>
          have hst := opc_cacheClean hP fuel E S w h
          rw [hc] at hst
          exact hst

theorem opc_cleanAll {P : Sys → Prop} (hP : OpClosed P) (fuel : Nat) (E : Env)
    (S : Sys) (h : P S) : P ((cleanAll fuel E S).state) := by
  unfold cleanAll
  cases hc : cleanAllPs fuel E S S.pending with
  | ok a S1 =>
      have hst := opc_cleanAllPs hP fuel E S.pending S h
      rw [hc] at hst
      exact hP.pend S1 [] hst
  | thrown o S1 =>
      have hst := opc_cleanAllPs hP fuel E S.pending S h
      rw [hc] at hst
      exact hst
  | nofuel S1 =>
      have hst := opc_cleanAllPs hP fuel E S.pending S h
      rw [hc] at hst
      exact hst

theorem opClosed_flagCount (e : Nat) (b : Bool) (cnt nE : Nat) :
    OpClosed (fun S => (getE S e).recomputing = b ∧ invokeCountE e S.log = cnt ∧
      nE ≤ S.nextE) := by
  refine ⟨?_, ?_, ?_, ?_, ?_⟩
  · intro S x g hg h
    obtain ⟨h1, h2, h3⟩ := h
    refine ⟨?_, ?_, ?_⟩
    · by_cases hx : e = x
      · subst hx
        rw [getE_updE_same, hg]
        exact h1
      · rw [getE_updE_ne _ _ _ _ hx]
        exact h1
    · exact h2
    · exact h3
  · intro S ev hev h
    obtain ⟨h1, h2, h3⟩ := h
    refine ⟨h1, ?_, h3⟩
    show invokeCountE e (S.log ++ [ev]) = cnt
    rw [invokeCountE_append, if_neg (hev e), Nat.add_zero]
    exact h2
  · intro S h
    exact h
  · intro S w c h
    exact h
  · intro S l h
    exact h

theorem opClosed_totalCount (cnt : Nat) :
    OpClosed (fun S => invokeCount S.log = cnt) := by
  refine ⟨?_, ?_, ?_, ?_, ?_⟩
  · intro S x g hg h
    exact h
  · intro S ev hev h
    show invokeCount (S.log ++ [ev]) = cnt
    rw [invokeCount_append]
    cases ev with
    | invoke x => exact absurd rfl (hev x)
    | setDirtyEv x => exact h
    | delEv w k x b => exact h
    | unsubEv x => exact h
    | subEv x => exact h
    | depUnsubEv x => exact h
    | threwEv w k => exact h
  · intro S h
    exact h
  · intro S w c h
    exact h
  · intro S l h
    exact h

theorem opClosed_c1Triple (e cnt : Nat) : OpClosed (C1Triple e cnt) :=
  opClosed_flagCount e true cnt (e + 1)

/-! Single-step unfolding equations of the interpreter, per task. -/

theorem exec_recomp_eq (E : Env) (f : Nat) (S : Sys) (slot : Option Nat) (x : Nat) :
    exec E (f + 1) S (.recomp slot x) =
      (if (getE S x).recomputing then
        .thrown ⟨S.nextO, ObjData.errMsg "already recomputing"⟩
          { S with nextO := S.nextO + 1 }
      else
        match rememberParent f slot S x with
        | .ok _ S1 =>
            if mightBeDirty (getE S1 x) then exec E f S1 (.reallyRec x)
            else valueGet S1 (getE S1 x).value
        | .thrown o S1 => .thrown o S1
        | .nofuel S1 => .nofuel S1) := rfl

theorem exec_reallyRec_eq (E : Env) (f : Nat) (S : Sys) (x : Nat) :
    exec E (f + 1) S (.reallyRec x) =
      (match forgetChildren S x with
       | .ok _ S1 =>
           match exec E f S1 (.recompNV x) with
           | .ok _ S2 =>
               match maybeSubscribe f S2 x with
               | .ok true S3 =>
                   match setClean f S3 x with
                   | .ok _ S4 => valueGet S4 (getE S4 x).value
                   | .thrown o S4 => .thrown o S4
                   | .nofuel S4 => .nofuel S4
               | .ok false S3 => valueGet S3 (getE S3 x).value
               | .thrown o S3 => .thrown o S3
               | .nofuel S3 => .nofuel S3
           | .thrown o S2 => .thrown o S2
           | .nofuel S2 => .nofuel S2
       | .thrown o S1 => .thrown o S1
       | .nofuel S1 => .nofuel S1) := rfl

theorem exec_recompNV_eq (E : Env) (f : Nat) (S : Sys) (x : Nat) :
    exec E (f + 1) S (.recompNV x) =
      (match exec E f
          (logEv (updE S x (fun y => { y with recomputing := true, value := Value.unknown }))
            (Ev.invoke x))
          (.evalB (some x) ((E (getE S x).wid).body S.ext (getE S x).keyArg)) with
       | .ok o S3 =>
           .ok unitObj (updE S3 x (fun y =>
             { y with value := Value.known o, recomputing := false }))
       | .thrown o S3 =>
           .ok unitObj (updE S3 x (fun y =>
             { y with value := Value.exc o, recomputing := false }))
       | .nofuel S3 => .nofuel S3) := rfl

theorem exec_evalB_ret_eq (E : Env) (f : Nat) (S : Sys) (slot : Option Nat) (n : Nat) :
    exec E (f + 1) S (.evalB slot (.ret n)) =
      .ok ⟨S.nextO, .num n⟩ { S with nextO := S.nextO + 1 } := rfl

theorem exec_evalB_throw_eq (E : Env) (f : Nat) (S : Sys) (slot : Option Nat) (n : Nat) :
    exec E (f + 1) S (.evalB slot (.throwB n)) =
      .thrown ⟨S.nextO, .num n⟩ { S with nextO := S.nextO + 1 } := rfl

theorem exec_evalB_seq_eq (E : Env) (f : Nat) (S : Sys) (slot : Option Nat)
    (w a : Nat) (rest : Body) :
    exec E (f + 1) S (.evalB slot (.seqCall w a rest)) =
      (match exec E f S (.callW slot w a) with
       | .ok _ S1 => exec E f S1 (.evalB slot rest)
       | .thrown o S1 => .thrown o S1
       | .nofuel S1 => .nofuel S1) := rfl

theorem exec_evalB_catch_eq (E : Env) (f : Nat) (S : Sys) (slot : Option Nat)
    (w a : Nat) (rest : Body) :
    exec E (f + 1) S (.evalB slot (.catchCall w a rest)) =
      (match exec E f S (.callW slot w a) with
       | .ok _ S1 => exec E f S1 (.evalB slot rest)
       | .thrown _ S1 => exec E f S1 (.evalB slot rest)
       | .nofuel S1 => .nofuel S1) := rfl

theorem exec_evalB_noctx_eq (E : Env) (f : Nat) (S : Sys) (slot : Option Nat)
    (w a : Nat) (rest : Body) :
    exec E (f + 1) S (.evalB slot (.noCtxCall w a rest)) =
      (match exec E f S (.callW none w a) with
       | .ok _ S1 => exec E f S1 (.evalB slot rest)
       | .thrown o S1 => .thrown o S1
       | .nofuel S1 => .nofuel S1) := rfl

theorem opClosed_flagEq (x : Nat) (b : Bool) :
    OpClosed (fun S => (getE S x).recomputing = b) := by
  refine ⟨?_, ?_, ?_, ?_, ?_⟩
  · intro S y g hg h
    by_cases hxy : x = y
    · subst hxy
      rw [getE_updE_same, hg]
      exact h
    · rw [getE_updE_ne _ _ _ _ hxy]
      exact h
  · intro S ev hev h
    exact h
  · intro S h
    exact h
  · intro S w c h
    exact h
  · intro S l h
    exact h

/-- The tail of a wrapper call after entry.recompute returned v with
state S3: it preserves the C1 invariant. -/
theorem c1_callW_tail {E : Env} {e cnt : Nat} (f : Nat) (slot : Option Nat)
    (w k eid : Nat) (v : Obj) (S3 : Sys) (h3 : C1Triple e cnt S3) :
    C1Triple e cnt (((match slot with
       | none =>
           match cleanAll f E { cacheSet E S3 w k eid with
               pending := insertIfAbsent (cacheSet E S3 w k eid).pending w } with
           | .ok _ S6 => Step.ok v S6
           | .thrown o S6 => Step.thrown o S6
           | .nofuel S6 => Step.nofuel S6
       | some _ => Step.ok v { cacheSet E S3 w k eid with
           pending := insertIfAbsent (cacheSet E S3 w k eid).pending w } : Step Obj)).state) := by
  have h5 : C1Triple e cnt { cacheSet E S3 w k eid with
      pending := insertIfAbsent (cacheSet E S3 w k eid).pending w } :=
    (opClosed_c1Triple e cnt).pend _ _ ((opClosed_c1Triple e cnt).cach S3 w _ h3)
  cases slot with
  | none =>
      cases hc : cleanAll f E { cacheSet E S3 w k eid with
          pending := insertIfAbsent (cacheSet E S3 w k eid).pending w } with
      | ok u S6 =>
          have hcl := opc_cleanAll (opClosed_c1Triple e cnt) f E _ h5
          rw [hc] at hcl
          exact hcl
      | thrown o2 S6 =>
          have hcl := opc_cleanAll (opClosed_c1Triple e cnt) f E _ h5
          rw [hc] at hcl
          exact hcl
      | nofuel S6 =>
          have hcl := opc_cleanAll (opClosed_c1Triple e cnt) f E _ h5
          rw [hc] at hcl
          exact hcl
  | some p => exact h5

/-- While entry e is recomputing, no run of the interpreter logs
another invoke event for e, unsets its flag, or reuses its id. -/
theorem exec_flagTrue_no_reinvoke (E : Env) (e : Nat) :
    ∀ (fuel : Nat) (S : Sys) (t : Task) (cnt : Nat),
      (match t with
       | Task.reallyRec x => (getE S x).recomputing = false
       | Task.recompNV x => (getE S x).recomputing = false
       | _ => True) →
      C1Triple e cnt S →
      C1Triple e cnt ((exec E fuel S t).state) := by
  intro fuel
  induction fuel with
  | zero =>
      intro S t cnt hg h
      exact h
  | succ f ih =>
      intro S t cnt hg h
      cases t with
      | callW slot w k =>
          cases hgp : (getCache E S w).get k with
          | mk o c1 =>
              cases o with
              | some e2 =>
                  rw [callW_hit slot (by rw [hgp])]
                  have hih := ih (putCache S w c1) (.recomp slot e2) cnt trivial
                    ((opClosed_c1Triple e cnt).cach S w c1 h)
                  cases hr : exec E f (putCache S w c1) (.recomp slot e2) with
                  | ok v S3 =>
                      rw [hr] at hih
                      clear hr hgp hg
                      show C1Triple e cnt (((match slot with
                         | none =>
                             match cleanAll f E { cacheSet E S3 w k e2 with
                                 pending := insertIfAbsent (cacheSet E S3 w k e2).pending w } with
                             | .ok _ S6 => Step.ok v S6
                             | .thrown o S6 => Step.thrown o S6
                             | .nofuel S6 => Step.nofuel S6
                         | some _ => Step.ok v { cacheSet E S3 w k e2 with
                             pending := insertIfAbsent (cacheSet E S3 w k e2).pending w } :
                           Step Obj)).state)
                      exact c1_callW_tail f slot w k e2 v S3 hih
                  | thrown o2 S3 =>
                      rw [hr] at hih
                      exact (opClosed_c1Triple e cnt).log S3 _ (fun x => by simp) hih
                  | nofuel S3 =>
                      rw [hr] at hih
                      exact hih
              | none =>
                  rw [callW_miss slot (by rw [hgp])]
                  have hpre : C1Triple e cnt (cacheSet E
                      { S with
                        nextE := S.nextE + 1
                        heap := setA S.heap S.nextE (freshEntry w k (E w).sub) } w k S.nextE) := by
                    obtain ⟨h1, h2, h3⟩ := h
                    refine (opClosed_c1Triple e cnt).cach _ _ _ ⟨?_, h2, ?_⟩
                    · have hne : e ≠ S.nextE := Nat.ne_of_lt h3
                      show ((lookupA (setA S.heap S.nextE (freshEntry w k (E w).sub)) e).getD
                        (freshEntry 0 0 none)).recomputing = true
                      rw [lookupA_setA_ne _ _ _ _ hne]
                      exact h1
                    · exact Nat.le_succ_of_le h3
                  have hih := ih _ (.recomp slot S.nextE) cnt trivial hpre
                  cases hr : exec E f (cacheSet E
                      { S with
                        nextE := S.nextE + 1
                        heap := setA S.heap S.nextE (freshEntry w k (E w).sub) } w k S.nextE)
                      (.recomp slot S.nextE) with
                  | ok v S3 =>
                      rw [hr] at hih
                      clear hr hgp hg hpre
                      show C1Triple e cnt (((match slot with
                         | none =>
                             match cleanAll f E { cacheSet E S3 w k S.nextE with
                                 pending := insertIfAbsent (cacheSet E S3 w k S.nextE).pending w } with
                             | .ok _ S6 => Step.ok v S6
                             | .thrown o S6 => Step.thrown o S6
                             | .nofuel S6 => Step.nofuel S6
                         | some _ => Step.ok v { cacheSet E S3 w k S.nextE with
                             pending := insertIfAbsent (cacheSet E S3 w k S.nextE).pending w } :
                           Step Obj)).state)
                      exact c1_callW_tail f slot w k S.nextE v S3 hih
                  | thrown o2 S3 =>
                      rw [hr] at hih
                      exact (opClosed_c1Triple e cnt).log S3 _ (fun x => by simp) hih
                  | nofuel S3 =>
                      rw [hr] at hih
                      exact hih
      | recomp slot x =>
          rw [exec_recomp_eq]
          by_cases hrx : (getE S x).recomputing = true
          · rw [if_pos hrx]
            exact (opClosed_c1Triple e cnt).oalloc S h
          · rw [if_neg hrx]
            have hfx : (getE S x).recomputing = false := by
              revert hrx
              cases (getE S x).recomputing <;> simp
            cases hrp : rememberParent f slot S x with
            | ok a S1 =>
                have hrm := opc_rememberParent (opClosed_c1Triple e cnt) f slot S x h
                rw [hrp] at hrm
                show C1Triple e cnt ((if mightBeDirty (getE S1 x) = true then
                    exec E f S1 (.reallyRec x)
                  else valueGet S1 (getE S1 x).value).state)
                by_cases hm : mightBeDirty (getE S1 x) = true
                · rw [if_pos hm]
                  have hgx : (getE S1 x).recomputing = false := by
                    have hh := opc_rememberParent (opClosed_flagEq x false) f slot S x hfx
                    rw [hrp] at hh
                    exact hh
                  exact ih S1 (.reallyRec x) cnt hgx hrm
                · rw [if_neg hm]
                  exact opc_valueGet (opClosed_c1Triple e cnt) S1 _ hrm
            | thrown o S1 =>
                have hrm := opc_rememberParent (opClosed_c1Triple e cnt) f slot S x h
                rw [hrp] at hrm
                exact hrm
            | nofuel S1 =>
                have hrm := opc_rememberParent (opClosed_c1Triple e cnt) f slot S x h
                rw [hrp] at hrm
                exact hrm
      | reallyRec x =>
          rw [exec_reallyRec_eq]
          cases hfc : forgetChildren S x with
          | ok a S1 =>
              have h1 := opc_forgetChildren (opClosed_c1Triple e cnt) S x h
              rw [hfc] at h1
              have hgx1 : (getE S1 x).recomputing = false := by
                have hh := opc_forgetChildren (opClosed_flagEq x false) S x hg
                rw [hfc] at hh
                exact hh
              have hih := ih S1 (.recompNV x) cnt hgx1 h1
              show C1Triple e cnt ((match exec E f S1 (.recompNV x) with
                 | Step.ok _ S2 =>
                     match maybeSubscribe f S2 x with
                     | Step.ok true S3 =>
                         match setClean f S3 x with
                         | Step.ok _ S4 => valueGet S4 (getE S4 x).value
                         | Step.thrown o S4 => Step.thrown o S4
                         | Step.nofuel S4 => Step.nofuel S4
                     | Step.ok false S3 => valueGet S3 (getE S3 x).value
                     | Step.thrown o S3 => Step.thrown o S3
                     | Step.nofuel S3 => Step.nofuel S3
                 | Step.thrown o S2 => Step.thrown o S2
                 | Step.nofuel S2 => Step.nofuel S2).state)
              cases hr : exec E f S1 (.recompNV x) with
              | ok b S2 =>
                  rw [hr] at hih
                  show C1Triple e cnt ((match maybeSubscribe f S2 x with
                     | Step.ok true S3 =>
                         match setClean f S3 x with
                         | Step.ok _ S4 => valueGet S4 (getE S4 x).value
                         | Step.thrown o S4 => Step.thrown o S4
                         | Step.nofuel S4 => Step.nofuel S4
                     | Step.ok false S3 => valueGet S3 (getE S3 x).value
                     | Step.thrown o S3 => Step.thrown o S3
                     | Step.nofuel S3 => Step.nofuel S3).state)
                  cases hms : maybeSubscribe f S2 x with
                  | ok bb S3 =>
                      have h3 := opc_maybeSubscribe (opClosed_c1Triple e cnt) f S2 x hih
                      rw [hms] at h3
                      cases bb with
                      | true =>
                          show C1Triple e cnt ((match setClean f S3 x with
                             | Step.ok _ S4 => valueGet S4 (getE S4 x).value
                             | Step.thrown o S4 => Step.thrown o S4
                             | Step.nofuel S4 => Step.nofuel S4).state)
                          cases hsc : setClean f S3 x with
                          | ok c2 S4 =>
                              have h4 := opc_setClean (opClosed_c1Triple e cnt) f S3 x h3
                              rw [hsc] at h4
                              exact opc_valueGet (opClosed_c1Triple e cnt) S4 _ h4
                          | thrown o S4 =>
                              have h4 := opc_setClean (opClosed_c1Triple e cnt) f S3 x h3
                              rw [hsc] at h4
                              exact h4
                          | nofuel S4 =>
                              have h4 := opc_setClean (opClosed_c1Triple e cnt) f S3 x h3
                              rw [hsc] at h4
                              exact h4
                      | false =>
                          exact opc_valueGet (opClosed_c1Triple e cnt) S3 _ h3
                  | thrown o S3 =>
                      have h3 := opc_maybeSubscribe (opClosed_c1Triple e cnt) f S2 x hih
                      rw [hms] at h3
                      exact h3
                  | nofuel S3 =>
                      have h3 := opc_maybeSubscribe (opClosed_c1Triple e cnt) f S2 x hih
                      rw [hms] at h3
                      exact h3
              | thrown o S2 =>
                  rw [hr] at hih
                  exact hih
              | nofuel S2 =>
                  rw [hr] at hih
                  exact hih
          | thrown o S1 =>
              have h1 := opc_forgetChildren (opClosed_c1Triple e cnt) S x h
              rw [hfc] at h1
              exact h1
          | nofuel S1 =>
              have h1 := opc_forgetChildren (opClosed_c1Triple e cnt) S x h
              rw [hfc] at h1
              exact h1
      | recompNV x =>
          rw [exec_recompNV_eq]
          obtain ⟨h1, h2, h3⟩ := h
          have hxe : x ≠ e := by
            intro hxeq
            rw [hxeq] at hg
            rw [hg] at h1
            exact Bool.noConfusion h1
          have hB : C1Triple e cnt (logEv (updE S x (fun y =>
              { y with recomputing := true, value := Value.unknown })) (Ev.invoke x)) := by
            refine ⟨?_, ?_, ?_⟩
            · show (getE (updE S x (fun y =>
                { y with recomputing := true, value := Value.unknown })) e).recomputing = true
              rw [getE_updE_ne _ _ _ _ (Ne.symm hxe)]
              exact h1
            · show invokeCountE e ((updE S x (fun y =>
                { y with recomputing := true, value := Value.unknown })).log ++
                  [Ev.invoke x]) = cnt
              rw [invokeCountE_append, if_neg (by simp [hxe]), Nat.add_zero]
              exact h2
            · exact h3
          have hih := ih _
            (.evalB (some x) ((E (getE S x).wid).body S.ext (getE S x).keyArg)) cnt
            trivial hB
          cases hr : exec E f
              (logEv (updE S x (fun y =>
                { y with recomputing := true, value := Value.unknown })) (Ev.invoke x))
              (.evalB (some x) ((E (getE S x).wid).body S.ext (getE S x).keyArg)) with
          | ok o S3 =>
              rw [hr] at hih
              obtain ⟨b1, b2, b3⟩ := hih
              refine ⟨?_, b2, b3⟩
              show (getE (updE S3 x (fun y =>
                { y with value := Value.known o, recomputing := false })) e).recomputing = true
              rw [getE_updE_ne _ _ _ _ (Ne.symm hxe)]
              exact b1
          | thrown o S3 =>
              rw [hr] at hih
              obtain ⟨b1, b2, b3⟩ := hih
              refine ⟨?_, b2, b3⟩
              show (getE (updE S3 x (fun y =>
                { y with value := Value.exc o, recomputing := false })) e).recomputing = true
              rw [getE_updE_ne _ _ _ _ (Ne.symm hxe)]
              exact b1
          | nofuel S3 =>
              rw [hr] at hih
              exact hih
      | evalB slot b =>
          cases b with
          | ret n =>
              rw [exec_evalB_ret_eq]
              exact (opClosed_c1Triple e cnt).oalloc S h
          | throwB n =>
              rw [exec_evalB_throw_eq]
              exact (opClosed_c1Triple e cnt).oalloc S h
          | seqCall w a rest =>
              rw [exec_evalB_seq_eq]
              have hih := ih S (.callW slot w a) cnt trivial h
              cases hr : exec E f S (.callW slot w a) with
              | ok v S1 =>
                  rw [hr] at hih
                  exact ih S1 (.evalB slot rest) cnt trivial hih
              | thrown o S1 =>
                  rw [hr] at hih
                  exact hih
              | nofuel S1 =>
                  rw [hr] at hih
                  exact hih
          | catchCall w a rest =>
              rw [exec_evalB_catch_eq]
              have hih := ih S (.callW slot w a) cnt trivial h
              cases hr : exec E f S (.callW slot w a) with
              | ok v S1 =>
                  rw [hr] at hih
                  exact ih S1 (.evalB slot rest) cnt trivial hih
              | thrown o S1 =>
                  rw [hr] at hih
                  exact ih S1 (.evalB slot rest) cnt trivial hih
              | nofuel S1 =>
                  rw [hr] at hih
                  exact hih
          | noCtxCall w a rest =>
              rw [exec_evalB_noctx_eq]
              have hih := ih S (.callW none w a) cnt trivial h
              cases hr : exec E f S (.callW none w a) with
              | ok v S1 =>
                  rw [hr] at hih
                  exact ih S1 (.evalB slot rest) cnt trivial hih
              | thrown o S1 =>
                  rw [hr] at hih
                  exact hih
              | nofuel S1 =>
                  rw [hr] at hih
                  exact hih

theorem opClosed_countE (e cnt : Nat) :
    OpClosed (fun S => invokeCountE e S.log = cnt) := by
  refine ⟨?_, ?_, ?_, ?_, ?_⟩
  · intro S x g hg h
    exact h
  · intro S ev hev h
    show invokeCountE e (S.log ++ [ev]) = cnt
    rw [invokeCountE_append, if_neg (hev e), Nat.add_zero]
    exact h
  · intro S h
    exact h
  · intro S w c h
    exact h
  · intro S l h
    exact h

/-- reallyRecompute invokes its entry's user function at most once. -/
theorem reallyRec_invoke_le {E : Env} {x cnt : Nat} :
    ∀ (f : Nat) (S : Sys),
      (getE S x).recomputing = false →
      x + 1 ≤ S.nextE →
      invokeCountE x S.log = cnt →
      invokeCountE x (((exec E f S (.reallyRec x)).state).log) ≤ cnt + 1 := by
  intro f S hflag hlt hcnt
  cases f with
  | zero =>
      show invokeCountE x S.log ≤ cnt + 1
      exact le_trans (le_of_eq hcnt) (Nat.le_succ cnt)
  | succ f =>
      rw [exec_reallyRec_eq]
      cases hfc : forgetChildren S x with
      | ok a S1 =>
          have hP := opc_forgetChildren (opClosed_flagCount x false cnt (x + 1)) S x
            ⟨hflag, hcnt, hlt⟩
          rw [hfc] at hP
          obtain ⟨p1, p2, p3⟩ := hP
          have p1x : (getE S1 x).recomputing = false := p1
          have p2x : invokeCountE x S1.log = cnt := p2
          have p3x : x + 1 ≤ S1.nextE := p3
          cases f with
          | zero =>
              show invokeCountE x S1.log ≤ cnt + 1
              exact le_trans (le_of_eq p2x) (Nat.le_succ cnt)
          | succ f2 =>
              show invokeCountE x (((match exec E (f2 + 1) S1 (.recompNV x) with
                 | Step.ok a2 S2 =>
                     match maybeSubscribe (f2 + 1) S2 x with
                     | Step.ok true S3 =>
                         match setClean (f2 + 1) S3 x with
                         | Step.ok c2 S4 => valueGet S4 (getE S4 x).value
                         | Step.thrown o2 S4 => Step.thrown o2 S4
                         | Step.nofuel S4 => Step.nofuel S4
                     | Step.ok false S3 => valueGet S3 (getE S3 x).value
                     | Step.thrown o2 S3 => Step.thrown o2 S3
                     | Step.nofuel S3 => Step.nofuel S3
                 | Step.thrown o2 S2 => Step.thrown o2 S2
                 | Step.nofuel S2 => Step.nofuel S2).state).log) ≤ cnt + 1
              rw [exec_recompNV_eq]
              have hflagB : (getE (logEv (updE S1 x (fun y =>
                  { y with recomputing := true, value := Value.unknown }))
                    (Ev.invoke x)) x).recomputing = true := by
                rw [getE_logEv, getE_updE_same]
              have hcntB : invokeCountE x ((logEv (updE S1 x (fun y =>
                  { y with recomputing := true, value := Value.unknown }))
                    (Ev.invoke x)).log) = cnt + 1 := by
                show invokeCountE x ((updE S1 x (fun y =>
                  { y with recomputing := true, value := Value.unknown })).log ++
                    [Ev.invoke x]) = cnt + 1
                rw [invokeCountE_append, if_pos rfl]
                show invokeCountE x S1.log + 1 = cnt + 1
                rw [p2x]
              have hT := exec_flagTrue_no_reinvoke E x f2
                (logEv (updE S1 x (fun y =>
                  { y with recomputing := true, value := Value.unknown })) (Ev.invoke x))
                (.evalB (some x) ((E (getE S1 x).wid).body S1.ext (getE S1 x).keyArg))
                (cnt + 1) trivial ⟨hflagB, hcntB, p3x⟩
              cases hev : exec E f2
                  (logEv (updE S1 x (fun y =>
                    { y with recomputing := true, value := Value.unknown })) (Ev.invoke x))
                  (.evalB (some x) ((E (getE S1 x).wid).body S1.ext (getE S1 x).keyArg)) with
              | ok o SR =>
                  rw [hev] at hT
                  obtain ⟨q1, q2, q3⟩ := hT
                  have q2x : invokeCountE x SR.log = cnt + 1 := q2
                  have q3x : x + 1 ≤ SR.nextE := q3
                  have hfin : (getE (updE SR x (fun y =>
                      { y with value := Value.known o, recomputing := false }))
                        x).recomputing = false := by
                    rw [getE_updE_same]
                  show invokeCountE x (((match maybeSubscribe (f2 + 1)
                      (updE SR x (fun y =>
                        { y with value := Value.known o, recomputing := false })) x with
                     | Step.ok true S3 =>
                         match setClean (f2 + 1) S3 x with
                         | Step.ok c2 S4 => valueGet S4 (getE S4 x).value
                         | Step.thrown o2 S4 => Step.thrown o2 S4
                         | Step.nofuel S4 => Step.nofuel S4
                     | Step.ok false S3 => valueGet S3 (getE S3 x).value
                     | Step.thrown o2 S3 => Step.thrown o2 S3
                     | Step.nofuel S3 => Step.nofuel S3).state).log) ≤ cnt + 1
                  have h3 := opc_maybeSubscribe
                    (opClosed_flagCount x false (cnt + 1) (x + 1)) (f2 + 1)
                    (updE SR x (fun y =>
                      { y with value := Value.known o, recomputing := false })) x
                    ⟨hfin, q2x, q3x⟩
                  cases hms : maybeSubscribe (f2 + 1)
                      (updE SR x (fun y =>
                        { y with value := Value.known o, recomputing := false })) x with
                  | ok bb S3 =>
                      rw [hms] at h3
                      have c1x : (getE S3 x).recomputing = false := h3.1
                      have c2x : invokeCountE x S3.log = cnt + 1 := h3.2.1
                      have c3x : x + 1 ≤ S3.nextE := h3.2.2
                      cases bb with
                      | true =>
                          show invokeCountE x (((match setClean (f2 + 1) S3 x with
                             | Step.ok c2 S4 => valueGet S4 (getE S4 x).value
                             | Step.thrown o2 S4 => Step.thrown o2 S4
                             | Step.nofuel S4 => Step.nofuel S4).state).log) ≤ cnt + 1
                          cases hsc : setClean (f2 + 1) S3 x with
                          | ok c2 S4 =>
                              have h4 := opc_setClean
                                (opClosed_flagCount x false (cnt + 1) (x + 1)) (f2 + 1) S3 x
                                ⟨c1x, c2x, c3x⟩
                              rw [hsc] at h4
                              have h6 : invokeCountE x
                                  (((valueGet S4 (getE S4 x).value).state).log) = cnt + 1 :=
                                (opc_valueGet (opClosed_flagCount x false (cnt + 1) (x + 1))
                                  S4 ((getE S4 x).value) h4).2.1
                              show invokeCountE x
                                  (((valueGet S4 (getE S4 x).value).state).log) ≤ cnt + 1
                              exact le_of_eq h6
                          | thrown o2 S4 =>
                              have h4 := opc_setClean
                                (opClosed_flagCount x false (cnt + 1) (x + 1)) (f2 + 1) S3 x
                                ⟨c1x, c2x, c3x⟩
                              rw [hsc] at h4
                              have h6 : invokeCountE x S4.log = cnt + 1 := h4.2.1
                              show invokeCountE x S4.log ≤ cnt + 1
                              exact le_of_eq h6
                          | nofuel S4 =>
                              have h4 := opc_setClean
                                (opClosed_flagCount x false (cnt + 1) (x + 1)) (f2 + 1) S3 x
                                ⟨c1x, c2x, c3x⟩
                              rw [hsc] at h4
                              have h6 : invokeCountE x S4.log = cnt + 1 := h4.2.1
                              show invokeCountE x S4.log ≤ cnt + 1
                              exact le_of_eq h6
                      | false =>
                          have h6 : invokeCountE x
                              (((valueGet S3 (getE S3 x).value).state).log) = cnt + 1 :=
                            (opc_valueGet (opClosed_flagCount x false (cnt + 1) (x + 1))
                              S3 ((getE S3 x).value) ⟨c1x, c2x, c3x⟩).2.1
                          show invokeCountE x
                              (((valueGet S3 (getE S3 x).value).state).log) ≤ cnt + 1
                          exact le_of_eq h6
                  | thrown o2 S3 =>
                      rw [hms] at h3
                      have h6 : invokeCountE x S3.log = cnt + 1 := h3.2.1
                      show invokeCountE x S3.log ≤ cnt + 1
                      exact le_of_eq h6
                  | nofuel S3 =>
                      rw [hms] at h3
                      have h6 : invokeCountE x S3.log = cnt + 1 := h3.2.1
                      show invokeCountE x S3.log ≤ cnt + 1
                      exact le_of_eq h6
              | thrown o SR =>
                  rw [hev] at hT
                  obtain ⟨q1, q2, q3⟩ := hT
                  have q2x : invokeCountE x SR.log = cnt + 1 := q2
                  have q3x : x + 1 ≤ SR.nextE := q3
                  have hfin : (getE (updE SR x (fun y =>
                      { y with value := Value.exc o, recomputing := false }))
                        x).recomputing = false := by
                    rw [getE_updE_same]
                  show invokeCountE x (((match maybeSubscribe (f2 + 1)
                      (updE SR x (fun y =>
                        { y with value := Value.exc o, recomputing := false })) x with
                     | Step.ok true S3 =>
                         match setClean (f2 + 1) S3 x with
                         | Step.ok c2 S4 => valueGet S4 (getE S4 x).value
                         | Step.thrown o2 S4 => Step.thrown o2 S4
                         | Step.nofuel S4 => Step.nofuel S4
                     | Step.ok false S3 => valueGet S3 (getE S3 x).value
                     | Step.thrown o2 S3 => Step.thrown o2 S3
                     | Step.nofuel S3 => Step.nofuel S3).state).log) ≤ cnt + 1
                  have h3 := opc_maybeSubscribe
                    (opClosed_flagCount x false (cnt + 1) (x + 1)) (f2 + 1)
                    (updE SR x (fun y =>
                      { y with value := Value.exc o, recomputing := false })) x
                    ⟨hfin, q2x, q3x⟩
                  cases hms : maybeSubscribe (f2 + 1)
                      (updE SR x (fun y =>
                        { y with value := Value.exc o, recomputing := false })) x with
                  | ok bb S3 =>
                      rw [hms] at h3
                      have c1x : (getE S3 x).recomputing = false := h3.1
                      have c2x : invokeCountE x S3.log = cnt + 1 := h3.2.1
                      have c3x : x + 1 ≤ S3.nextE := h3.2.2
                      cases bb with
                      | true =>
                          show invokeCountE x (((match setClean (f2 + 1) S3 x with
                             | Step.ok c2 S4 => valueGet S4 (getE S4 x).value
                             | Step.thrown o2 S4 => Step.thrown o2 S4
                             | Step.nofuel S4 => Step.nofuel S4).state).log) ≤ cnt + 1
                          cases hsc : setClean (f2 + 1) S3 x with
                          | ok c2 S4 =>
                              have h4 := opc_setClean
                                (opClosed_flagCount x false (cnt + 1) (x + 1)) (f2 + 1) S3 x
                                ⟨c1x, c2x, c3x⟩
                              rw [hsc] at h4
                              have h6 : invokeCountE x
                                  (((valueGet S4 (getE S4 x).value).state).log) = cnt + 1 :=
                                (opc_valueGet (opClosed_flagCount x false (cnt + 1) (x + 1))
                                  S4 ((getE S4 x).value) h4).2.1
                              show invokeCountE x
                                  (((valueGet S4 (getE S4 x).value).state).log) ≤ cnt + 1
                              exact le_of_eq h6
                          | thrown o2 S4 =>
                              have h4 := opc_setClean
                                (opClosed_flagCount x false (cnt + 1) (x + 1)) (f2 + 1) S3 x
                                ⟨c1x, c2x, c3x⟩
                              rw [hsc] at h4
                              have h6 : invokeCountE x S4.log = cnt + 1 := h4.2.1
                              show invokeCountE x S4.log ≤ cnt + 1
                              exact le_of_eq h6
                          | nofuel S4 =>
                              have h4 := opc_setClean
                                (opClosed_flagCount x false (cnt + 1) (x + 1)) (f2 + 1) S3 x
                                ⟨c1x, c2x, c3x⟩
                              rw [hsc] at h4
                              have h6 : invokeCountE x S4.log = cnt + 1 := h4.2.1
                              show invokeCountE x S4.log ≤ cnt + 1
                              exact le_of_eq h6
                      | false =>
                          have h6 : invokeCountE x
                              (((valueGet S3 (getE S3 x).value).state).log) = cnt + 1 :=
                            (opc_valueGet (opClosed_flagCount x false (cnt + 1) (x + 1))
                              S3 ((getE S3 x).value) ⟨c1x, c2x, c3x⟩).2.1
                          show invokeCountE x
                              (((valueGet S3 (getE S3 x).value).state).log) ≤ cnt + 1
                          exact le_of_eq h6
                  | thrown o2 S3 =>
                      rw [hms] at h3
                      have h6 : invokeCountE x S3.log = cnt + 1 := h3.2.1
                      show invokeCountE x S3.log ≤ cnt + 1
                      exact le_of_eq h6
                  | nofuel S3 =>
                      rw [hms] at h3
                      have h6 : invokeCountE x S3.log = cnt + 1 := h3.2.1
                      show invokeCountE x S3.log ≤ cnt + 1
                      exact le_of_eq h6
              | nofuel SR =>
                  rw [hev] at hT
                  have h6 : invokeCountE x SR.log = cnt + 1 := hT.2.1
                  show invokeCountE x SR.log ≤ cnt + 1
                  exact le_of_eq h6
      | thrown o S1 =>
          have hP := opc_forgetChildren (opClosed_flagCount x false cnt (x + 1)) S x
            ⟨hflag, hcnt, hlt⟩
          rw [hfc] at hP
          have h6 : invokeCountE x S1.log = cnt := hP.2.1
          show invokeCountE x S1.log ≤ cnt + 1
          exact le_trans (le_of_eq h6) (Nat.le_succ cnt)
      | nofuel S1 =>
          have hP := opc_forgetChildren (opClosed_flagCount x false cnt (x + 1)) S x
            ⟨hflag, hcnt, hlt⟩
          rw [hfc] at hP
          have h6 : invokeCountE x S1.log = cnt := hP.2.1
          show invokeCountE x S1.log ≤ cnt + 1
          exact le_trans (le_of_eq h6) (Nat.le_succ cnt)

/-- Entry.recompute invokes its entry's user function at most once. -/
theorem recomp_invoke_le {E : Env} (f : Nat) (slot : Option Nat) (S : Sys) {x cnt : Nat}
    (hflag : (getE S x).recomputing = false)
    (hlt : x + 1 ≤ S.nextE)
    (hcnt : invokeCountE x S.log = cnt) :
    invokeCountE x (((exec E (f + 1) S (.recomp slot x)).state).log) ≤ cnt + 1 := by
  rw [exec_recomp_eq, if_neg (by simp [hflag])]
  cases hrp : rememberParent f slot S x with
  | ok a S1 =>
      have hP := opc_rememberParent (opClosed_flagCount x false cnt (x + 1)) f slot S x
        ⟨hflag, hcnt, hlt⟩
      rw [hrp] at hP
      obtain ⟨p1, p2, p3⟩ := hP
      have p1x : (getE S1 x).recomputing = false := p1
      have p2x : invokeCountE x S1.log = cnt := p2
      have p3x : x + 1 ≤ S1.nextE := p3
      show invokeCountE x (((if mightBeDirty (getE S1 x) = true then
          exec E f S1 (.reallyRec x)
        else valueGet S1 (getE S1 x).value).state).log) ≤ cnt + 1
      by_cases hm : mightBeDirty (getE S1 x) = true
      · rw [if_pos hm]
        exact reallyRec_invoke_le f S1 p1x p3x p2x
      · rw [if_neg hm]
        have h6 : invokeCountE x (((valueGet S1 (getE S1 x).value).state).log) = cnt :=
          (opc_valueGet (opClosed_flagCount x false cnt (x + 1)) S1
            ((getE S1 x).value) ⟨p1x, p2x, p3x⟩).2.1
        exact le_trans (le_of_eq h6) (Nat.le_succ cnt)
  | thrown o S1 =>
      have hP := opc_rememberParent (opClosed_flagCount x false cnt (x + 1)) f slot S x
        ⟨hflag, hcnt, hlt⟩
      rw [hrp] at hP
      have h6 : invokeCountE x S1.log = cnt := hP.2.1
      show invokeCountE x S1.log ≤ cnt + 1
      exact le_trans (le_of_eq h6) (Nat.le_succ cnt)
  | nofuel S1 =>
      have hP := opc_rememberParent (opClosed_flagCount x false cnt (x + 1)) f slot S x
        ⟨hflag, hcnt, hlt⟩
      rw [hrp] at hP
      have h6 : invokeCountE x S1.log = cnt := hP.2.1
      show invokeCountE x S1.log ≤ cnt + 1
      exact le_trans (le_of_eq h6) (Nat.le_succ cnt)

theorem c1_count_tail {E : Env} {e : Nat} (f : Nat) (slot : Option Nat)
    (w k eid : Nat) (v : Obj) (S3 : Sys) (cnt2 : Nat)
    (h3 : invokeCountE e S3.log = cnt2) :
    invokeCountE e (((match slot with
       | none =>
           match cleanAll f E { cacheSet E S3 w k eid with
               pending := insertIfAbsent (cacheSet E S3 w k eid).pending w } with
           | .ok _ S6 => Step.ok v S6
           | .thrown o S6 => Step.thrown o S6
           | .nofuel S6 => Step.nofuel S6
       | some _ => Step.ok v { cacheSet E S3 w k eid with
           pending := insertIfAbsent (cacheSet E S3 w k eid).pending w } : Step Obj).state).log)
      = cnt2 := by
  have h5 : invokeCountE e ({ cacheSet E S3 w k eid with
      pending := insertIfAbsent (cacheSet E S3 w k eid).pending w } : Sys).log = cnt2 := h3
  cases slot with
  | none =>
      cases hc : cleanAll f E { cacheSet E S3 w k eid with
          pending := insertIfAbsent (cacheSet E S3 w k eid).pending w } with
      | ok u S6 =>
          have hcl := opc_cleanAll (opClosed_countE e cnt2) f E _ h5
          rw [hc] at hcl
          exact hcl
      | thrown o2 S6 =>
          have hcl := opc_cleanAll (opClosed_countE e cnt2) f E _ h5
          rw [hc] at hcl
          exact hcl
      | nofuel S6 =>
          have hcl := opc_cleanAll (opClosed_countE e cnt2) f E _ h5
          rw [hc] at hcl
          exact hcl
  | some s =>
      exact h5

/-- A wrapper call whose key hits an existing settled-flag entry invokes
that entry's user function at most once. -/
theorem callW_count_le_hit {E : Env} (f : Nat) (slot : Option Nat) {S : Sys}
    {w k e cnt : Nat} {c1 : Cache Nat Nat}
    (hget : (getCache E S w).get k = (some e, c1))
    (hflag : (getE S e).recomputing = false)
    (hlt : e + 1 ≤ S.nextE)
    (hcnt : invokeCountE e S.log = cnt) :
    invokeCountE e (((exec E (f + 1 + 1) S (.callW slot w k)).state).log) ≤ cnt + 1 := by
  rw [callW_hit slot hget]
  have hflag2 : (getE (putCache S w c1) e).recomputing = false := hflag
  have hlt2 : e + 1 ≤ (putCache S w c1).nextE := hlt
  have hcnt2 : invokeCountE e (putCache S w c1).log = cnt := hcnt
  have hrec := @recomp_invoke_le E f slot (putCache S w c1) e cnt hflag2 hlt2 hcnt2
  cases hr : exec E (f + 1) (putCache S w c1) (.recomp slot e) with
  | ok v S3 =>
      rw [hr] at hrec
      have hrec2 : invokeCountE e S3.log ≤ cnt + 1 := hrec
      clear hr hrec
      show invokeCountE e (((match slot with
         | none =>
             match cleanAll (f + 1) E { cacheSet E S3 w k e with
                 pending := insertIfAbsent (cacheSet E S3 w k e).pending w } with
             | .ok _ S6 => Step.ok v S6
             | .thrown o S6 => Step.thrown o S6
             | .nofuel S6 => Step.nofuel S6
         | some _ => Step.ok v { cacheSet E S3 w k e with
             pending := insertIfAbsent (cacheSet E S3 w k e).pending w } : Step Obj).state).log)
        ≤ cnt + 1
      rw [c1_count_tail (f + 1) slot w k e v S3 (invokeCountE e S3.log) rfl]
      exact hrec2
  | thrown o S3 =>
      rw [hr] at hrec
      have hrec2 : invokeCountE e S3.log ≤ cnt + 1 := hrec
      show invokeCountE e (S3.log ++ [Ev.threwEv w k]) ≤ cnt + 1
      rw [invokeCountE_append, if_neg (by simp), Nat.add_zero]
      exact hrec2
  | nofuel S3 =>
      rw [hr] at hrec
      exact hrec

/-- A wrapper call whose key misses the cache creates one entry and
invokes its user function at most once. -/
theorem callW_count_le_miss {E : Env} (f : Nat) (slot : Option Nat) {S : Sys}
    {w k cnt : Nat}
    (hget : ((getCache E S w).get k).1 = none)
    (hcnt : invokeCountE S.nextE S.log = cnt) :
    invokeCountE S.nextE (((exec E (f + 1 + 1) S (.callW slot w k)).state).log)
      ≤ cnt + 1 := by
  rw [callW_miss slot hget]
  have hflag2 : (getE (cacheSet E
      { S with
        nextE := S.nextE + 1
        heap := setA S.heap S.nextE (freshEntry w k (E w).sub) } w k S.nextE)
        S.nextE).recomputing = false := by
    show ((lookupA (setA S.heap S.nextE (freshEntry w k (E w).sub)) S.nextE).getD
      (freshEntry 0 0 none)).recomputing = false
    rw [lookupA_setA_same]
    rfl
  have hlt2 : S.nextE + 1 ≤ (cacheSet E
      { S with
        nextE := S.nextE + 1
        heap := setA S.heap S.nextE (freshEntry w k (E w).sub) } w k S.nextE).nextE :=
    Nat.le_refl _
  have hcnt2 : invokeCountE S.nextE ((cacheSet E
      { S with
        nextE := S.nextE + 1
        heap := setA S.heap S.nextE (freshEntry w k (E w).sub) } w k S.nextE).log) = cnt :=
    hcnt
  have hrec := @recomp_invoke_le E f slot (cacheSet E
      { S with
        nextE := S.nextE + 1
        heap := setA S.heap S.nextE (freshEntry w k (E w).sub) } w k S.nextE)
    S.nextE cnt hflag2 hlt2 hcnt2
  cases hr : exec E (f + 1) (cacheSet E
      { S with
        nextE := S.nextE + 1
        heap := setA S.heap S.nextE (freshEntry w k (E w).sub) } w k S.nextE)
      (.recomp slot S.nextE) with
  | ok v S3 =>
      rw [hr] at hrec
      have hrec2 : invokeCountE S.nextE S3.log ≤ cnt + 1 := hrec
      clear hr hrec
      show invokeCountE S.nextE (((match slot with
         | none =>
             match cleanAll (f + 1) E { cacheSet E S3 w k S.nextE with
                 pending := insertIfAbsent (cacheSet E S3 w k S.nextE).pending w } with
             | .ok _ S6 => Step.ok v S6
             | .thrown o S6 => Step.thrown o S6
             | .nofuel S6 => Step.nofuel S6
         | some _ => Step.ok v { cacheSet E S3 w k S.nextE with
             pending := insertIfAbsent (cacheSet E S3 w k S.nextE).pending w } :
          Step Obj).state).log) ≤ cnt + 1
      rw [c1_count_tail (f + 1) slot w k S.nextE v S3 (invokeCountE S.nextE S3.log) rfl]
      exact hrec2
  | thrown o S3 =>
      rw [hr] at hrec
      have hrec2 : invokeCountE S.nextE S3.log ≤ cnt + 1 := hrec
      show invokeCountE S.nextE (S3.log ++ [Ev.threwEv w k]) ≤ cnt + 1
      rw [invokeCountE_append, if_neg (by simp), Nat.add_zero]
      exact hrec2
  | nofuel S3 =>
      rw [hr] at hrec
      exact hrec

/-- Overwriting the same key twice in a row keeps only the last write. -/
theorem setA_setA_same {β : Type} (l : List (Nat × β)) (k : Nat) (v v2 : β) :
    setA (setA l k v) k v2 = setA l k v2 := by
  induction l with
  | nil => simp [setA]
  | cons hd tl ih =>
      obtain ⟨q, w⟩ := hd
      by_cases hk : q = k
      · subst hk
        simp [setA]
      · simp [setA, hk, ih]

/-- Writing back the value a key already holds leaves the map unchanged. -/
theorem setA_lookup_self {β : Type} (l : List (Nat × β)) (k : Nat) (v : β)
    (h : lookupA l k = some v) : setA l k v = l := by
  induction l with
  | nil => simp [lookupA] at h
  | cons hd tl ih =>
      obtain ⟨q, w⟩ := hd
      by_cases hk : q = k
      · subst hk
        rw [lookupA, if_pos rfl] at h
        rw [setA, if_pos rfl]
        rw [Option.some.injEq] at h
        rw [h]
      · rw [lookupA, if_neg hk] at h
        rw [setA, if_neg hk, ih h]

/-- The cleaning loop is the identity on a cache within its max. -/
theorem cleanGo_noop {K V : Type} [DecidableEq K] (c : Cache K V)
    (h : ¬ c.entries.length > c.max) :
    ∀ n, Cache.cleanGo c n = (c, []) := by
  intro n
  cases n with
  | zero => rfl
  | succ n =>
      show (match c.entries.getLast? with
        | none => (c, [])
        | some last =>
            if c.entries.length > c.max then
              let r := Cache.delete c last.1
              let rest := Cache.cleanGo r.2.1 n
              (rest.1, r.2.2 ++ rest.2)
            else (c, [])) = (c, [])
      cases hl : c.entries.getLast? with
      | none => rfl
      | some last =>
          show (if c.entries.length > c.max then
              let r := Cache.delete c last.1
              let rest := Cache.cleanGo r.2.1 n
              (rest.1, r.2.2 ++ rest.2)
            else (c, [])) = (c, [])
          rw [if_neg h]

/-- Cache.clean is the identity on a cache within its max. -/
theorem clean_noop {K V : Type} [DecidableEq K] (c : Cache K V)
    (h : ¬ c.entries.length > c.max) : Cache.clean c = (c, []) :=
  cleanGo_noop c h c.entries.length

/-- Cleaning a registered cache that is already within its max fires no
dispose and leaves the cache as it was. -/
theorem cacheClean_within_max {E : Env} (f : Nat) {S : Sys} {w : Nat}
    {c : Cache Nat Nat}
    (hlk : lookupA S.caches w = some c)
    (hsz : ¬ c.entries.length > c.max) :
    cacheClean f E S w = .ok () (putCache S w c) := by
  have hg : getCache E S w = c := by
    unfold getCache
    rw [hlk]
    rfl
  unfold cacheClean
  rw [hg, clean_noop c hsz]
  rfl

/-- The quiescent clean with a single registered cache already within
its max only empties the pending set. -/
theorem cleanAll_single (f : Nat) (E : Env) {S : Sys} {w : Nat}
    {c : Cache Nat Nat}
    (hp : S.pending = [w])
    (hlk : lookupA S.caches w = some c)
    (hsz : ¬ c.entries.length > c.max) :
    cleanAll f E S = .ok () { S with pending := [] } := by
  unfold cleanAll
  rw [hp]
  show (match (match cacheClean f E S w with
      | Step.ok _ S1 => cleanAllPs f E S1 []
      | Step.thrown o S1 => Step.thrown o S1
      | Step.nofuel S1 => Step.nofuel S1) with
    | Step.ok _ S1 => Step.ok () { S1 with pending := ([] : List Nat) }
    | Step.thrown o S1 => Step.thrown o S1
    | Step.nofuel S1 => Step.nofuel S1) = Step.ok () ({ S with pending := [] } : Sys)
  rw [cacheClean_within_max f hlk hsz]
  show Step.ok () ({ putCache S w c with pending := [] } : Sys) =
    Step.ok () ({ S with pending := [] } : Sys)
  have hs : setA S.caches w c = S.caches := setA_lookup_self S.caches w c hlk
  show Step.ok () (Sys.mk S.heap (setA S.caches w c) [] S.nextE S.nextO S.ext S.log) =
    Step.ok () (Sys.mk S.heap S.caches [] S.nextE S.nextO S.ext S.log)
  rw [hs]

/-- recompute on a settled entry holding a cached known value: the read
returns that very object and touches nothing. -/
theorem recomp_cached_known {E : Env} {f : Nat} {S : Sys} {e : Nat} {v : Obj}
    (hrec : (getE S e).recomputing = false)
    (hd : (getE S e).dirty = false)
    (hdc : (getE S e).dirtyChildren = [])
    (hv : (getE S e).value = Value.known v) :
    exec E (f + 1) S (.recomp none e) = .ok v S := by
  have hm : mightBeDirty (getE S e) = false := by
    unfold mightBeDirty
    rw [hd, hdc]
    rfl
  conv_lhs => rw [exec]
  simp only [rememberParent, valueGet, hrec, hm, hv, Bool.false_eq_true, if_false]

/-- The second of two successive equal-key top-level calls on a settled
entry returns the cached object exactly, touching only the cache
recency order and the pending set. -/
theorem callW_second_identical {E : Env} {f : Nat} {S : Sys} {w k e : Nat} {v : Obj}
    {c1 : Cache Nat Nat}
    (hget : (getCache E S w).get k = (some e, c1))
    (hrec : (getE S e).recomputing = false)
    (hd : (getE S e).dirty = false)
    (hdc : (getE S e).dirtyChildren = [])
    (hv : (getE S e).value = Value.known v)
    (hp : S.pending = [])
    (hsz : ¬ (Cache.set c1 k e).entries.length > (Cache.set c1 k e).max) :
    exec E (f + 1 + 1) S (.callW none w k) =
      .ok v { cacheSet E (putCache S w c1) w k e with pending := [] } := by
  rw [callW_hit none hget]
  rw [recomp_cached_known (S := putCache S w c1) hrec hd hdc hv]
  show (match cleanAll (f + 1) E { cacheSet E (putCache S w c1) w k e with
      pending := insertIfAbsent (cacheSet E (putCache S w c1) w k e).pending w } with
    | Step.ok _ S6 => Step.ok v S6
    | Step.thrown o S6 => Step.thrown o S6
    | Step.nofuel S6 => Step.nofuel S6) =
    Step.ok v { cacheSet E (putCache S w c1) w k e with pending := [] }
  have hpend : insertIfAbsent (cacheSet E (putCache S w c1) w k e).pending w = [w] := by
    show insertIfAbsent S.pending w = [w]
    rw [hp]
    rfl
  rw [hpend]
  have hg1 : getCache E (putCache S w c1) w = c1 := by
    show (lookupA (setA S.caches w c1) w).getD ⟨[], (E w).max⟩ = c1
    rw [lookupA_setA_same]
    rfl
  have hlk2 : lookupA ({ cacheSet E (putCache S w c1) w k e with
      pending := ([w] : List Nat) } : Sys).caches w = some (Cache.set c1 k e) := by
    show lookupA (setA (setA S.caches w c1) w
      ((getCache E (putCache S w c1) w).set k e)) w = some (Cache.set c1 k e)
    rw [hg1, lookupA_setA_same]
  rw [cleanAll_single (f + 1) E rfl hlk2 hsz]

/-- C1: pure-function memoization.  With every consulted user function
pure (the bodies of the embedding are deterministic) and nothing
dirtied, forgotten or evicted in between, the second of two successive
equal-key top-level calls of a wrapper hits the cached settled entry and
returns the very same object (same object identity), with the event log
and the entry heap unchanged from before the call, so the user function
runs zero further times; moreover any single top-level call, hit or
miss, invokes the consulted entry's user function at most once, so
across the two calls the function is invoked at most once.  A concrete
two-call run of a pure wrapper shows the first call returning the
allocated object, the second call returning the identical object, and
exactly one invoke event in the log after both calls. -/
theorem C1_memoization :
    (∀ (E : Env) (f : Nat) (S : Sys) (w k e : Nat) (v : Obj) (c1 : Cache Nat Nat),
      (getCache E S w).get k = (some e, c1) →
      (getE S e).recomputing = false →
      (getE S e).dirty = false →
      (getE S e).dirtyChildren = [] →
      (getE S e).value = Value.known v →
      S.pending = [] →
      ¬ (Cache.set c1 k e).entries.length > (Cache.set c1 k e).max →
      exec E (f + 1 + 1) S (.callW none w k) =
        .ok v { cacheSet E (putCache S w c1) w k e with pending := [] } ∧
      ({ cacheSet E (putCache S w c1) w k e with
          pending := ([] : List Nat) } : Sys).log = S.log ∧
      ({ cacheSet E (putCache S w c1) w k e with
          pending := ([] : List Nat) } : Sys).heap = S.heap) ∧
    (∀ (E : Env) (f : Nat) (slot : Option Nat) (S : Sys) (w k e cnt : Nat)
        (c1 : Cache Nat Nat),
      (getCache E S w).get k = (some e, c1) →
      (getE S e).recomputing = false →
      e + 1 ≤ S.nextE →
      invokeCountE e S.log = cnt →
      invokeCountE e (((exec E (f + 1 + 1) S (.callW slot w k)).state).log) ≤ cnt + 1) ∧
    (∀ (E : Env) (f : Nat) (slot : Option Nat) (S : Sys) (w k cnt : Nat),
      ((getCache E S w).get k).1 = none →
      invokeCountE S.nextE S.log = cnt →
      invokeCountE S.nextE (((exec E (f + 1 + 1) S (.callW slot w k)).state).log)
        ≤ cnt + 1) ∧
    (exec c1Env 12 initS (Task.callW none 0 0) = .ok c1V c1T1 ∧
     exec c1Env 12 c1T1 (Task.callW none 0 0) =
       .ok c1V { cacheSet c1Env (putCache c1T1 0 c1C1) 0 0 0 with pending := [] } ∧
     invokeCount (((exec c1Env 12 c1T1 (Task.callW none 0 0)).state).log) = 1 ∧
     invokeCount c1T1.log = 1) := by
  refine ⟨?_, ?_, ?_, ?_, ?_, ?_, ?_⟩
  · intro E f S w k e v c1 hget hrec hd hdc hv hp hsz
    exact ⟨callW_second_identical hget hrec hd hdc hv hp hsz, rfl, rfl⟩
  · intro E f slot S w k e cnt c1 hget hrec hlt hcnt
    exact callW_count_le_hit f slot hget hrec hlt hcnt
  · intro E f slot S w k cnt hget hcnt
    exact callW_count_le_miss f slot hget hcnt
  · decide
  · decide
  · decide
  · decide

/-- Closed instance of C1: the second call of the fixture wrapper is the
exact cached return, and a first call from scratch invokes the function
at most once. -/
theorem C1_memoization_witness :
    (exec c1Env (10 + 1 + 1) c1T1 (Task.callW none 0 0) =
       .ok c1V { cacheSet c1Env (putCache c1T1 0 c1C1) 0 0 0 with pending := [] }) ∧
    invokeCountE 0 (((exec c1Env (10 + 1 + 1) initS (Task.callW none 0 0)).state).log)
      ≤ 0 + 1 :=
  ⟨(C1_memoization.1 c1Env 10 c1T1 0 0 0 c1V c1C1 (by decide) (by decide) (by decide)
      (by decide) (by decide) (by decide) (by decide)).1,
   C1_memoization.2.2.1 c1Env 10 none initS 0 0 0 (by decide) (by decide)⟩

end Optimism
